import Mathlib

/-!
# Flashcard scheduling core

A shallow embedding of the scheduling code of the flashcard application
(`src/services/scheduling.go`, `src/services/tags.go`, `src/models/flashcard.go`)
together with theorems about the schedule table, the due classifier, the
selection policy, the display of a delay and the streak.

Conventions of the embedding:

* Go `int` / `int64` values are `Int`; where the code adds, subtracts or negates
  them (`time.Now().Unix() + reviewAheadOffset`, `-absDelta`,
  `nowUnix - 24*3600`) the result is wrapped to 64 bits by `wrapInt64`.
* Go `float64` values are modelled exactly, see `F64`.
* Go maps are association lists read with `List.lookup`; the functions assume
  but do not require that keys are distinct.
* The wall clock, the random draw and the local calendar day of an instant are
  explicit inputs.
* A Go `(value, error)` pair is a pair whose second component is an
  `Option String` holding the error message; a run-time panic is `none` of an
  outer `Option`.
-/

set_option linter.dupNamespace false

namespace Flashcards

/-! ## Data model (`models/flashcard.go`) -/

/-- Go `models.Asset` (the field `Type` is spelled `Type_`, `Type` being reserved). -/
structure Asset where
  ID : String
  Type_ : String
  Alt : String
  deriving DecidableEq

/-- Go `models.Content` (the field `Type` is spelled `Type_`). -/
structure Content where
  Type_ : String
  Content : String
  deriving DecidableEq

/-- Go `models.Tag`. -/
structure Tag where
  ID : Int
  Name : String
  deriving DecidableEq

/-- Go `models.Flashcard`. -/
structure Flashcard where
  ID : String
  Front : Content
  Back : Content
  Assets : List Asset
  CreatedBy : String
  Tags : List Tag
  deriving DecidableEq

/-- Go `models.StudentCard`. -/
structure StudentCard where
  CardID : String
  Status : Int
  Due : Int
  deriving DecidableEq

/-- The zero value `models.StudentCard{}`. -/
def StudentCard.zero : StudentCard := ⟨"", 0, 0⟩

/-! ## Schedule table (`LookupNext`) -/

/-- Go `LookupNext`: the outer `switch` on the status, the inner `switch` on the
button; a status or button without a `case` falls through to `return -1, -1`. -/
def LookupNext (currentStatus : Int) (buttonPressed : String) : Int × Int :=
  if currentStatus = 0 then
    if buttonPressed = "1" then (1, 2 * 60)
    else if buttonPressed = "2" then (1, 5 * 60)
    else if buttonPressed = "3" then (1, 10 * 60)
    else if buttonPressed = "4" then (4, 20 * 3600)
    else (-1, -1)
  else if currentStatus = 1 then
    if buttonPressed = "1" then (1, 2 * 60)
    else if buttonPressed = "2" then (2, 5 * 60)
    else if buttonPressed = "3" then (3, 10 * 60)
    else if buttonPressed = "4" then (4, 20 * 3600)
    else (-1, -1)
  else if currentStatus = 2 then
    if buttonPressed = "1" then (1, 2 * 60)
    else if buttonPressed = "2" then (3, 5 * 60)
    else if buttonPressed = "3" then (4, 20 * 3600)
    else if buttonPressed = "4" then (4, 20 * 3600)
    else (-1, -1)
  else if currentStatus = 3 then
    if buttonPressed = "1" then (1, 2 * 60)
    else if buttonPressed = "2" then (3, 5 * 60)
    else if buttonPressed = "3" then (4, (1 * 24 - 4) * 3600)
    else if buttonPressed = "4" then (4, (2 * 24 - 4) * 3600)
    else (-1, -1)
  else if currentStatus = 4 then
    if buttonPressed = "1" then (1, 2 * 60)
    else if buttonPressed = "2" then (3, 5 * 60)
    else if buttonPressed = "3" then (4, (2 * 24 - 4) * 3600)
    else if buttonPressed = "4" then (5, (3 * 24 - 4) * 3600)
    else (-1, -1)
  else if currentStatus = 5 then
    if buttonPressed = "1" then (1, 2 * 60)
    else if buttonPressed = "2" then (3, 5 * 60)
    else if buttonPressed = "3" then (5, (5 * 24 - 4) * 3600)
    else if buttonPressed = "4" then (6, (14 * 24 - 4) * 3600)
    else (-1, -1)
  else if currentStatus = 6 then
    if buttonPressed = "1" then (1, 2 * 60)
    else if buttonPressed = "2" then (3, 5 * 60)
    else if buttonPressed = "3" then (6, (31 * 24 - 4) * 3600)
    else if buttonPressed = "4" then (6, (62 * 24 - 4) * 3600)
    else (-1, -1)
  else (-1, -1)

/-! ## Tag filter (`CardMatchesTags`) -/

/-- Go `map[string]bool`, as an association list. -/
abbrev TagSet := List (String × Bool)

/-- Go `map[string]models.Flashcard`, as an association list. -/
abbrev CardIndex := List (String × Flashcard)

/-- The Go map read `allowed[name]`: the stored value, `false` for a missing key. -/
def TagSet.get (allowed : TagSet) (name : String) : Bool :=
  (allowed.lookup name).getD false

/-- The `for _, tag := range card.Tags` loop of `CardMatchesTags`: `true` at the
first tag the allowed map sends to `true`, `false` when the range is exhausted. -/
def matchesAnyTag (allowed : TagSet) : List Tag → Bool
  | [] => false
  | tag :: rest => if allowed.get tag.Name then true else matchesAnyTag allowed rest

/-- Go `CardMatchesTags`. -/
def CardMatchesTags (card : Flashcard) (allowed : TagSet) : Bool :=
  if allowed.length = 0 then true
  else matchesAnyTag allowed card.Tags

/-! ## Due classifier (the `for _, card := range cards` loop of `PickNextCard`) -/

/-- The four slices the classification loop of `PickNextCard` appends to. -/
structure Buckets where
  newCardsDue : List StudentCard
  inProgressCards : List StudentCard
  inProgressCardsDue : List StudentCard
  reviewCardsDue : List StudentCard
  deriving DecidableEq

/-- The four `nil` slices declared before the loop. -/
def Buckets.empty : Buckets := ⟨[], [], [], []⟩

/-- One iteration of the classification loop of `PickNextCard`. -/
def classifyStep (now : Int) (allCards : CardIndex) (allowedTags : TagSet)
    (b : Buckets) (card : StudentCard) : Buckets :=
  match allCards.lookup card.CardID with
  | none => b
  | some fullCard =>
    if !CardMatchesTags fullCard allowedTags then b
    else
      let b1 : Buckets :=
        if card.Status = 1 ∨ card.Status = 2 ∨ card.Status = 3 then
          { b with inProgressCards := b.inProgressCards ++ [card] }
        else b
      if card.Due > now then b1
      else if card.Status = 0 then
        { b1 with newCardsDue := b1.newCardsDue ++ [card] }
      else if card.Status = 1 ∨ card.Status = 2 ∨ card.Status = 3 then
        { b1 with inProgressCardsDue := b1.inProgressCardsDue ++ [card] }
      else if card.Status = 4 ∨ card.Status = 5 ∨ card.Status = 6 then
        { b1 with reviewCardsDue := b1.reviewCardsDue ++ [card] }
      else b1

/-- The classification loop of `PickNextCard`, run from the empty slices. -/
def classify (now : Int) (cards : List StudentCard) (allCards : CardIndex)
    (allowedTags : TagSet) : Buckets :=
  cards.foldl (classifyStep now allCards allowedTags) Buckets.empty

/-! ## Selection policy (`getSoonestCard`, `PickNextCard`) -/

/-- Go `getSoonestCard`: an error for the empty slice, otherwise the result of
the scan that replaces `soonest` only by a card with a strictly smaller `Due`. -/
def getSoonestCard (cards : List StudentCard) : StudentCard × Option String :=
  match cards with
  | [] => (StudentCard.zero, some "no cards available")
  | c0 :: _ =>
    (cards.foldl (fun soonest c => if c.Due < soonest.Due then c else soonest) c0, none)

/-- Two's-complement wrap-around of a 64-bit signed sum. -/
def wrapInt64 (x : Int) : Int := (x + 2 ^ 63) % 2 ^ 64 - 2 ^ 63

/-- The value `now` of `PickNextCard`: `time.Now().Unix() + reviewAheadOffset`
in `int64` arithmetic, the clock reading being the input `clock`. -/
def nowEffective (clock reviewAheadOffset : Int) : Int :=
  wrapInt64 (clock + reviewAheadOffset)

/-- The digit loop of Go `strconv.Atoi`: the value of a run of ASCII digits,
`none` at the first byte that is not a digit. -/
def parseDigits : List Char → Nat → Option Nat
  | [], acc => some acc
  | c :: rest, acc =>
    if 48 ≤ c.toNat ∧ c.toNat ≤ 57 then parseDigits rest (acc * 10 + (c.toNat - 48))
    else none

/-- Go `strconv.Atoi` on a 64-bit platform: an optional sign, then at least one
decimal digit and nothing else; a value outside the `int64` range is an error.
`none` stands for a non-nil error. -/
def Atoi (s : String) : Option Int :=
  match s.data with
  | [] => none
  | c :: rest =>
    let neg : Bool := c = '-'
    let digits : List Char := if c = '-' ∨ c = '+' then rest else c :: rest
    if digits.length < 1 then none
    else
      match parseDigits digits 0 with
      | none => none
      | some n =>
        let v : Int := if neg then -(n : Int) else (n : Int)
        if -(2 ^ 63) ≤ v ∧ v ≤ 2 ^ 63 - 1 then some v else none

/-- The part of `PickNextCard` that builds `options` and `categoryFlags` from
the classified slices, the daily count and the parsed daily limit `i`. -/
def buildOptions (b : Buckets) (numNewCardsToday i : Int) :
    List (List StudentCard) × List Bool :=
  let options0 : List (List StudentCard) := []
  let categoryFlags0 : List Bool := [false, false, false]
  let (options1, categoryFlags1) :=
    if b.reviewCardsDue.length > 0 then
      (options0 ++ [b.reviewCardsDue], categoryFlags0.set 0 true)
    else (options0, categoryFlags0)
  let (options2, categoryFlags2) :=
    if b.inProgressCardsDue.length > 0 then
      (options1 ++ [b.inProgressCardsDue], categoryFlags1.set 1 true)
    else (options1, categoryFlags1)
  if numNewCardsToday < i ∧ b.inProgressCardsDue.length < 5 ∧ b.newCardsDue.length > 0 then
    (options2 ++ [b.newCardsDue], categoryFlags2.set 2 true)
  else (options2, categoryFlags2)

/-- The Go result triple `(string, bool, error)`. -/
abbrev PickResult := String × Bool × Option String

/-- Go `PickNextCard`. The clock reading `clock` (`time.Now().Unix()`) and the
value `r` drawn by `rand.Intn(len(options))` are explicit inputs. The result is
`none` when `options[r]` would be out of range, which `rand.Intn` excludes. -/
def PickNextCard (clock : Int) (r : Nat) (reviewAheadOffset : Int)
    (cards : List StudentCard) (numNewCardsToday : Int) (maxNewCardsToday : String)
    (allCards : CardIndex) (allowedTags : TagSet) : Option PickResult :=
  let now := nowEffective clock reviewAheadOffset
  let b := classify now cards allCards allowedTags
  match Atoi maxNewCardsToday with
  | none => some ("", false, some "invalid maxNewCardsToday value")
  | some i =>
    let oc := buildOptions b numNewCardsToday i
    let options := oc.1
    let categoryFlags := oc.2
    if options.length = 0 then
      if b.inProgressCards.length > 0 then
        match getSoonestCard b.inProgressCards with
        | (_, some err) => some ("", false, some err)
        | (soonest, none) => some (soonest.CardID, false, none)
      else some ("", false, some "no cards available")
    else
      match options[r]? with
      | none => none
      | some selectedCategory =>
        let selectedIsNew : Bool :=
          categoryFlags.getD 2 false && decide (r = options.length - 1)
        match getSoonestCard selectedCategory with
        | (_, some err) => some ("", false, some err)
        | (soonest, none) => some (soonest.CardID, selectedIsNew, none)

/-! ## Floating point (`float64`)

`FormatDueTime` and `GetCurrentStreak` compute with `float64`. A finite
`float64` is modelled exactly as sign, integer mantissa and binary exponent;
every operation computes the exact result and rounds it to 53 significant bits,
ties to even, as IEEE 754 prescribes. The exponent is unbounded: no value these
functions compute from 64-bit integers overflows or is subnormal. -/

/-- A finite `float64`: the value `± mant * 2 ^ exp`. -/
structure F64 where
  neg : Bool
  mant : Nat
  exp : Int
  deriving DecidableEq

/-- The integer nearest to `x / y`, ties to the even one (`y > 0`). -/
def rneDiv (x y : Nat) : Nat :=
  if 2 * (x % y) < y then x / y
  else if y < 2 * (x % y) then x / y + 1
  else if (x / y) % 2 = 0 then x / y
  else x / y + 1

/-- Doubles `num`, counting the doublings from `t`, until `2^52 * den ≤ num`. -/
def scaleUp : Nat → Nat → Nat → Nat → Nat × Nat
  | 0, num, _, t => (num, t)
  | fuel + 1, num, den, t =>
    if 2 ^ 52 * den ≤ num then (num, t) else scaleUp fuel (2 * num) den (t + 1)

/-- Doubles `den`, counting the doublings from `e`, until `num < 2^53 * den`. -/
def scaleDown : Nat → Nat → Nat → Nat → Nat × Nat
  | 0, _, den, e => (den, e)
  | fuel + 1, num, den, e =>
    if num < 2 ^ 53 * den then (den, e) else scaleDown fuel num (2 * den) (e + 1)

/-- The positive fraction `num / den` rounded to 53 significant bits, ties to even:
the result `(m, e)` stands for `m * 2 ^ e`, where `e` is the exponent that scales
the fraction into `[2^52, 2^53)`. The fuel of either loop is enough for every
input. -/
def roundRatio (num den : Nat) : Nat × Int :=
  if num = 0 ∨ den = 0 then (0, 0)
  else if num < 2 ^ 52 * den then
    (rneDiv (scaleUp (53 + den) num den 0).1 den, -((scaleUp (53 + den) num den 0).2 : Int))
  else
    (rneDiv num (scaleDown (num + 1) num den 0).1, ((scaleDown (num + 1) num den 0).2 : Int))

/-- The conversion `float64(n)` of an integer. -/
def F64.ofInt (n : Int) : F64 :=
  ⟨decide (n < 0), (roundRatio n.natAbs 1).1, (roundRatio n.natAbs 1).2⟩

/-- The quotient `x / y` of two `float64` values, `y` not zero. -/
def F64.div (x y : F64) : F64 :=
  ⟨x.neg != y.neg, (roundRatio x.mant y.mant).1, (roundRatio x.mant y.mant).2 + x.exp - y.exp⟩

/-- The value of `x` as a signed multiple of `2 ^ e0`, for `e0 ≤ x.exp`. -/
def F64.signed (x : F64) (e0 : Int) : Int :=
  (if x.neg then -1 else 1) * ((x.mant : Int) * 2 ^ (x.exp - e0).toNat)

/-- The sum `x + y` of two `float64` values. -/
def F64.add (x y : F64) : F64 :=
  ⟨decide (x.signed (min x.exp y.exp) + y.signed (min x.exp y.exp) < 0),
    (roundRatio (x.signed (min x.exp y.exp) + y.signed (min x.exp y.exp)).natAbs 1).1,
    (roundRatio (x.signed (min x.exp y.exp) + y.signed (min x.exp y.exp)).natAbs 1).2 +
      min x.exp y.exp⟩

/-- Go `math.Round`: the nearest integer, halves away from zero. -/
def F64.round (x : F64) : F64 :=
  if 0 ≤ x.exp then x
  else ⟨x.neg, (2 * x.mant + 2 ^ (-x.exp).toNat) / 2 ^ ((-x.exp).toNat + 1), 0⟩

/-- The conversion `int(x)`: the fraction is discarded (truncation toward zero). -/
def F64.toInt (x : F64) : Int :=
  (if x.neg then -1 else 1) *
    (if 0 ≤ x.exp then ((x.mant * 2 ^ x.exp.toNat : Nat) : Int)
     else ((x.mant / 2 ^ (-x.exp).toNat : Nat) : Int))

/-! ## Display of a delay (`FormatDueTime`) -/

/-- The `timeStr` that `FormatDueTime` builds before the prefix test: the
magnitude of the delay (`-seconds` wraps for the least `int`), printed in
seconds, or divided in `float64`, rounded by `math.Round` and printed in minutes,
hours or days. -/
def formatDueText (seconds : Int) : String :=
  let absDelta : Int := if seconds < 0 then wrapInt64 (-seconds) else seconds
  if absDelta < 90 then toString absDelta ++ " sec"
  else if absDelta < 90 * 60 then
    toString (F64.toInt (F64.round (F64.div (F64.ofInt absDelta) (F64.ofInt 60)))) ++ " min"
  else if absDelta < 36 * 3600 then
    toString (F64.toInt (F64.round (F64.div (F64.ofInt absDelta) (F64.ofInt 3600)))) ++ " hr"
  else
    toString (F64.toInt (F64.round (F64.div (F64.ofInt absDelta) (F64.ofInt 86400)))) ++ " d"

/-- Go `FormatDueTime`. -/
def FormatDueTime (seconds nextStatus : Int) : String :=
  if nextStatus ≥ 0 ∧ nextStatus ≤ 3 then "<" ++ formatDueText seconds
  else formatDueText seconds

/-! ## Calendar date and its text (`Time.Date`, `Format("2006-01-02")`)

The Go library turns an instant into a calendar date of its time zone and prints
it. The time zone (the zone database) stays a parameter of the theorems: the
function `localDay` that sends Unix seconds to the local calendar day, counted
from 1970-01-01. The date of a day and its text are modelled here. -/

/-- The 400-year era of a day counted from 1970-01-01, the eras starting on
the first of March of the years 0, 400, 800 and so on. -/
def eraOf (day : Int) : Int := (day + 719468) / 146097

/-- The day within its era, from 0 to 146096. -/
def dayOfEra (day : Int) : Int := day + 719468 - eraOf day * 146097

/-- The year within the era, from 0 to 399, of a day of the era. -/
def yearOfEra (doe : Int) : Int := (doe - doe / 1460 + doe / 36524 - doe / 146096) / 365

/-- The day within the year that starts on the first of March, from 0 to 365. -/
def dayOfYear (doe : Int) : Int :=
  doe - (365 * yearOfEra doe + yearOfEra doe / 4 - yearOfEra doe / 100)

/-- The month counted from March (0) to February (11). -/
def monthIndex (doy : Int) : Int := (5 * doy + 2) / 153

/-- The day of the month, from 1. -/
def dayOfMonth (doy : Int) : Int := doy - (153 * monthIndex doy + 2) / 5 + 1

/-- The date (year, month, day) that Go `Time.Date` gives for a local calendar
day counted from 1970-01-01: the proleptic Gregorian calendar, with the
astronomical year numbering of Go (the year before year 1 is year 0). -/
def civilFromDays (day : Int) : Int × Int × Int :=
  let era := eraOf day
  let doe := dayOfEra day
  let yoe := yearOfEra doe
  let doy := dayOfYear doe
  let mp := monthIndex doy
  let d := dayOfMonth doy
  let m := if mp < 10 then mp + 3 else mp - 9
  (if m ≤ 2 then yoe + era * 400 + 1 else yoe + era * 400, m, d)

/-- The character of the last decimal digit of a number. -/
def decimalDigit (n : Nat) : Char := Char.ofNat (48 + n % 10)

/-- Go `appendInt` of package `time`: the sign of a negative number, then its
decimal digits with zeros in front up to `width` digits, a longer number being
printed in full. The two-digit and the four-digit fields have their own branch,
as in the library. -/
def appendInt (x : Int) (width : Nat) : List Char :=
  (if x < 0 then ['-'] else []) ++
    (if width = 2 ∧ x.natAbs < 100 then [decimalDigit (x.natAbs / 10), decimalDigit x.natAbs]
     else if width = 4 ∧ x.natAbs < 10000 then
       [decimalDigit (x.natAbs / 1000), decimalDigit (x.natAbs / 100),
         decimalDigit (x.natAbs / 10), decimalDigit x.natAbs]
     else List.replicate (width - (toString x.natAbs).length) '0' ++ (toString x.natAbs).data)

/-- Go `Format("2006-01-02")` for the date of a local calendar day counted from
1970-01-01: the year in at least four digits, the month and the day of the
month in two, with "-" between them. The year 10000 is printed with five digits
and a year before 0 with a sign. -/
def formatDay (day : Int) : String :=
  String.mk (appendInt (civilFromDays day).1 4 ++ '-' :: appendInt (civilFromDays day).2.1 2 ++
    '-' :: appendInt (civilFromDays day).2.2 2)

/-! ## Streak (`GetCurrentStreak`) -/

/-- Go `endTime.Sub(startTime)` for two instants given in Unix seconds: the
difference in nanoseconds, saturated to the `int64` range of `time.Duration`.
This is what the library computes for instants below 2^63 - 62135596800 seconds,
those that `time.Unix` stores without wrapping its seconds since the year 1. -/
def durationSub (endSeconds startSeconds : Int) : Int :=
  if (endSeconds - startSeconds) * 1000000000 < -(2 ^ 63) then -(2 ^ 63)
  else if 2 ^ 63 - 1 < (endSeconds - startSeconds) * 1000000000 then 2 ^ 63 - 1
  else (endSeconds - startSeconds) * 1000000000

/-- Go `Duration.Hours`: `float64(d / Hour) + float64(d % Hour) / (60*60*1e9)`,
the integer division truncating toward zero. -/
def durationHours (d : Int) : F64 :=
  F64.add (F64.ofInt (Int.tdiv d 3600000000000))
    (F64.div (F64.ofInt (Int.tmod d 3600000000000)) (F64.ofInt 3600000000000))

/-- The text the source file holds for the streak-broken emoji (a skull, stored
in a double-encoded form). -/
def deadEmoji : String := "ðŸ’€"

/-- The emoji tiers of `GetCurrentStreak`, with the texts of the source file. -/
def streakEmoji (days : Int) : String :=
  if days ≤ 5 then "ðŸ”¥"
  else if days ≤ 10 then "ðŸ’ª"
  else if days ≤ 20 then "ðŸ¥‡"
  else if days ≤ 49 then "ðŸ†"
  else if days ≤ 99 then "ðŸ’Ž"
  else "ðŸ’¯"

/-- Go `GetCurrentStreak`. The reading `nowUnix` of `time.Now().UTC().Unix()` is
an explicit input, and so is `ukDay`, the function that sends Unix seconds `t`
to `utils.UnixToUKTime(t).Format("2006-01-02")` (the time-zone database and the
date formatting belong to the Go library). Go compares the two day strings byte
by byte, which is the lexicographic order of their characters. -/
def GetCurrentStreak (ukDay : Int → String) (nowUnix : Int)
    (streakStartTime streakEndTime : Int) : Int × String :=
  let endDay := ukDay streakEndTime
  let yesterdayUnix := wrapInt64 (nowUnix - 24 * 3600)
  let yesterdayDay := ukDay yesterdayUnix
  if endDay.data < yesterdayDay.data then (0, deadEmoji)
  else
    let days0 : Int :=
      F64.toInt (F64.div (durationHours (durationSub streakEndTime streakStartTime))
        (F64.ofInt 24)) + 1
    let days : Int := if days0 < 1 then 1 else days0
    (days, streakEmoji days)

/-! ## Tag pre-filter, due counts and streak update -/

/-- Go `FilterStudentCardsByTags`: the loop that appends to `filtered` the cards
whose flashcard is in the index and passes `CardMatchesTags`. -/
def FilterStudentCardsByTags (cards : List StudentCard) (allCards : CardIndex)
    (allowed : TagSet) : List StudentCard :=
  cards.foldl (fun filtered sc =>
    match allCards.lookup sc.CardID with
    | none => filtered
    | some card => if CardMatchesTags card allowed then filtered ++ [sc] else filtered) []

/-- Go `models.CardDueStats`. -/
structure CardDueStats where
  InProgressDue : Int
  ReviewDue : Int
  NewAvailable : Int
  deriving DecidableEq

/-- Go `CountDueCards`. -/
def CountDueCards (cards : List StudentCard) (now : Int) : CardDueStats :=
  cards.foldl (fun stats c =>
    let stats1 : CardDueStats :=
      if c.Status = 1 ∨ c.Status = 2 ∨ c.Status = 3 then
        { stats with InProgressDue := stats.InProgressDue + 1 }
      else stats
    let stats2 : CardDueStats :=
      if (c.Status = 4 ∨ c.Status = 5 ∨ c.Status = 6) ∧ c.Due ≤ now then
        { stats1 with ReviewDue := stats1.ReviewDue + 1 }
      else stats1
    if c.Status = 0 ∧ c.Due ≤ now then
      { stats2 with NewAvailable := stats2.NewAvailable + 1 }
    else stats2) ⟨0, 0, 0⟩

/-- The test of `checkAndUpdateStreak` that decides whether the streak is
updated: `stats.InProgressDue == 0 && stats.ReviewDue == 0 &&
(numNewToday >= 20 || stats.NewAvailable == 0)`. -/
def streakSessionComplete (stats : CardDueStats) (numNewToday : Int) : Bool :=
  decide (stats.InProgressDue = 0) && decide (stats.ReviewDue = 0) &&
    (decide (numNewToday ≥ 20) || decide (stats.NewAvailable = 0))

/-- The Go map assignment `m[key] = value`. -/
def mapSet (m : List (String × Int)) (key : String) (value : Int) : List (String × Int) :=
  (key, value) :: m.filter fun p => p.1 != key

/-- The JSON body that `checkAndUpdateStreak` builds for its PATCH once the
session is complete, from the clock reading `nowUnix` and the stored
`streak_end_time`; `ukDay` sends Unix seconds `t` to
`utils.UnixToUKTime(t).Format("2006-01-02")`. -/
def streakUpdateBody (ukDay : Int → String) (nowUnix lastStreakEndTime : Int) :
    List (String × Int) :=
  let today := ukDay nowUnix
  let yesterdayUnix := wrapInt64 (nowUnix - 24 * 3600)
  let yesterdayUKDay := ukDay yesterdayUnix
  let lastEndDay := ukDay lastStreakEndTime
  let body0 : List (String × Int) := []
  let body1 : List (String × Int) :=
    if lastEndDay.data < yesterdayUKDay.data then mapSet body0 "streak_start_time" nowUnix
    else if lastEndDay ≠ today then mapSet body0 "streak_start_time" nowUnix
    else body0
  mapSet body1 "streak_end_time" nowUnix

/-! ## Card order, browse window and new card ids -/

/-- Go `utils.LexicalCardIDLess` on the bytes of the two strings (a Go string
is a sequence of bytes, and the loop reads `rune(a[k])`). The predicate
`isLetter` stands for `unicode.IsLetter` of the Go library. The recursion is the
loop over the common length followed by `len(a) < len(b)`. -/
def LexicalCardIDLess (isLetter : Nat → Bool) : List Nat → List Nat → Bool
  | [], [] => false
  | [], _ :: _ => true
  | _ :: _, [] => false
  | ar :: a, br :: b =>
    if isLetter ar != isLetter br then isLetter ar
    else if ar ≠ br then decide (ar < br)
    else LexicalCardIDLess isLetter a b

/-- The digit loop of Go `strconv.ParseUint` in base 10 for 64 bits: `none` at
the first byte that is not a digit (a syntax error); the greatest `uint64` with
the range flag as soon as one more digit would overflow, before the rest of the
text is read; otherwise the value. -/
def parseUint : List Char → Nat → Option (Nat × Bool)
  | [], n => some (n, false)
  | c :: rest, n =>
    if 48 ≤ c.toNat ∧ c.toNat ≤ 57 then
      if n ≥ (2 ^ 64 - 1) / 10 + 1 then some (2 ^ 64 - 1, true)
      else if n * 10 + (c.toNat - 48) > 2 ^ 64 - 1 then some (2 ^ 64 - 1, true)
      else parseUint rest (n * 10 + (c.toNat - 48))
    else none

/-- The integer that Go `strconv.Atoi` returns next to its error, which
`ServeBrowsePage` discards with `offset, _ := strconv.Atoi(offsetStr)`: 0 for a
syntax error (an empty text, a sign alone, a byte that is not a digit); the
nearest bound of `int` for a range error, which `ParseUint` reports at the first
digit that overflows 64 bits and `ParseInt` for a value outside the `int` range;
otherwise the parsed value. -/
def AtoiValue (s : String) : Int :=
  match s.data with
  | [] => 0
  | c :: rest =>
    let neg : Bool := c = '-'
    let digits : List Char := if c = '-' ∨ c = '+' then rest else c :: rest
    if digits.length < 1 then 0
    else
      match parseUint digits 0 with
      | none => 0
      | some (un, _) =>
        if ¬ neg ∧ un ≥ 2 ^ 63 then 2 ^ 63 - 1
        else if neg ∧ un > 2 ^ 63 then -(2 ^ 63)
        else if neg then -(un : Int) else (un : Int)

/-- The window of `ServeBrowsePage` for a parsed `offset`: `end`, `hasMore` and
the slice expression `filtered[offset:end]` with `pageSize` 25. The result is
`none` when the slice expression panics, which Go does unless
`0 ≤ offset ≤ end` (`end` never exceeds the length). The components are the
fields `Flashcards`, `HasMore` and `NextOffset` of the page data. -/
def browsePage {α : Type} (filtered : List α) (offset : Int) : Option (List α × Bool × Int) :=
  let pageSize : Int := 25
  let end0 : Int := wrapInt64 (offset + pageSize)
  let end_ : Int := if end0 > (filtered.length : Int) then (filtered.length : Int) else end0
  let hasMore : Bool := decide (end_ < (filtered.length : Int))
  if 0 ≤ offset ∧ offset ≤ end_ then
    some ((filtered.drop offset.toNat).take (end_ - offset).toNat, hasMore, end_)
  else none

/-- Go `ServeBrowsePage` from the query parameter `offset` to the page data,
the list `filtered` of the matching previews being an input. -/
def ServeBrowsePage {α : Type} (filtered : List α) (offsetStr : String) :
    Option (List α × Bool × Int) :=
  browsePage filtered (AtoiValue offsetStr)

/-- Go `fmt.Sprintf("%06d", n)`: the decimal digits of `n`, padded with zeros to
the width 6, the sign counting for the width and standing before the zeros. -/
def fmtPad6 (n : Int) : String :=
  if n < 0 then
    "-" ++ String.mk (List.replicate (5 - (toString n.natAbs).length) '0') ++ toString n.natAbs
  else String.mk (List.replicate (6 - (toString n.natAbs).length) '0') ++ toString n.natAbs

/-- Go `generateSequentialCardID` after the fetch of the ids: `ids` is the list
the store returned. The loop keeps the greatest number parsed from a suffix,
starting from 0, and `maxNum + 1` is computed in `int`. -/
def generateSequentialCardID (studentId : String) (ids : List String) : String :=
  let pfx : String := "card_" ++ studentId ++ "_"
  let maxNum : Int := ids.foldl (fun maxNum id =>
    if pfx.data.isPrefixOf id.data then
      match Atoi (String.mk (id.data.drop pfx.data.length)) with
      | some n => if n > maxNum then n else maxNum
      | none => maxNum
    else maxNum) 0
  "card_" ++ studentId ++ "_" ++ fmtPad6 (wrapInt64 (maxNum + 1))

/-! ## Specification-side predicates -/

/-- A student card is eligible when its flashcard is in the index and passes
the tag filter: the cards the classification loop does not skip. -/
def eligible (allCards : CardIndex) (allowedTags : TagSet) (c : StudentCard) : Bool :=
  match allCards.lookup c.CardID with
  | none => false
  | some fullCard => CardMatchesTags fullCard allowedTags


/-- A string is a decimal integer literal when it is an optional sign `+` or
`-` followed by at least one ASCII digit and nothing else. -/
def isDecimalInteger (s : String) : Bool :=
  match s.data with
  | [] => false
  | c :: rest =>
    let digits : List Char := if c = '-' ∨ c = '+' then rest else c :: rest
    !digits.isEmpty && digits.all fun d => decide (48 ≤ d.toNat ∧ d.toNat ≤ 57)

/-- The effect on a student's card list of the store update issued by
`SubmitAnswer` (`updateCardStatus`, a PATCH of `status` and `due` on the rows
with the given `card_id`): every card with that id gets the new status and due
time, the other cards are unchanged. -/
def answerCard (cards : List StudentCard) (cardId : String) (newStatus newDue : Int) :
    List StudentCard :=
  cards.map fun c => if c.CardID = cardId then { c with Status := newStatus, Due := newDue }
    else c

/-- The value of a `float64` as a rational number. -/
def F64.toRat (x : F64) : ℚ :=
  (if x.neg then -1 else 1) * ((x.mant : ℚ) * 2 ^ x.exp)

/-- The order of two bytes that `LexicalCardIDLess` applies at the first
position where two strings differ: a letter stands before a byte that is not a
letter, and two bytes of the same kind are ordered by their value. -/
def byteBefore (isLetter : Nat → Bool) (x y : Nat) : Prop :=
  (isLetter x = true ∧ isLetter y = false) ∨ (isLetter x = isLetter y ∧ x < y)

/-- The number that the loop of `generateSequentialCardID` reads from a fetched
id: the suffix parsed by `strconv.Atoi` when the id starts with
"card_<studentId>_" and the suffix is an integer, nothing otherwise. -/
def cardNumber (studentId id : String) : Option Int :=
  if ("card_" ++ studentId ++ "_").data.isPrefixOf id.data then
    Atoi (String.mk (id.data.drop ("card_" ++ studentId ++ "_").data.length))
  else none

/-- The count of months of a day, which together with the day of the month
orders the dates. -/
def monthCount (day : Int) : Int :=
  (yearOfEra (dayOfEra day) + eraOf day * 400) * 12 + monthIndex (dayOfYear (dayOfEra day))

/-! ## Sample inputs -/

/-- A flashcard with the given id and tag names and empty content. -/
def sampleFlashcard (id : String) (tags : List String) : Flashcard :=
  ⟨id, ⟨"", ""⟩, ⟨"", ""⟩, [], "", tags.map fun t => ⟨0, t⟩⟩

/-- An index holding the flashcards "c0" .. "c6". -/
def sampleIndex : CardIndex :=
  [("c0", sampleFlashcard "c0" []), ("c1", sampleFlashcard "c1" ["maths"]),
   ("c2", sampleFlashcard "c2" []), ("c3", sampleFlashcard "c3" []),
   ("c4", sampleFlashcard "c4" []), ("c5", sampleFlashcard "c5" ["maths"]),
   ("c6", sampleFlashcard "c6" [])]

/-- Five in-progress cards and one new card, all due at time 1000. -/
def sampleThrottleCards : List StudentCard :=
  [⟨"c0", 0, 5⟩, ⟨"c1", 2, 10⟩, ⟨"c2", 1, 20⟩, ⟨"c3", 3, 30⟩, ⟨"c4", 2, 40⟩, ⟨"c5", 1, 50⟩]

/-- One review card (status 5) and one in-progress card (status 2), both due at
time 1000. -/
def sampleTwoBucketCards : List StudentCard :=
  [⟨"c5", 5, 50⟩, ⟨"c2", 2, 60⟩]

/-- Three in-progress cards, none due at time 1000, two tied for the earliest
due time. -/
def sampleFallbackCards : List StudentCard :=
  [⟨"c1", 2, 5000⟩, ⟨"c2", 1, 3000⟩, ⟨"c3", 3, 3000⟩]

/-- A single new card, due at time 1000. -/
def sampleSingleNewCard : List StudentCard := [⟨"c0", 0, 5⟩]

/-- The calendar day of an instant in winter, when Europe/London is on UTC:
the number of whole days since 1970-01-01. -/
def sampleWinterDay (unixSeconds : Int) : Int := unixSeconds / 86400

/-- The calendar day of an instant around the end of British Summer Time 2023
(the clocks go back at 2023-10-29 01:00 UTC): the number of whole local days
since 1970-01-01, the local time being UTC+1 before the change and UTC after. -/
def sampleAutumnDay (unixSeconds : Int) : Int :=
  if unixSeconds < 1698541200 then (unixSeconds + 3600) / 86400 else unixSeconds / 86400

/-- The letters among the bytes, read as Latin-1 code points the way
`unicode.IsLetter(rune(b))` does: A-Z, a-z, the ordinal indicators, the micro
sign and the accented letters. -/
def sampleIsLetter (b : Nat) : Bool :=
  (65 ≤ b && b ≤ 90) || (97 ≤ b && b ≤ 122) || b == 170 || b == 181 || b == 186 ||
    (192 ≤ b && b ≤ 214) || (216 ≤ b && b ≤ 246) || (248 ≤ b && b ≤ 255)

/-- The bytes of a text of ASCII characters. -/
def sampleBytes (s : String) : List Nat := s.data.map Char.toNat

/-! ## Theorems: schedule table -/

/-- C1: for the statuses 0, 1 and 2 and each of the ratings "1".."4",
`LookupNext` returns the pair of the schedule table: status 0 gives (1,120),
(1,300), (1,600), (4,72000); status 1 gives (1,120), (2,300), (3,600), (4,72000);
status 2 gives (1,120), (3,300), (4,72000), (4,72000). -/
theorem lookupNext_rows_0_1_2 :
    (LookupNext 0 "1" = (1, 120) ∧ LookupNext 0 "2" = (1, 300) ∧
      LookupNext 0 "3" = (1, 600) ∧ LookupNext 0 "4" = (4, 72000)) ∧
    (LookupNext 1 "1" = (1, 120) ∧ LookupNext 1 "2" = (2, 300) ∧
      LookupNext 1 "3" = (3, 600) ∧ LookupNext 1 "4" = (4, 72000)) ∧
    (LookupNext 2 "1" = (1, 120) ∧ LookupNext 2 "2" = (3, 300) ∧
      LookupNext 2 "3" = (4, 72000) ∧ LookupNext 2 "4" = (4, 72000)) := by
  decide

/-- C2, as stated, fails: for status 3 and rating "4" the code returns the delay
(2*24 - 4) * 3600 = 158400 seconds, not the 165600 seconds of the stated row. -/
theorem lookupNext_status3_rating4_not_165600 :
    LookupNext 3 "4" = (4, 158400) ∧ LookupNext 3 "4" ≠ (4, 165600) := by
  decide

/-- C2, amended: for the statuses 3 and 4 and each of the ratings "1".."4",
`LookupNext` returns: status 3 gives (1,120), (3,300), (4,72000), (4,158400);
status 4 gives (1,120), (3,300), (4,158400), (5,244800). -/
theorem lookupNext_rows_3_4 :
    (LookupNext 3 "1" = (1, 120) ∧ LookupNext 3 "2" = (3, 300) ∧
      LookupNext 3 "3" = (4, 72000) ∧ LookupNext 3 "4" = (4, 158400)) ∧
    (LookupNext 4 "1" = (1, 120) ∧ LookupNext 4 "2" = (3, 300) ∧
      LookupNext 4 "3" = (4, 158400) ∧ LookupNext 4 "4" = (5, 244800)) := by
  decide

/-- C3, as stated, fails: for status 5 and rating "3" the code returns the delay
(5*24 - 4) * 3600 = 417600 seconds, not the 424800 seconds of the stated row. -/
theorem lookupNext_status5_rating3_not_424800 :
    LookupNext 5 "3" = (5, 417600) ∧ LookupNext 5 "3" ≠ (5, 424800) := by
  decide

/-- C3, amended: for the statuses 5 and 6 and each of the ratings "1".."4",
`LookupNext` returns: status 5 gives (1,120), (3,300), (5,417600), (6,1195200);
status 6 gives (1,120), (3,300), (6,2664000), (6,5342400). -/
theorem lookupNext_rows_5_6 :
    (LookupNext 5 "1" = (1, 120) ∧ LookupNext 5 "2" = (3, 300) ∧
      LookupNext 5 "3" = (5, 417600) ∧ LookupNext 5 "4" = (6, 1195200)) ∧
    (LookupNext 6 "1" = (1, 120) ∧ LookupNext 6 "2" = (3, 300) ∧
      LookupNext 6 "3" = (6, 2664000) ∧ LookupNext 6 "4" = (6, 5342400)) := by
  decide

/-- C4: for every status in 0..6 and every rating among "1".."4", `LookupNext`
returns a next status in 1..6 and a positive delay, and for rating "1" it
returns (1, 120); in particular the statuses 1..6 are closed under every valid
transition. -/
theorem lookupNext_valid_range (status : Int) (rating : String)
    (hlo : 0 ≤ status) (hhi : status ≤ 6)
    (hr : rating = "1" ∨ rating = "2" ∨ rating = "3" ∨ rating = "4") :
    1 ≤ (LookupNext status rating).1 ∧ (LookupNext status rating).1 ≤ 6 ∧
      0 < (LookupNext status rating).2 ∧
      (rating = "1" → LookupNext status rating = (1, 120)) := by
  interval_cases status <;> rcases hr with h | h | h | h <;> subst h <;> decide

/-- Witness of C4 at status 6 and rating "4". -/
theorem lookupNext_valid_range_witness :
    1 ≤ (LookupNext 6 "4").1 ∧ (LookupNext 6 "4").1 ≤ 6 ∧ 0 < (LookupNext 6 "4").2 ∧
      (("4" : String) = "1" → LookupNext 6 "4" = (1, 120)) :=
  lookupNext_valid_range 6 "4" (by decide) (by decide) (by decide)

/-- C5: `LookupNext` returns the sentinel (-1, -1) exactly when the status is
outside 0..6 or the rating is none of the exact strings "1", "2", "3", "4". -/
theorem lookupNext_sentinel_iff (status : Int) (rating : String) :
    LookupNext status rating = (-1, -1) ↔
      (¬ (0 ≤ status ∧ status ≤ 6) ∨
        ¬ (rating = "1" ∨ rating = "2" ∨ rating = "3" ∨ rating = "4")) := by
  by_cases hs : 0 ≤ status ∧ status ≤ 6
  · obtain ⟨h0, h6⟩ := hs
    by_cases h1 : rating = "1"
    · subst h1; interval_cases status <;> decide
    by_cases h2 : rating = "2"
    · subst h2; interval_cases status <;> decide
    by_cases h3 : rating = "3"
    · subst h3; interval_cases status <;> decide
    by_cases h4 : rating = "4"
    · subst h4; interval_cases status <;> decide
    have hv : LookupNext status rating = (-1, -1) := by
      unfold LookupNext
      simp [h1, h2, h3, h4]
    simp [hv, h1, h2, h3, h4]
  · have hv : LookupNext status rating = (-1, -1) := by
      have e0 : status ≠ 0 := by omega
      have e1 : status ≠ 1 := by omega
      have e2 : status ≠ 2 := by omega
      have e3 : status ≠ 3 := by omega
      have e4 : status ≠ 4 := by omega
      have e5 : status ≠ 5 := by omega
      have e6 : status ≠ 6 := by omega
      unfold LookupNext
      simp [e0, e1, e2, e3, e4, e5, e6]
    simp [hv, hs]

/-! ## Theorems: due classifier -/

/-- Splitting a list by three pairwise exclusive tests and concatenating the
parts gives a permutation of the elements passing one of the tests. -/
theorem filter3_perm {α : Type} (p q r : α → Bool)
    (hpq : ∀ a, p a = true → q a = false) (hpr : ∀ a, p a = true → r a = false)
    (hqr : ∀ a, q a = true → r a = false) (l : List α) :
    (l.filter p ++ l.filter q ++ l.filter r).Perm (l.filter fun a => p a || q a || r a) := by
  induction l with
  | nil => simp
  | cons a l ih =>
    by_cases hp : p a = true
    · have hq := hpq a hp
      have hr := hpr a hp
      simpa [List.filter_cons, hp, hq, hr] using ih
    · by_cases hq : q a = true
      · have hr := hqr a hq
        simp only [List.filter_cons, hp, hq, hr, Bool.false_eq_true, if_false, if_true,
          Bool.or_true, Bool.true_or, Bool.or_false, Bool.false_or]
        refine List.Perm.trans ?_ (List.Perm.cons a ih)
        simp only [List.append_assoc, List.cons_append]
        exact List.perm_middle
      · by_cases hr : r a = true
        · simp only [List.filter_cons, hp, hq, hr, Bool.false_eq_true, if_false, if_true,
            Bool.or_true, Bool.true_or, Bool.or_false, Bool.false_or]
          refine List.Perm.trans ?_ (List.Perm.cons a ih)
          exact List.perm_middle
        · simpa [List.filter_cons, hp, hq, hr] using ih

/-- The classification loop started from arbitrary slices appends to each slice
the sublist of the cards passing that slice's test. -/
theorem classify_foldl (now : Int) (allCards : CardIndex) (allowedTags : TagSet)
    (cards : List StudentCard) (b : Buckets) :
    cards.foldl (classifyStep now allCards allowedTags) b =
      { newCardsDue := b.newCardsDue ++ cards.filter fun c =>
          eligible allCards allowedTags c && decide (c.Status = 0 ∧ c.Due ≤ now)
        inProgressCards := b.inProgressCards ++ cards.filter fun c =>
          eligible allCards allowedTags c && decide (1 ≤ c.Status ∧ c.Status ≤ 3)
        inProgressCardsDue := b.inProgressCardsDue ++ cards.filter fun c =>
          eligible allCards allowedTags c &&
            decide ((1 ≤ c.Status ∧ c.Status ≤ 3) ∧ c.Due ≤ now)
        reviewCardsDue := b.reviewCardsDue ++ cards.filter fun c =>
          eligible allCards allowedTags c &&
            decide ((4 ≤ c.Status ∧ c.Status ≤ 6) ∧ c.Due ≤ now) } := by
  induction cards generalizing b with
  | nil => simp
  | cons c cards ih =>
    rw [List.foldl_cons, ih]
    unfold classifyStep eligible
    cases hlk : allCards.lookup c.CardID with
    | none => simp [List.filter_cons, eligible, hlk]
    | some fullCard =>
      by_cases hm : CardMatchesTags fullCard allowedTags = true
      · by_cases hd : c.Due ≤ now
        · have hd2 : ¬ c.Due > now := by omega
          by_cases h0 : c.Status = 0
          · simp [List.filter_cons, eligible, hlk, hm, hd, hd2, h0]
          · by_cases h13 : 1 ≤ c.Status ∧ c.Status ≤ 3
            · have e : c.Status = 1 ∨ c.Status = 2 ∨ c.Status = 3 := by omega
              have n46 : ¬ (4 ≤ c.Status ∧ c.Status ≤ 6) := by omega
              simp [List.filter_cons, eligible, hlk, hm, hd, hd2, h0, h13, e, n46]
            · have e : ¬ (c.Status = 1 ∨ c.Status = 2 ∨ c.Status = 3) := by omega
              by_cases h46 : 4 ≤ c.Status ∧ c.Status ≤ 6
              · have e2 : c.Status = 4 ∨ c.Status = 5 ∨ c.Status = 6 := by omega
                simp [List.filter_cons, eligible, hlk, hm, hd, hd2, h0, h13, e, h46, e2]
              · have e2 : ¬ (c.Status = 4 ∨ c.Status = 5 ∨ c.Status = 6) := by omega
                simp [List.filter_cons, eligible, hlk, hm, hd, hd2, h0, h13, e, h46, e2]
        · have hd2 : c.Due > now := by omega
          by_cases h13 : 1 ≤ c.Status ∧ c.Status ≤ 3
          · have e : c.Status = 1 ∨ c.Status = 2 ∨ c.Status = 3 := by omega
            simp [List.filter_cons, eligible, hlk, hm, hd, hd2, h13, e]
          · have e : ¬ (c.Status = 1 ∨ c.Status = 2 ∨ c.Status = 3) := by omega
            simp [List.filter_cons, eligible, hlk, hm, hd, hd2, h13, e]
      · simp [List.filter_cons, eligible, hlk, hm]

/-- C6: in the classification loop of `PickNextCard`, run at the effective time
`now`, the new-due bucket holds exactly the eligible cards with Status 0 and
Due at most `now`, the in-progress-due bucket those with Status in 1..3 and Due
at most `now`, the review-due bucket those with Status in 4..6 and Due at most
`now`, and the in-progress-any list the eligible cards with Status in 1..3
whatever their Due (each in input order); the three due-gated buckets together
are a rearrangement of the eligible cards with Status in 0..6 and Due at most
`now`, so that every card occurrence lands in at most one of them and a card
that is not yet due or has a Status outside 0..6 lands in none. -/
theorem classify_buckets (now : Int) (cards : List StudentCard) (allCards : CardIndex)
    (allowedTags : TagSet) :
    (classify now cards allCards allowedTags).newCardsDue =
        cards.filter (fun c =>
          eligible allCards allowedTags c && decide (c.Status = 0 ∧ c.Due ≤ now)) ∧
      (classify now cards allCards allowedTags).inProgressCardsDue =
        cards.filter (fun c => eligible allCards allowedTags c &&
          decide ((1 ≤ c.Status ∧ c.Status ≤ 3) ∧ c.Due ≤ now)) ∧
      (classify now cards allCards allowedTags).reviewCardsDue =
        cards.filter (fun c => eligible allCards allowedTags c &&
          decide ((4 ≤ c.Status ∧ c.Status ≤ 6) ∧ c.Due ≤ now)) ∧
      (classify now cards allCards allowedTags).inProgressCards =
        cards.filter (fun c =>
          eligible allCards allowedTags c && decide (1 ≤ c.Status ∧ c.Status ≤ 3)) ∧
      ((classify now cards allCards allowedTags).newCardsDue ++
          (classify now cards allCards allowedTags).inProgressCardsDue ++
          (classify now cards allCards allowedTags).reviewCardsDue).Perm
        (cards.filter (fun c => eligible allCards allowedTags c &&
          decide ((0 ≤ c.Status ∧ c.Status ≤ 6) ∧ c.Due ≤ now))) := by
  have hc : classify now cards allCards allowedTags = _ :=
    classify_foldl now allCards allowedTags cards Buckets.empty
  rw [hc]
  simp only [Buckets.empty, List.nil_append]
  refine ⟨trivial, trivial, trivial, trivial, ?_⟩
  refine List.Perm.trans (filter3_perm _ _ _ ?_ ?_ ?_ cards) ?_
  · intro a ha
    simp only [Bool.and_eq_true, decide_eq_true_eq] at ha
    simp only [Bool.and_eq_false_iff, decide_eq_false_iff_not]
    right; omega
  · intro a ha
    simp only [Bool.and_eq_true, decide_eq_true_eq] at ha
    simp only [Bool.and_eq_false_iff, decide_eq_false_iff_not]
    right; omega
  · intro a ha
    simp only [Bool.and_eq_true, decide_eq_true_eq] at ha
    simp only [Bool.and_eq_false_iff, decide_eq_false_iff_not]
    right; omega
  · refine List.Perm.of_eq (List.filter_congr ?_)
    intro a _
    cases eligible allCards allowedTags a
    · simp
    · simp only [Bool.true_and]
      rw [Bool.eq_iff_iff]
      simp only [Bool.or_eq_true, decide_eq_true_eq]
      omega

/-! ## Theorems: selection policy -/

/-- The scan of `getSoonestCard` as an invariant: if the running `soonest` is
strictly below everything in `pre` and at most everything in `mid`, the scan of
`rest` ends on an element that splits the whole list the same way. -/
theorem soonest_scan (rest : List StudentCard) :
    ∀ (pre : List StudentCard) (s : StudentCard) (mid : List StudentCard),
      (∀ x ∈ pre, s.Due < x.Due) → (∀ x ∈ mid, s.Due ≤ x.Due) →
      ∃ pre2 c post, pre ++ s :: mid ++ rest = pre2 ++ c :: post ∧
        rest.foldl (fun soonest c => if c.Due < soonest.Due then c else soonest) s = c ∧
        (∀ x ∈ pre2, c.Due < x.Due) ∧ (∀ x ∈ post, c.Due ≤ x.Due) := by
  induction rest with
  | nil =>
    intro pre s mid hpre hmid
    exact ⟨pre, s, mid, by simp, rfl, hpre, hmid⟩
  | cons a rest ih =>
    intro pre s mid hpre hmid
    by_cases ha : a.Due < s.Due
    · obtain ⟨pre2, c, post, heq, hf, h1, h2⟩ := ih (pre ++ s :: mid) a [] (by
        intro x hx
        rcases List.mem_append.1 hx with hx | hx
        · have := hpre x hx; omega
        · rcases List.mem_cons.1 hx with hx | hx
          · subst hx; exact ha
          · have := hmid x hx; omega) (by simp)
      refine ⟨pre2, c, post, ?_, ?_, h1, h2⟩
      · rw [← heq]; simp
      · simpa [List.foldl_cons, ha] using hf
    · obtain ⟨pre2, c, post, heq, hf, h1, h2⟩ := ih pre s (mid ++ [a]) hpre (by
        intro x hx
        rcases List.mem_append.1 hx with hx | hx
        · exact hmid x hx
        · have hx2 : x = a := by simpa using hx
          subst hx2; omega)
      refine ⟨pre2, c, post, ?_, ?_, h1, h2⟩
      · rw [← heq]; simp
      · simpa [List.foldl_cons, ha] using hf

/-- On a non-empty slice `getSoonestCard` succeeds with the first card of
minimal `Due`: every card before it is due strictly later, every card after it
no earlier. -/
theorem getSoonestCard_split (cards : List StudentCard) (hne : cards ≠ []) :
    ∃ pre c post, cards = pre ++ c :: post ∧ getSoonestCard cards = (c, none) ∧
      (∀ x ∈ pre, c.Due < x.Due) ∧ (∀ x ∈ post, c.Due ≤ x.Due) := by
  cases cards with
  | nil => exact absurd rfl hne
  | cons c0 rest =>
    obtain ⟨pre2, c, post, heq, hf, h1, h2⟩ := soonest_scan rest [] c0 [] (by simp) (by simp)
    refine ⟨pre2, c, post, by simpa using heq, ?_, h1, h2⟩
    simp only [getSoonestCard, List.foldl_cons, lt_self_iff_false, if_false]
    rw [hf]

/-- C8: for every non-empty list `getSoonestCard` returns, without error, the
first element in list order whose Due is the minimum Due of the list (all
earlier elements are due strictly later, all later ones no earlier); and it
returns an error exactly when the list is empty. -/
theorem getSoonestCard_spec (cards : List StudentCard) :
    (cards ≠ [] → ∃ pre c post, cards = pre ++ c :: post ∧
        getSoonestCard cards = (c, none) ∧
        (∀ x ∈ pre, c.Due < x.Due) ∧ (∀ x ∈ post, c.Due ≤ x.Due)) ∧
      ((getSoonestCard cards).2 ≠ none ↔ cards = []) := by
  refine ⟨getSoonestCard_split cards, ?_⟩
  cases cards with
  | nil => simp [getSoonestCard]
  | cons c0 rest => simp [getSoonestCard]

/-- Witness of C8 on a three-card list with a tie for the minimum. -/
theorem getSoonestCard_spec_witness :
    ∃ pre c post, ([⟨"a", 1, 5⟩, ⟨"b", 1, 3⟩, ⟨"c", 2, 3⟩] : List StudentCard) =
        pre ++ c :: post ∧
      getSoonestCard [⟨"a", 1, 5⟩, ⟨"b", 1, 3⟩, ⟨"c", 2, 3⟩] = (c, none) ∧
      (∀ x ∈ pre, c.Due < x.Due) ∧ (∀ x ∈ post, c.Due ≤ x.Due) :=
  (getSoonestCard_spec [⟨"a", 1, 5⟩, ⟨"b", 1, 3⟩, ⟨"c", 2, 3⟩]).1 (by decide)

/-- The candidate list and the flags built by `PickNextCard`, in closed form:
the review-due bucket if non-empty, then the in-progress-due bucket if
non-empty, then the new-due bucket if the daily limit, the in-progress throttle
and non-emptiness allow it. -/
theorem buildOptions_eq (b : Buckets) (numNewCardsToday i : Int) :
    buildOptions b numNewCardsToday i =
      ((if b.reviewCardsDue ≠ [] then [b.reviewCardsDue] else []) ++
        (if b.inProgressCardsDue ≠ [] then [b.inProgressCardsDue] else []) ++
        (if numNewCardsToday < i ∧ b.inProgressCardsDue.length < 5 ∧ b.newCardsDue ≠ []
          then [b.newCardsDue] else []),
       [decide (b.reviewCardsDue ≠ []), decide (b.inProgressCardsDue ≠ []),
        decide (numNewCardsToday < i ∧ b.inProgressCardsDue.length < 5 ∧
          b.newCardsDue ≠ [])]) := by
  unfold buildOptions
  by_cases hr : b.reviewCardsDue = [] <;> by_cases hp : b.inProgressCardsDue = [] <;>
    by_cases hn : b.newCardsDue = [] <;> by_cases hlt : numNewCardsToday < i <;>
    by_cases h5 : b.inProgressCardsDue.length < 5 <;>
    simp [hr, hp, hn, hlt, h5, List.length_pos]

/-- Every candidate bucket is non-empty. -/
theorem buildOptions_ne_nil (b : Buckets) (numNewCardsToday i : Int)
    (bucket : List StudentCard) (hmem : bucket ∈ (buildOptions b numNewCardsToday i).1) :
    bucket ≠ [] := by
  rw [buildOptions_eq] at hmem
  simp only [List.mem_append] at hmem
  rcases hmem with (h | h) | h
  · split at h
    · rename_i hne; simp only [List.mem_singleton] at h; rw [h]; exact hne
    · simp at h
  · split at h
    · rename_i hne; simp only [List.mem_singleton] at h; rw [h]; exact hne
    · simp at h
  · split at h
    · rename_i hne; simp only [List.mem_singleton] at h; rw [h]; exact hne.2.2
    · simp at h

/-- When the daily limit parses and the draw `r` indexes a candidate bucket,
`PickNextCard` returns without error the first card of minimal `Due` of that
bucket, flagged as new when the new-due bucket is a candidate and `r` is the
last index. -/
theorem pick_candidate (clock : Int) (r : Nat) (reviewAheadOffset : Int)
    (cards : List StudentCard) (numNewCardsToday : Int) (maxNewCardsToday : String)
    (allCards : CardIndex) (allowedTags : TagSet) (i : Int)
    (hi : Atoi maxNewCardsToday = some i) (bucket : List StudentCard)
    (hb : (buildOptions (classify (nowEffective clock reviewAheadOffset) cards allCards
      allowedTags) numNewCardsToday i).1[r]? = some bucket) :
    ∃ pre c post, bucket = pre ++ c :: post ∧
      (∀ x ∈ pre, c.Due < x.Due) ∧ (∀ x ∈ post, c.Due ≤ x.Due) ∧
      PickNextCard clock r reviewAheadOffset cards numNewCardsToday maxNewCardsToday
          allCards allowedTags =
        some (c.CardID,
          (buildOptions (classify (nowEffective clock reviewAheadOffset) cards allCards
            allowedTags) numNewCardsToday i).2.getD 2 false &&
          decide (r = (buildOptions (classify (nowEffective clock reviewAheadOffset) cards
            allCards allowedTags) numNewCardsToday i).1.length - 1), none) := by
  have hmem : bucket ∈ (buildOptions (classify (nowEffective clock reviewAheadOffset) cards
      allCards allowedTags) numNewCardsToday i).1 := List.getElem?_mem hb
  have hne := buildOptions_ne_nil _ _ _ _ hmem
  obtain ⟨pre, c, post, hsplit, hs, h1, h2⟩ := getSoonestCard_split bucket hne
  refine ⟨pre, c, post, hsplit, h1, h2, ?_⟩
  have hlen : (buildOptions (classify (nowEffective clock reviewAheadOffset) cards
      allCards allowedTags) numNewCardsToday i).1.length ≠ 0 := by
    intro h0
    rw [List.length_eq_zero] at h0
    rw [h0] at hmem
    simp at hmem
  unfold PickNextCard
  simp only [hi, hlen, if_false, hb, hs]

/-- Where the cards of the three due-gated buckets come from: each is one of
the input cards, with Status 0 in the new-due bucket, 1..3 in the
in-progress-due bucket and 4..6 in the review-due bucket. -/
theorem classify_mem (now : Int) (cards : List StudentCard) (allCards : CardIndex)
    (allowedTags : TagSet) (c : StudentCard) :
    (c ∈ (classify now cards allCards allowedTags).newCardsDue →
        c ∈ cards ∧ c.Status = 0) ∧
      (c ∈ (classify now cards allCards allowedTags).inProgressCardsDue →
        c ∈ cards ∧ 1 ≤ c.Status ∧ c.Status ≤ 3) ∧
      (c ∈ (classify now cards allCards allowedTags).reviewCardsDue →
        c ∈ cards ∧ 4 ≤ c.Status ∧ c.Status ≤ 6) := by
  have hc : classify now cards allCards allowedTags = _ :=
    classify_foldl now allCards allowedTags cards Buckets.empty
  rw [hc]
  simp only [Buckets.empty, List.nil_append, List.mem_filter, Bool.and_eq_true,
    decide_eq_true_eq]
  refine ⟨?_, ?_, ?_⟩
  · rintro ⟨hm, _, h0, _⟩; exact ⟨hm, h0⟩
  · rintro ⟨hm, _, ⟨h1, h3⟩, _⟩; exact ⟨hm, h1, h3⟩
  · rintro ⟨hm, _, ⟨h4, h6⟩, _⟩; exact ⟨hm, h4, h6⟩

/-- Two non-empty due-gated buckets of one classification are different lists:
their cards have different statuses. -/
theorem classify_buckets_ne (now : Int) (cards : List StudentCard) (allCards : CardIndex)
    (allowedTags : TagSet) :
    ((classify now cards allCards allowedTags).reviewCardsDue ≠ [] →
        (classify now cards allCards allowedTags).reviewCardsDue ≠
          (classify now cards allCards allowedTags).newCardsDue) ∧
      ((classify now cards allCards allowedTags).inProgressCardsDue ≠ [] →
        (classify now cards allCards allowedTags).inProgressCardsDue ≠
          (classify now cards allCards allowedTags).newCardsDue) ∧
      ((classify now cards allCards allowedTags).reviewCardsDue ≠ [] →
        (classify now cards allCards allowedTags).reviewCardsDue ≠
          (classify now cards allCards allowedTags).inProgressCardsDue) := by
  refine ⟨?_, ?_, ?_⟩
  · intro hne heq
    obtain ⟨c, hc⟩ := List.exists_mem_of_ne_nil _ hne
    have h1 := (classify_mem now cards allCards allowedTags c).2.2 hc
    rw [heq] at hc
    have h2 := (classify_mem now cards allCards allowedTags c).1 hc
    omega
  · intro hne heq
    obtain ⟨c, hc⟩ := List.exists_mem_of_ne_nil _ hne
    have h1 := (classify_mem now cards allCards allowedTags c).2.1 hc
    rw [heq] at hc
    have h2 := (classify_mem now cards allCards allowedTags c).1 hc
    omega
  · intro hne heq
    obtain ⟨c, hc⟩ := List.exists_mem_of_ne_nil _ hne
    have h1 := (classify_mem now cards allCards allowedTags c).2.2 hc
    rw [heq] at hc
    have h2 := (classify_mem now cards allCards allowedTags c).2.1 hc
    omega

/-- For buckets that differ whenever non-empty, the candidate list has no
repeated entry, and the flag computed for the draw `r` is `true` exactly when
the `r`-th candidate is the new-due bucket. -/
theorem options_index (b : Buckets) (numNewCardsToday i : Int) (r : Nat)
    (bucket : List StudentCard)
    (hrn : b.reviewCardsDue ≠ [] → b.reviewCardsDue ≠ b.newCardsDue)
    (hpn : b.inProgressCardsDue ≠ [] → b.inProgressCardsDue ≠ b.newCardsDue)
    (hrp : b.reviewCardsDue ≠ [] → b.reviewCardsDue ≠ b.inProgressCardsDue)
    (hb : (buildOptions b numNewCardsToday i).1[r]? = some bucket) :
    (((buildOptions b numNewCardsToday i).2.getD 2 false &&
        decide (r = (buildOptions b numNewCardsToday i).1.length - 1)) = true ↔
      bucket = b.newCardsDue) ∧
    (buildOptions b numNewCardsToday i).1.Nodup := by
  rw [buildOptions_eq] at hb ⊢
  by_cases hc : (numNewCardsToday < i ∧ b.inProgressCardsDue.length < 5 ∧
      b.newCardsDue ≠ [])
  · simp only [if_pos hc, decide_eq_true hc] at hb ⊢
    by_cases hr : b.reviewCardsDue = [] <;> by_cases hp : b.inProgressCardsDue = []
    all_goals
      have hrn2 := hrn
      have hpn2 := hpn
      have hrp2 := hrp
      simp only [hr, hp, ne_eq, not_true_eq_false, not_false_eq_true, if_true, if_false,
        List.nil_append, List.append_nil, List.singleton_append, List.cons_append,
        forall_const, IsEmpty.forall_iff] at hb hrn2 hpn2 hrp2 ⊢
      rcases r with _ | _ | _ | r <;> simp at hb ⊢ <;> simp_all
  · simp only [if_neg hc, decide_eq_false hc] at hb ⊢
    by_cases hr : b.reviewCardsDue = [] <;> by_cases hp : b.inProgressCardsDue = []
    all_goals
      have hrn2 := hrn
      have hpn2 := hpn
      have hrp2 := hrp
      simp only [hr, hp, ne_eq, not_true_eq_false, not_false_eq_true, if_true, if_false,
        List.nil_append, List.append_nil, List.singleton_append, List.cons_append,
        forall_const, IsEmpty.forall_iff] at hb hrn2 hpn2 hrp2 ⊢
      rcases r with _ | _ | _ | r <;> simp at hb ⊢ <;> simp_all

/-- C7: once the daily limit parses to `i`, the new-due bucket is a candidate
of `PickNextCard` (its flag is set and it is appended after the non-empty
review-due and in-progress-due buckets) exactly when numNewCardsToday < i, fewer
than 5 in-progress cards are due and the new-due bucket is non-empty. In
particular, with exactly 5 in-progress-due cards, numNewCardsToday = 0, the limit
"20" and a due new card, every draw makes `PickNextCard` return, with
isNew = false, the id of an input card of Status 1..6, which is not the id of a
due new card when card ids are distinct. -/
theorem new_bucket_candidate_iff (clock : Int) (r : Nat) (reviewAheadOffset : Int)
    (cards : List StudentCard) (numNewCardsToday : Int) (maxNewCardsToday : String)
    (allCards : CardIndex) (allowedTags : TagSet) :
    (∀ i : Int, Atoi maxNewCardsToday = some i →
      (((buildOptions (classify (nowEffective clock reviewAheadOffset) cards allCards
            allowedTags) numNewCardsToday i).2.getD 2 false = true ↔
          (numNewCardsToday < i ∧
            (classify (nowEffective clock reviewAheadOffset) cards allCards
              allowedTags).inProgressCardsDue.length < 5 ∧
            (classify (nowEffective clock reviewAheadOffset) cards allCards
              allowedTags).newCardsDue ≠ [])) ∧
        (buildOptions (classify (nowEffective clock reviewAheadOffset) cards allCards
            allowedTags) numNewCardsToday i).1 =
          (if (classify (nowEffective clock reviewAheadOffset) cards allCards
              allowedTags).reviewCardsDue ≠ [] then
            [(classify (nowEffective clock reviewAheadOffset) cards allCards
              allowedTags).reviewCardsDue] else []) ++
          (if (classify (nowEffective clock reviewAheadOffset) cards allCards
              allowedTags).inProgressCardsDue ≠ [] then
            [(classify (nowEffective clock reviewAheadOffset) cards allCards
              allowedTags).inProgressCardsDue] else []) ++
          (if numNewCardsToday < i ∧
              (classify (nowEffective clock reviewAheadOffset) cards allCards
                allowedTags).inProgressCardsDue.length < 5 ∧
              (classify (nowEffective clock reviewAheadOffset) cards allCards
                allowedTags).newCardsDue ≠ [] then
            [(classify (nowEffective clock reviewAheadOffset) cards allCards
              allowedTags).newCardsDue] else []))) ∧
    ((classify (nowEffective clock reviewAheadOffset) cards allCards
          allowedTags).inProgressCardsDue.length = 5 →
      (classify (nowEffective clock reviewAheadOffset) cards allCards
          allowedTags).newCardsDue ≠ [] →
      numNewCardsToday = 0 → maxNewCardsToday = "20" →
      r < (buildOptions (classify (nowEffective clock reviewAheadOffset) cards allCards
          allowedTags) numNewCardsToday 20).1.length →
      ∃ c, c ∈ cards ∧ 1 ≤ c.Status ∧ c.Status ≤ 6 ∧
        PickNextCard clock r reviewAheadOffset cards numNewCardsToday maxNewCardsToday
            allCards allowedTags = some (c.CardID, false, none) ∧
        ((cards.map StudentCard.CardID).Nodup →
          ∀ n ∈ (classify (nowEffective clock reviewAheadOffset) cards allCards
            allowedTags).newCardsDue, n.CardID ≠ c.CardID)) := by
  refine ⟨?_, ?_⟩
  · intro i _
    rw [buildOptions_eq]
    refine ⟨?_, rfl⟩
    simp
  · intro h5 _ hnum hmax hr
    subst hnum hmax
    have hi : Atoi "20" = some 20 := by decide
    obtain ⟨bucket, hb⟩ : ∃ bucket, (buildOptions (classify (nowEffective clock
        reviewAheadOffset) cards allCards allowedTags) 0 20).1[r]? = some bucket :=
      ⟨_, List.getElem?_eq_getElem hr⟩
    obtain ⟨pre, c, post, hsplit, _, _, hpick⟩ :=
      pick_candidate clock r reviewAheadOffset cards 0 "20" allCards allowedTags 20 hi
        bucket hb
    have hmem := List.getElem?_mem hb
    have hcb : c ∈ bucket := by rw [hsplit]; simp
    have hflag : (buildOptions (classify (nowEffective clock reviewAheadOffset) cards
        allCards allowedTags) 0 20).2.getD 2 false = false := by
      rw [buildOptions_eq]
      simp [h5]
    rw [hflag, Bool.false_and] at hpick
    have hsrc : c ∈ cards ∧ 1 ≤ c.Status ∧ c.Status ≤ 6 := by
      rw [buildOptions_eq] at hmem
      have hnot : ¬ ((0 : Int) < 20 ∧ (classify (nowEffective clock reviewAheadOffset) cards
          allCards allowedTags).inProgressCardsDue.length < 5 ∧
          (classify (nowEffective clock reviewAheadOffset) cards allCards
            allowedTags).newCardsDue ≠ []) := by
        rw [h5]; simp
      rw [if_neg hnot, List.append_nil, List.mem_append] at hmem
      rcases hmem with h | h
      · split at h
        · simp only [List.mem_singleton] at h
          rw [h] at hcb
          have := (classify_mem _ cards allCards allowedTags c).2.2 hcb
          exact ⟨this.1, by omega, by omega⟩
        · simp at h
      · split at h
        · simp only [List.mem_singleton] at h
          rw [h] at hcb
          have := (classify_mem _ cards allCards allowedTags c).2.1 hcb
          exact ⟨this.1, by omega, by omega⟩
        · simp at h
    refine ⟨c, hsrc.1, hsrc.2.1, hsrc.2.2, hpick, ?_⟩
    intro hnd n hn heq
    have hn2 := (classify_mem _ cards allCards allowedTags n).1 hn
    have hnc : n = c := List.inj_on_of_nodup_map hnd hn2.1 hsrc.1 heq
    rw [hnc] at hn2
    omega

/-- Witness of C7: five in-progress-due cards and one due new card, with
numNewCardsToday = 0 and the limit "20", at draw 0. -/
theorem new_bucket_candidate_iff_witness :
    (((buildOptions (classify (nowEffective 1000 0) sampleThrottleCards sampleIndex [])
          0 20).2.getD 2 false = true ↔
        ((0 : Int) < 20 ∧
          (classify (nowEffective 1000 0) sampleThrottleCards sampleIndex
            []).inProgressCardsDue.length < 5 ∧
          (classify (nowEffective 1000 0) sampleThrottleCards sampleIndex
            []).newCardsDue ≠ [])) ∧
      ∃ c, c ∈ sampleThrottleCards ∧ 1 ≤ c.Status ∧ c.Status ≤ 6 ∧
        PickNextCard 1000 0 0 sampleThrottleCards 0 "20" sampleIndex [] =
          some (c.CardID, false, none) ∧
        ((sampleThrottleCards.map StudentCard.CardID).Nodup →
          ∀ n ∈ (classify (nowEffective 1000 0) sampleThrottleCards sampleIndex
            []).newCardsDue, n.CardID ≠ c.CardID)) :=
  ⟨((new_bucket_candidate_iff 1000 0 0 sampleThrottleCards 0 "20" sampleIndex []).1 20
      (by decide)).1,
    (new_bucket_candidate_iff 1000 0 0 sampleThrottleCards 0 "20" sampleIndex []).2
      (by decide) (by decide) rfl rfl (by decide)⟩

/-- C9: when the daily limit parses to `i` and the draw `r` is below the number
k of candidate buckets (review-due, in-progress-due, new-due, in this order,
skipping non-candidates, no two of them equal), `PickNextCard` selects from the
`r`-th candidate: it returns without error the id of the first card of minimal
Due of that bucket, and isNew is true exactly when that bucket is the new-due
bucket. In particular, with the single review-due card `c5`, the single
in-progress-due card `c2` and no new-due card, k = 2, the draw 0 returns `c5`,
the draw 1 returns `c2`, and isNew is false for both. -/
theorem pick_rth_candidate (clock : Int) (r : Nat) (reviewAheadOffset : Int)
    (cards : List StudentCard) (numNewCardsToday : Int) (maxNewCardsToday : String)
    (allCards : CardIndex) (allowedTags : TagSet) (i : Int) (c5 c2 : StudentCard) :
    (Atoi maxNewCardsToday = some i →
      r < (buildOptions (classify (nowEffective clock reviewAheadOffset) cards allCards
          allowedTags) numNewCardsToday i).1.length →
      (buildOptions (classify (nowEffective clock reviewAheadOffset) cards allCards
          allowedTags) numNewCardsToday i).1 =
        (if (classify (nowEffective clock reviewAheadOffset) cards allCards
            allowedTags).reviewCardsDue ≠ [] then
          [(classify (nowEffective clock reviewAheadOffset) cards allCards
            allowedTags).reviewCardsDue] else []) ++
        (if (classify (nowEffective clock reviewAheadOffset) cards allCards
            allowedTags).inProgressCardsDue ≠ [] then
          [(classify (nowEffective clock reviewAheadOffset) cards allCards
            allowedTags).inProgressCardsDue] else []) ++
        (if numNewCardsToday < i ∧
            (classify (nowEffective clock reviewAheadOffset) cards allCards
              allowedTags).inProgressCardsDue.length < 5 ∧
            (classify (nowEffective clock reviewAheadOffset) cards allCards
              allowedTags).newCardsDue ≠ [] then
          [(classify (nowEffective clock reviewAheadOffset) cards allCards
            allowedTags).newCardsDue] else []) ∧
      (buildOptions (classify (nowEffective clock reviewAheadOffset) cards allCards
          allowedTags) numNewCardsToday i).1.Nodup ∧
      ∃ bucket pre c post isNew,
        (buildOptions (classify (nowEffective clock reviewAheadOffset) cards allCards
          allowedTags) numNewCardsToday i).1[r]? = some bucket ∧
        bucket = pre ++ c :: post ∧
        (∀ x ∈ pre, c.Due < x.Due) ∧ (∀ x ∈ post, c.Due ≤ x.Due) ∧
        PickNextCard clock r reviewAheadOffset cards numNewCardsToday maxNewCardsToday
            allCards allowedTags = some (c.CardID, isNew, none) ∧
        (isNew = true ↔
          bucket = (classify (nowEffective clock reviewAheadOffset) cards allCards
            allowedTags).newCardsDue)) ∧
    (Atoi maxNewCardsToday = some i →
      (classify (nowEffective clock reviewAheadOffset) cards allCards
          allowedTags).reviewCardsDue = [c5] →
      (classify (nowEffective clock reviewAheadOffset) cards allCards
          allowedTags).inProgressCardsDue = [c2] →
      (classify (nowEffective clock reviewAheadOffset) cards allCards
          allowedTags).newCardsDue = [] →
      (buildOptions (classify (nowEffective clock reviewAheadOffset) cards allCards
          allowedTags) numNewCardsToday i).1.length = 2 ∧
        PickNextCard clock 0 reviewAheadOffset cards numNewCardsToday maxNewCardsToday
            allCards allowedTags = some (c5.CardID, false, none) ∧
        PickNextCard clock 1 reviewAheadOffset cards numNewCardsToday maxNewCardsToday
            allCards allowedTags = some (c2.CardID, false, none)) := by
  refine ⟨?_, ?_⟩
  · intro hi hr
    obtain ⟨bucket, hb⟩ : ∃ bucket, (buildOptions (classify (nowEffective clock
        reviewAheadOffset) cards allCards allowedTags) numNewCardsToday i).1[r]? =
        some bucket := ⟨_, List.getElem?_eq_getElem hr⟩
    obtain ⟨pre, c, post, hsplit, h1, h2, hpick⟩ :=
      pick_candidate clock r reviewAheadOffset cards numNewCardsToday maxNewCardsToday
        allCards allowedTags i hi bucket hb
    have hne := classify_buckets_ne (nowEffective clock reviewAheadOffset) cards allCards
      allowedTags
    have hidx := options_index _ numNewCardsToday i r bucket hne.1 hne.2.1 hne.2.2 hb
    refine ⟨?_, hidx.2, bucket, pre, c, post, _, hb, hsplit, h1, h2, hpick, hidx.1⟩
    rw [buildOptions_eq]
  · intro hi hrev hip hnew
    have hopt : buildOptions (classify (nowEffective clock reviewAheadOffset) cards
        allCards allowedTags) numNewCardsToday i = ([[c5], [c2]], [true, true, false]) := by
      rw [buildOptions_eq, hrev, hip, hnew]
      simp
    have hb0 : (buildOptions (classify (nowEffective clock reviewAheadOffset) cards
        allCards allowedTags) numNewCardsToday i).1[0]? = some [c5] := by
      rw [hopt]; rfl
    have hb1 : (buildOptions (classify (nowEffective clock reviewAheadOffset) cards
        allCards allowedTags) numNewCardsToday i).1[1]? = some [c2] := by
      rw [hopt]; rfl
    refine ⟨by rw [hopt]; rfl, ?_, ?_⟩
    · obtain ⟨pre, c, post, hsplit, _, _, hpick⟩ :=
        pick_candidate clock 0 reviewAheadOffset cards numNewCardsToday maxNewCardsToday
          allCards allowedTags i hi [c5] hb0
      have hc : c ∈ [c5] := by rw [hsplit]; simp
      rw [List.mem_singleton] at hc
      rw [hpick, hopt, hc]
      rfl
    · obtain ⟨pre, c, post, hsplit, _, _, hpick⟩ :=
        pick_candidate clock 1 reviewAheadOffset cards numNewCardsToday maxNewCardsToday
          allCards allowedTags i hi [c2] hb1
      have hc : c ∈ [c2] := by rw [hsplit]; simp
      rw [List.mem_singleton] at hc
      rw [hpick, hopt, hc]
      rfl

/-- Witness of C9: one due review card of status 5 and one due in-progress card
of status 2; the draw 1 is below the number of candidates, the draw 0 returns
the review card and the draw 1 the in-progress card. -/
theorem pick_rth_candidate_witness :
    (∃ bucket pre c post isNew,
        (buildOptions (classify (nowEffective 1000 0) sampleTwoBucketCards sampleIndex [])
          0 20).1[1]? = some bucket ∧
        bucket = pre ++ c :: post ∧
        (∀ x ∈ pre, c.Due < x.Due) ∧ (∀ x ∈ post, c.Due ≤ x.Due) ∧
        PickNextCard 1000 1 0 sampleTwoBucketCards 0 "20" sampleIndex [] =
          some (c.CardID, isNew, none) ∧
        (isNew = true ↔
          bucket = (classify (nowEffective 1000 0) sampleTwoBucketCards sampleIndex
            []).newCardsDue)) ∧
      ((buildOptions (classify (nowEffective 1000 0) sampleTwoBucketCards sampleIndex [])
          0 20).1.length = 2 ∧
        PickNextCard 1000 0 0 sampleTwoBucketCards 0 "20" sampleIndex [] =
          some ("c5", false, none) ∧
        PickNextCard 1000 1 0 sampleTwoBucketCards 0 "20" sampleIndex [] =
          some ("c2", false, none)) :=
  ⟨((pick_rth_candidate 1000 1 0 sampleTwoBucketCards 0 "20" sampleIndex [] 20
      ⟨"c5", 5, 50⟩ ⟨"c2", 2, 60⟩).1 (by decide) (by decide)).2.2,
    (pick_rth_candidate 1000 1 0 sampleTwoBucketCards 0 "20" sampleIndex [] 20
      ⟨"c5", 5, 50⟩ ⟨"c2", 2, 60⟩).2 (by decide) (by decide) (by decide) (by decide)⟩

/-- C10: if the daily limit parses, `PickNextCard` has no candidate bucket and
some eligible card has a Status in 1..3 (due or not), then for every draw
`PickNextCard` returns without error, with isNew = false, the id of the first
card of minimal Due among the eligible cards with Status in 1..3. -/
theorem pick_fallback (clock : Int) (r : Nat) (reviewAheadOffset : Int)
    (cards : List StudentCard) (numNewCardsToday : Int) (maxNewCardsToday : String)
    (allCards : CardIndex) (allowedTags : TagSet) (i : Int)
    (hi : Atoi maxNewCardsToday = some i)
    (hnone : (buildOptions (classify (nowEffective clock reviewAheadOffset) cards allCards
      allowedTags) numNewCardsToday i).1 = [])
    (hex : ∃ c ∈ cards, eligible allCards allowedTags c = true ∧
      1 ≤ c.Status ∧ c.Status ≤ 3) :
    ∃ pre c post,
      cards.filter (fun c => eligible allCards allowedTags c &&
        decide (1 ≤ c.Status ∧ c.Status ≤ 3)) = pre ++ c :: post ∧
      (∀ x ∈ pre, c.Due < x.Due) ∧ (∀ x ∈ post, c.Due ≤ x.Due) ∧
      PickNextCard clock r reviewAheadOffset cards numNewCardsToday maxNewCardsToday
          allCards allowedTags = some (c.CardID, false, none) := by
  have hc : classify (nowEffective clock reviewAheadOffset) cards allCards allowedTags = _ :=
    classify_foldl (nowEffective clock reviewAheadOffset) allCards allowedTags cards
      Buckets.empty
  have hip : (classify (nowEffective clock reviewAheadOffset) cards allCards
      allowedTags).inProgressCards =
      cards.filter (fun c => eligible allCards allowedTags c &&
        decide (1 ≤ c.Status ∧ c.Status ≤ 3)) := by
    rw [hc]; rfl
  have hne : cards.filter (fun c => eligible allCards allowedTags c &&
      decide (1 ≤ c.Status ∧ c.Status ≤ 3)) ≠ [] := by
    obtain ⟨c, hmem, hel, h1, h3⟩ := hex
    apply List.ne_nil_of_mem (a := c)
    simp [List.mem_filter, hmem, hel, h1, h3]
  obtain ⟨pre, c, post, hsplit, hs, h1, h2⟩ := getSoonestCard_split _ hne
  refine ⟨pre, c, post, hsplit, h1, h2, ?_⟩
  have hpos : 0 < (cards.filter (fun c => eligible allCards allowedTags c &&
      decide (1 ≤ c.Status ∧ c.Status ≤ 3))).length := List.length_pos.2 hne
  unfold PickNextCard
  simp only [hi, hnone, List.length_nil, if_true, hip, gt_iff_lt, hpos, hs]

/-- Witness of C10: three in-progress cards, none of them due, two tied for the
earliest due time; the first of the two is returned. -/
theorem pick_fallback_witness :
    ∃ pre c post,
      sampleFallbackCards.filter (fun c => eligible sampleIndex [] c &&
        decide (1 ≤ c.Status ∧ c.Status ≤ 3)) = pre ++ c :: post ∧
      (∀ x ∈ pre, c.Due < x.Due) ∧ (∀ x ∈ post, c.Due ≤ x.Due) ∧
      PickNextCard 1000 0 0 sampleFallbackCards 0 "20" sampleIndex [] =
        some (c.CardID, false, none) :=
  pick_fallback 1000 0 0 sampleFallbackCards 0 "20" sampleIndex [] 20 (by decide)
    (by decide) (by decide)

/-- The slices of a classification as filters of the input cards. -/
theorem classify_fields (now : Int) (cards : List StudentCard) (allCards : CardIndex)
    (allowedTags : TagSet) :
    (classify now cards allCards allowedTags).newCardsDue =
        cards.filter (fun c =>
          eligible allCards allowedTags c && decide (c.Status = 0 ∧ c.Due ≤ now)) ∧
      (classify now cards allCards allowedTags).inProgressCards =
        cards.filter (fun c =>
          eligible allCards allowedTags c && decide (1 ≤ c.Status ∧ c.Status ≤ 3)) ∧
      (classify now cards allCards allowedTags).inProgressCardsDue =
        cards.filter (fun c => eligible allCards allowedTags c &&
          decide ((1 ≤ c.Status ∧ c.Status ≤ 3) ∧ c.Due ≤ now)) ∧
      (classify now cards allCards allowedTags).reviewCardsDue =
        cards.filter (fun c => eligible allCards allowedTags c &&
          decide ((4 ≤ c.Status ∧ c.Status ≤ 6) ∧ c.Due ≤ now)) := by
  have hc : classify now cards allCards allowedTags = _ :=
    classify_foldl now allCards allowedTags cards Buckets.empty
  rw [hc]
  exact ⟨rfl, rfl, rfl, rfl⟩

/-- Every card of the in-progress-any list is an eligible input card with a
Status in 1..3, and every card of a due-gated bucket is eligible. -/
theorem classify_mem_eligible (now : Int) (cards : List StudentCard) (allCards : CardIndex)
    (allowedTags : TagSet) (c : StudentCard) :
    (c ∈ (classify now cards allCards allowedTags).inProgressCards →
        c ∈ cards ∧ eligible allCards allowedTags c = true ∧ 1 ≤ c.Status ∧ c.Status ≤ 3) ∧
      (c ∈ (classify now cards allCards allowedTags).newCardsDue →
        eligible allCards allowedTags c = true ∧ c.Due ≤ now) ∧
      (c ∈ (classify now cards allCards allowedTags).inProgressCardsDue →
        eligible allCards allowedTags c = true ∧ c.Due ≤ now) ∧
      (c ∈ (classify now cards allCards allowedTags).reviewCardsDue →
        eligible allCards allowedTags c = true ∧ c.Due ≤ now) := by
  obtain ⟨h1, h2, h3, h4⟩ := classify_fields now cards allCards allowedTags
  rw [h1, h2, h3, h4]
  simp only [List.mem_filter, Bool.and_eq_true, decide_eq_true_eq]
  refine ⟨?_, ?_, ?_, ?_⟩
  · rintro ⟨hm, he, h1, h3⟩; exact ⟨hm, he, h1, h3⟩
  · rintro ⟨_, he, _, hd⟩; exact ⟨he, hd⟩
  · rintro ⟨_, he, _, hd⟩; exact ⟨he, hd⟩
  · rintro ⟨_, he, _, hd⟩; exact ⟨he, hd⟩

/-- The outcome of `PickNextCard` when the daily limit parses and there is no
candidate bucket: the error "no cards available" if the in-progress-any list is
empty, otherwise a card of that list, not flagged as new. -/
theorem pick_no_candidates (clock : Int) (r : Nat) (reviewAheadOffset : Int)
    (cards : List StudentCard) (numNewCardsToday : Int) (maxNewCardsToday : String)
    (allCards : CardIndex) (allowedTags : TagSet) (i : Int)
    (hi : Atoi maxNewCardsToday = some i)
    (hnone : (buildOptions (classify (nowEffective clock reviewAheadOffset) cards allCards
      allowedTags) numNewCardsToday i).1 = []) :
    ((classify (nowEffective clock reviewAheadOffset) cards allCards
          allowedTags).inProgressCards = [] →
        PickNextCard clock r reviewAheadOffset cards numNewCardsToday maxNewCardsToday
          allCards allowedTags = some ("", false, some "no cards available")) ∧
      ((classify (nowEffective clock reviewAheadOffset) cards allCards
          allowedTags).inProgressCards ≠ [] →
        ∃ c ∈ (classify (nowEffective clock reviewAheadOffset) cards allCards
            allowedTags).inProgressCards,
          PickNextCard clock r reviewAheadOffset cards numNewCardsToday maxNewCardsToday
            allCards allowedTags = some (c.CardID, false, none)) := by
  refine ⟨?_, ?_⟩
  · intro hip
    unfold PickNextCard
    simp only [hi, hnone, hip, List.length_nil, if_true, gt_iff_lt, lt_self_iff_false,
      if_false]
  · intro hip
    obtain ⟨pre, c, post, hsplit, hs, _, _⟩ := getSoonestCard_split _ hip
    refine ⟨c, by rw [hsplit]; simp, ?_⟩
    have hpos : 0 < (classify (nowEffective clock reviewAheadOffset) cards allCards
        allowedTags).inProgressCards.length := List.length_pos.2 hip
    unfold PickNextCard
    simp only [hi, hnone, List.length_nil, if_true, gt_iff_lt, hpos, hs]

/-- The outcome of `PickNextCard` when the daily limit parses, candidates exist
and the draw is not below their number: the index is out of range. -/
theorem pick_out_of_range (clock : Int) (r : Nat) (reviewAheadOffset : Int)
    (cards : List StudentCard) (numNewCardsToday : Int) (maxNewCardsToday : String)
    (allCards : CardIndex) (allowedTags : TagSet) (i : Int)
    (hi : Atoi maxNewCardsToday = some i)
    (hne : (buildOptions (classify (nowEffective clock reviewAheadOffset) cards allCards
      allowedTags) numNewCardsToday i).1 ≠ [])
    (hr : (buildOptions (classify (nowEffective clock reviewAheadOffset) cards allCards
      allowedTags) numNewCardsToday i).1.length ≤ r) :
    PickNextCard clock r reviewAheadOffset cards numNewCardsToday maxNewCardsToday
      allCards allowedTags = none := by
  have hlen : (buildOptions (classify (nowEffective clock reviewAheadOffset) cards
      allCards allowedTags) numNewCardsToday i).1.length ≠ 0 := by
    rw [Ne, List.length_eq_zero]; exact hne
  have hget : (buildOptions (classify (nowEffective clock reviewAheadOffset) cards
      allCards allowedTags) numNewCardsToday i).1[r]? = none :=
    List.getElem?_eq_none hr
  unfold PickNextCard
  simp only [hi, hlen, if_false, hget]

/-- The candidate list is empty exactly when the review-due and in-progress-due
buckets are empty and the new-due bucket is not a candidate. -/
theorem buildOptions_nil_iff (b : Buckets) (numNewCardsToday i : Int) :
    (buildOptions b numNewCardsToday i).1 = [] ↔
      b.reviewCardsDue = [] ∧ b.inProgressCardsDue = [] ∧
        ¬ (numNewCardsToday < i ∧ b.inProgressCardsDue.length < 5 ∧ b.newCardsDue ≠ []) := by
  rw [buildOptions_eq]
  by_cases hc : (numNewCardsToday < i ∧ b.inProgressCardsDue.length < 5 ∧
      b.newCardsDue ≠ [])
  · rw [if_pos hc]
    constructor
    · intro h; simp at h
    · rintro ⟨_, _, h⟩; exact absurd hc h
  · rw [if_neg hc, List.append_nil]
    constructor
    · intro h
      by_cases hr : b.reviewCardsDue = [] <;> by_cases hp : b.inProgressCardsDue = [] <;>
        simp [hr, hp] at h
      exact ⟨hr, hp, hc⟩
    · rintro ⟨hr, hp, _⟩
      simp [hr, hp]

/-- What the emptiness of the slices of a classification says about the input
cards. -/
theorem classify_nil_iff (now : Int) (cards : List StudentCard) (allCards : CardIndex)
    (allowedTags : TagSet) :
    ((classify now cards allCards allowedTags).reviewCardsDue = [] ↔
        ∀ c ∈ cards, ¬ (eligible allCards allowedTags c = true ∧
          (4 ≤ c.Status ∧ c.Status ≤ 6) ∧ c.Due ≤ now)) ∧
      ((classify now cards allCards allowedTags).inProgressCards = [] ↔
        ∀ c ∈ cards, ¬ (eligible allCards allowedTags c = true ∧
          1 ≤ c.Status ∧ c.Status ≤ 3)) ∧
      ((classify now cards allCards allowedTags).newCardsDue = [] ↔
        ∀ c ∈ cards, ¬ (eligible allCards allowedTags c = true ∧
          c.Status = 0 ∧ c.Due ≤ now)) ∧
      ((classify now cards allCards allowedTags).inProgressCards = [] →
        (classify now cards allCards allowedTags).inProgressCardsDue = []) := by
  obtain ⟨h1, h2, h3, h4⟩ := classify_fields now cards allCards allowedTags
  rw [h1, h2, h3, h4]
  simp only [List.filter_eq_nil_iff, Bool.and_eq_true, decide_eq_true_eq]
  refine ⟨trivial, trivial, trivial, ?_⟩
  intro h c hc hp
  exact h c hc ⟨hp.1, hp.2.1⟩

/-- C11: when the daily limit parses to `m`, `PickNextCard` fails with
"no cards available" exactly when no eligible card has Status 4..6 and is due,
no eligible card has Status 1..3 (due or not), and either no eligible card has
Status 0 and is due or numNewCardsToday is at least `m`; in every other case,
the draw being below the number of candidates, it returns a card id with a nil
error. -/
theorem pick_no_cards_available_iff (clock : Int) (r : Nat) (reviewAheadOffset : Int)
    (cards : List StudentCard) (numNewCardsToday : Int) (maxNewCardsToday : String)
    (allCards : CardIndex) (allowedTags : TagSet) (m : Int)
    (hm : Atoi maxNewCardsToday = some m) :
    (PickNextCard clock r reviewAheadOffset cards numNewCardsToday maxNewCardsToday
          allCards allowedTags = some ("", false, some "no cards available") ↔
        ((∀ c ∈ cards, ¬ (eligible allCards allowedTags c = true ∧
            (4 ≤ c.Status ∧ c.Status ≤ 6) ∧
            c.Due ≤ nowEffective clock reviewAheadOffset)) ∧
          (∀ c ∈ cards, ¬ (eligible allCards allowedTags c = true ∧
            1 ≤ c.Status ∧ c.Status ≤ 3)) ∧
          ((∀ c ∈ cards, ¬ (eligible allCards allowedTags c = true ∧
              c.Status = 0 ∧ c.Due ≤ nowEffective clock reviewAheadOffset)) ∨
            m ≤ numNewCardsToday))) ∧
      (((buildOptions (classify (nowEffective clock reviewAheadOffset) cards allCards
            allowedTags) numNewCardsToday m).1 ≠ [] →
          r < (buildOptions (classify (nowEffective clock reviewAheadOffset) cards allCards
            allowedTags) numNewCardsToday m).1.length) →
        PickNextCard clock r reviewAheadOffset cards numNewCardsToday maxNewCardsToday
          allCards allowedTags ≠ some ("", false, some "no cards available") →
        ∃ id isNew, PickNextCard clock r reviewAheadOffset cards numNewCardsToday
          maxNewCardsToday allCards allowedTags = some (id, isNew, none)) := by
  obtain ⟨nrev, nip, nnew, nipd⟩ :=
    classify_nil_iff (nowEffective clock reviewAheadOffset) cards allCards allowedTags
  have hnil := buildOptions_nil_iff (classify (nowEffective clock reviewAheadOffset) cards
    allCards allowedTags) numNewCardsToday m
  rw [← nrev, ← nip, ← nnew]
  by_cases hopt : (buildOptions (classify (nowEffective clock reviewAheadOffset) cards
      allCards allowedTags) numNewCardsToday m).1 = []
  · obtain ⟨h1, h2⟩ := pick_no_candidates clock r reviewAheadOffset cards numNewCardsToday
      maxNewCardsToday allCards allowedTags m hm hopt
    obtain ⟨hrev, hipd, hcond⟩ := hnil.1 hopt
    by_cases hip : (classify (nowEffective clock reviewAheadOffset) cards allCards
        allowedTags).inProgressCards = []
    · have hres := h1 hip
      refine ⟨⟨fun _ => ⟨hrev, hip, ?_⟩, fun _ => hres⟩, fun _ hne => absurd hres hne⟩
      by_cases hnew : (classify (nowEffective clock reviewAheadOffset) cards allCards
          allowedTags).newCardsDue = []
      · exact Or.inl hnew
      · right
        by_contra hlt
        apply hcond
        refine ⟨by omega, ?_, hnew⟩
        rw [hipd]; simp
    · obtain ⟨c, _, hres⟩ := h2 hip
      refine ⟨⟨fun h => ?_, fun h => absurd h.2.1 hip⟩, fun _ _ => ⟨_, _, hres⟩⟩
      rw [hres] at h
      simp at h
  · refine ⟨⟨fun h => ?_, fun h => ?_⟩, fun hr _ => ?_⟩
    · by_cases hr : r < (buildOptions (classify (nowEffective clock reviewAheadOffset) cards
          allCards allowedTags) numNewCardsToday m).1.length
      · obtain ⟨pre, c, post, _, _, _, hpick⟩ :=
          pick_candidate clock r reviewAheadOffset cards numNewCardsToday maxNewCardsToday
            allCards allowedTags m hm _ (List.getElem?_eq_getElem hr)
        rw [hpick] at h
        simp at h
      · rw [pick_out_of_range clock r reviewAheadOffset cards numNewCardsToday
          maxNewCardsToday allCards allowedTags m hm hopt (by omega)] at h
        simp at h
    · exfalso
      apply hopt
      rw [hnil]
      refine ⟨h.1, nipd h.2.1, ?_⟩
      rintro ⟨hlt, _, hnew⟩
      rcases h.2.2 with h3 | h3
      · exact hnew h3
      · omega
    · obtain ⟨pre, c, post, _, _, _, hpick⟩ :=
        pick_candidate clock r reviewAheadOffset cards numNewCardsToday maxNewCardsToday
          allCards allowedTags m hm _ (List.getElem?_eq_getElem (hr hopt))
      exact ⟨_, _, hpick⟩

/-- Witness of C11: with the limit "20" every card of the throttle sample is
in the index, so a card id is returned with a nil error. -/
theorem pick_no_cards_available_iff_witness :
    ∃ id isNew, PickNextCard 1000 0 0 sampleThrottleCards 0 "20" sampleIndex [] =
      some (id, isNew, none) :=
  (pick_no_cards_available_iff 1000 0 0 sampleThrottleCards 0 "20" sampleIndex [] 20
    (by decide)).2 (by decide) (by decide)

/-- The digit loop fails as soon as one character is not an ASCII digit. -/
theorem parseDigits_none (digits : List Char) :
    ∀ acc : Nat, (digits.all fun d => decide (48 ≤ d.toNat ∧ d.toNat ≤ 57)) = false →
      parseDigits digits acc = none := by
  induction digits with
  | nil => intro acc h; simp at h
  | cons c rest ih =>
    intro acc h
    by_cases hc : 48 ≤ c.toNat ∧ c.toNat ≤ 57
    · have hrest : (rest.all fun d => decide (48 ≤ d.toNat ∧ d.toNat ≤ 57)) = false := by
        simpa [List.all_cons, hc] using h
      simp only [parseDigits, hc, and_self, if_true]
      exact ih _ hrest
    · simp only [parseDigits, hc, if_false]

/-- A string that is not a decimal integer literal is rejected by `Atoi`. -/
theorem atoi_none_of_not_decimal (s : String) (h : isDecimalInteger s = false) :
    Atoi s = none := by
  unfold isDecimalInteger at h
  unfold Atoi
  cases hd : s.data with
  | nil => rfl
  | cons c rest =>
    simp only [hd] at h
    simp only
    by_cases hnil : (if c = '-' ∨ c = '+' then rest else c :: rest) = []
    · simp [hnil]
    · have hlen : ¬ (if c = '-' ∨ c = '+' then rest else c :: rest).length < 1 := by
        have := List.length_pos.2 hnil
        omega
      have hall : ((if c = '-' ∨ c = '+' then rest else c :: rest).all fun d =>
          decide (48 ≤ d.toNat ∧ d.toNat ≤ 57)) = false := by
        have hne : (if c = '-' ∨ c = '+' then rest else c :: rest).isEmpty = false := by
          cases hl : (if c = '-' ∨ c = '+' then rest else c :: rest) with
          | nil => exact absurd hl hnil
          | cons _ _ => rfl
        rw [hne] at h
        simpa using h
      rw [if_neg hlen, parseDigits_none _ 0 hall]

/-- When `Atoi` rejects the daily limit, `PickNextCard` returns the error
"invalid maxNewCardsToday value". -/
theorem pick_parse_error (clock : Int) (r : Nat) (reviewAheadOffset : Int)
    (cards : List StudentCard) (numNewCardsToday : Int) (maxNewCardsToday : String)
    (allCards : CardIndex) (allowedTags : TagSet) (h : Atoi maxNewCardsToday = none) :
    PickNextCard clock r reviewAheadOffset cards numNewCardsToday maxNewCardsToday
      allCards allowedTags = some ("", false, some "invalid maxNewCardsToday value") := by
  unfold PickNextCard
  simp only [h]

/-- C12: when maxNewCardsToday is not a decimal integer literal (the empty
string included), and more generally whenever `strconv.Atoi` rejects it, then
for every clock, draw, offset, card list, index, tag set and numNewCardsToday
`PickNextCard` returns ("", false, "invalid maxNewCardsToday value"): no card is
selected and "no cards available" is not reported. -/
theorem pick_invalid_limit (clock : Int) (r : Nat) (reviewAheadOffset : Int)
    (cards : List StudentCard) (numNewCardsToday : Int) (maxNewCardsToday : String)
    (allCards : CardIndex) (allowedTags : TagSet) :
    (isDecimalInteger maxNewCardsToday = false →
        PickNextCard clock r reviewAheadOffset cards numNewCardsToday maxNewCardsToday
          allCards allowedTags = some ("", false, some "invalid maxNewCardsToday value")) ∧
      (Atoi maxNewCardsToday = none →
        PickNextCard clock r reviewAheadOffset cards numNewCardsToday maxNewCardsToday
          allCards allowedTags = some ("", false, some "invalid maxNewCardsToday value")) := by
  have key := pick_parse_error clock r reviewAheadOffset cards numNewCardsToday
    maxNewCardsToday allCards allowedTags
  exact ⟨fun h => key (atoi_none_of_not_decimal _ h), key⟩

/-- Witness of C12: the limit "2O" (digit two, capital letter O) with a card
list that would otherwise yield a card. -/
theorem pick_invalid_limit_witness :
    PickNextCard 1000 0 0 sampleThrottleCards 0 "2O" sampleIndex [] =
        some ("", false, some "invalid maxNewCardsToday value") ∧
      PickNextCard 1000 0 0 sampleThrottleCards 0 "2O" sampleIndex [] =
        some ("", false, some "invalid maxNewCardsToday value") :=
  ⟨(pick_invalid_limit 1000 0 0 sampleThrottleCards 0 "2O" sampleIndex []).1 (by decide),
    (pick_invalid_limit 1000 0 0 sampleThrottleCards 0 "2O" sampleIndex []).2 (by decide)⟩

/-- Every candidate bucket is one of the three due-gated buckets. -/
theorem buildOptions_mem (b : Buckets) (numNewCardsToday i : Int)
    (bucket : List StudentCard) (hmem : bucket ∈ (buildOptions b numNewCardsToday i).1) :
    bucket = b.reviewCardsDue ∨ bucket = b.inProgressCardsDue ∨ bucket = b.newCardsDue := by
  rw [buildOptions_eq] at hmem
  simp only [List.mem_append] at hmem
  rcases hmem with (h | h) | h
  · split at h
    · simp only [List.mem_singleton] at h; exact Or.inl h
    · simp at h
  · split at h
    · simp only [List.mem_singleton] at h; exact Or.inr (Or.inl h)
    · simp at h
  · split at h
    · simp only [List.mem_singleton] at h; exact Or.inr (Or.inr h)
    · simp at h

/-- A successful `PickNextCard` returns the id of a card of one of the four
slices of its classification; a card of the in-progress-any list only when
there is no candidate bucket. -/
theorem pick_success_source (clock : Int) (r : Nat) (reviewAheadOffset : Int)
    (cards : List StudentCard) (numNewCardsToday : Int) (maxNewCardsToday : String)
    (allCards : CardIndex) (allowedTags : TagSet) (id : String) (isNew : Bool)
    (h : PickNextCard clock r reviewAheadOffset cards numNewCardsToday maxNewCardsToday
      allCards allowedTags = some (id, isNew, none)) :
    ∃ i c, Atoi maxNewCardsToday = some i ∧ c.CardID = id ∧
      ((c ∈ (classify (nowEffective clock reviewAheadOffset) cards allCards
            allowedTags).inProgressCards ∧
          (buildOptions (classify (nowEffective clock reviewAheadOffset) cards allCards
            allowedTags) numNewCardsToday i).1 = []) ∨
        c ∈ (classify (nowEffective clock reviewAheadOffset) cards allCards
          allowedTags).reviewCardsDue ∨
        c ∈ (classify (nowEffective clock reviewAheadOffset) cards allCards
          allowedTags).inProgressCardsDue ∨
        c ∈ (classify (nowEffective clock reviewAheadOffset) cards allCards
          allowedTags).newCardsDue) := by
  cases hi : Atoi maxNewCardsToday with
  | none =>
    have := pick_parse_error clock r reviewAheadOffset cards numNewCardsToday
      maxNewCardsToday allCards allowedTags hi
    rw [this] at h
    simp at h
  | some i =>
    by_cases hopt : (buildOptions (classify (nowEffective clock reviewAheadOffset) cards
        allCards allowedTags) numNewCardsToday i).1 = []
    · obtain ⟨h1, h2⟩ := pick_no_candidates clock r reviewAheadOffset cards numNewCardsToday
        maxNewCardsToday allCards allowedTags i hi hopt
      by_cases hip : (classify (nowEffective clock reviewAheadOffset) cards allCards
          allowedTags).inProgressCards = []
      · rw [h1 hip] at h
        simp at h
      · obtain ⟨c, hc, hres⟩ := h2 hip
        rw [hres] at h
        simp only [Option.some.injEq, Prod.mk.injEq] at h
        exact ⟨i, c, rfl, h.1, Or.inl ⟨hc, hopt⟩⟩
    · by_cases hr : r < (buildOptions (classify (nowEffective clock reviewAheadOffset) cards
          allCards allowedTags) numNewCardsToday i).1.length
      · obtain ⟨pre, c, post, hsplit, _, _, hpick⟩ :=
          pick_candidate clock r reviewAheadOffset cards numNewCardsToday maxNewCardsToday
            allCards allowedTags i hi _ (List.getElem?_eq_getElem hr)
        rw [hpick] at h
        simp only [Option.some.injEq, Prod.mk.injEq] at h
        have hcb : c ∈ (buildOptions (classify (nowEffective clock reviewAheadOffset) cards
            allCards allowedTags) numNewCardsToday i).1[r] := by rw [hsplit]; simp
        have hmem := buildOptions_mem _ _ _ _ (List.getElem_mem hr)
        refine ⟨i, c, rfl, h.1, Or.inr ?_⟩
        rcases hmem with e | e | e
        · rw [e] at hcb; exact Or.inl hcb
        · rw [e] at hcb; exact Or.inr (Or.inl hcb)
        · rw [e] at hcb; exact Or.inr (Or.inr hcb)
      · rw [pick_out_of_range clock r reviewAheadOffset cards numNewCardsToday
          maxNewCardsToday allCards allowedTags i hi hopt (by omega)] at h
        simp at h

/-- Eligibility spelled out: the flashcard is in the index and passes the tag
filter. -/
theorem eligible_iff (allCards : CardIndex) (allowedTags : TagSet) (c : StudentCard) :
    eligible allCards allowedTags c = true ↔
      ∃ fullCard, allCards.lookup c.CardID = some fullCard ∧
        CardMatchesTags fullCard allowedTags = true := by
  unfold eligible
  cases allCards.lookup c.CardID with
  | none => simp
  | some fullCard => simp

/-- C13: whenever `PickNextCard` returns without error, the returned id is the
CardID of an input card whose flashcard is in the index and passes
`CardMatchesTags` and whose Status is in 0..6; and no input card with that id
is absent from the index or filtered out by tags. -/
theorem pick_returns_eligible (clock : Int) (r : Nat) (reviewAheadOffset : Int)
    (cards : List StudentCard) (numNewCardsToday : Int) (maxNewCardsToday : String)
    (allCards : CardIndex) (allowedTags : TagSet) (id : String) (isNew : Bool)
    (h : PickNextCard clock r reviewAheadOffset cards numNewCardsToday maxNewCardsToday
      allCards allowedTags = some (id, isNew, none)) :
    (∃ c ∈ cards, c.CardID = id ∧
        (∃ fullCard, allCards.lookup c.CardID = some fullCard ∧
          CardMatchesTags fullCard allowedTags = true) ∧
        0 ≤ c.Status ∧ c.Status ≤ 6) ∧
      (∀ c ∈ cards, c.CardID = id →
        ∃ fullCard, allCards.lookup c.CardID = some fullCard ∧
          CardMatchesTags fullCard allowedTags = true) := by
  obtain ⟨i, c, _, hid, hsrc⟩ := pick_success_source clock r reviewAheadOffset cards
    numNewCardsToday maxNewCardsToday allCards allowedTags id isNew h
  have hm := classify_mem (nowEffective clock reviewAheadOffset) cards allCards allowedTags c
  have he := classify_mem_eligible (nowEffective clock reviewAheadOffset) cards allCards
    allowedTags c
  have hc : c ∈ cards ∧ eligible allCards allowedTags c = true ∧
      0 ≤ c.Status ∧ c.Status ≤ 6 := by
    rcases hsrc with ⟨h1, _⟩ | h1 | h1 | h1
    · have := he.1 h1
      exact ⟨this.1, this.2.1, by omega, by omega⟩
    · have h2 := hm.2.2 h1
      exact ⟨h2.1, (he.2.2.2 h1).1, by omega, by omega⟩
    · have h2 := hm.2.1 h1
      exact ⟨h2.1, (he.2.2.1 h1).1, by omega, by omega⟩
    · have h2 := hm.1 h1
      exact ⟨h2.1, (he.2.1 h1).1, by omega, by omega⟩
  refine ⟨⟨c, hc.1, hid, (eligible_iff _ _ _).1 hc.2.1, hc.2.2⟩, ?_⟩
  intro c2 _ hid2
  have hel : eligible allCards allowedTags c2 = true := by
    have := hc.2.1
    unfold eligible at this ⊢
    rw [hid2, ← hid]
    exact this
  exact (eligible_iff _ _ _).1 hel

/-- Witness of C13: the in-progress fallback on the sample of three cards that
are not yet due returns "c2". -/
theorem pick_returns_eligible_witness :
    (∃ c ∈ sampleFallbackCards, c.CardID = "c2" ∧
        (∃ fullCard, sampleIndex.lookup c.CardID = some fullCard ∧
          CardMatchesTags fullCard [] = true) ∧
        0 ≤ c.Status ∧ c.Status ≤ 6) ∧
      (∀ c ∈ sampleFallbackCards, c.CardID = "c2" →
        ∃ fullCard, sampleIndex.lookup c.CardID = some fullCard ∧
          CardMatchesTags fullCard [] = true) :=
  pick_returns_eligible 1000 0 0 sampleFallbackCards 0 "20" sampleIndex [] "c2" false
    (by decide)

/-! ## Theorems: tag filter -/

/-- The tag loop returns `true` exactly when some tag of the list is sent to
`true` by the allowed map. -/
theorem matchesAnyTag_iff (allowed : TagSet) (tags : List Tag) :
    matchesAnyTag allowed tags = true ↔ ∃ tag ∈ tags, allowed.get tag.Name = true := by
  induction tags with
  | nil => simp [matchesAnyTag]
  | cons tag rest ih =>
    by_cases h : allowed.get tag.Name = true
    · simp [matchesAnyTag, h]
    · simp [matchesAnyTag, h, ih]

/-- When every stored value of the allowed map is `true` (the map is used as a
set), the map read `allowed[name]` is `true` exactly for the keys of the map. -/
theorem tagSet_get_iff_key (allowed : TagSet) (hset : ∀ p ∈ allowed, p.2 = true)
    (name : String) :
    allowed.get name = true ↔ name ∈ allowed.map Prod.fst := by
  induction allowed with
  | nil => simp [TagSet.get]
  | cons p rest ih =>
    obtain ⟨k, v⟩ := p
    have hv : v = true := hset (k, v) (List.mem_cons_self _ _)
    have hrest : ∀ q ∈ rest, q.2 = true := fun q hq => hset q (List.mem_cons_of_mem _ hq)
    have ih2 := ih hrest
    unfold TagSet.get at ih2 ⊢
    by_cases hk : name = k
    · subst hk
      simp [List.lookup, hv]
    · have hbeq : (name == k) = false := by simpa using hk
      simp only [List.lookup, hbeq, List.map_cons, List.mem_cons, hk, false_or]
      exact ih2

/-- C14: `CardMatchesTags` returns true exactly when the allowed map is empty
or some tag of the card has a Name the allowed map holds (the map read
`allowed[Name]` is true); when the map is used as a set, every stored value
being true, this is: the allowed set is empty or some tag Name is one of its
keys. Names are compared exactly: a one-tag card matches a one-key set only if
the two strings are equal. A card with no tags matches only the empty allowed
set. -/
theorem cardMatchesTags_iff (card : Flashcard) (allowed : TagSet) :
    (CardMatchesTags card allowed = true ↔
        allowed = [] ∨ ∃ tag ∈ card.Tags, allowed.get tag.Name = true) ∧
      ((∀ p ∈ allowed, p.2 = true) →
        (CardMatchesTags card allowed = true ↔
          allowed = [] ∨ ∃ tag ∈ card.Tags, tag.Name ∈ allowed.map Prod.fst)) ∧
      (∀ name key : String, card.Tags = [⟨0, name⟩] →
        (CardMatchesTags card [(key, true)] = true ↔ name = key)) ∧
      (card.Tags = [] → (CardMatchesTags card allowed = true ↔ allowed = [])) := by
  have main : ∀ al : TagSet, CardMatchesTags card al = true ↔
      al = [] ∨ ∃ tag ∈ card.Tags, al.get tag.Name = true := by
    intro al
    unfold CardMatchesTags
    by_cases h : al = []
    · simp [h]
    · have hlen : al.length ≠ 0 := by
        rw [Ne, List.length_eq_zero]; exact h
      simp only [hlen, if_false, h, false_or]
      exact matchesAnyTag_iff al card.Tags
  refine ⟨main allowed, ?_, ?_, ?_⟩
  · intro hset
    rw [main allowed]
    constructor
    · rintro (h | ⟨tag, ht, hg⟩)
      · exact Or.inl h
      · exact Or.inr ⟨tag, ht, (tagSet_get_iff_key allowed hset _).1 hg⟩
    · rintro (h | ⟨tag, ht, hg⟩)
      · exact Or.inl h
      · exact Or.inr ⟨tag, ht, (tagSet_get_iff_key allowed hset _).2 hg⟩
  · intro name key htags
    rw [main, htags]
    by_cases hk : name = key
    · subst hk
      simp [TagSet.get, List.lookup]
    · have hbeq : (name == key) = false := by simpa using hk
      simp [TagSet.get, List.lookup, hbeq, hk]
  · intro htags
    rw [main allowed, htags]
    simp

/-- Witness of C14: the flashcard "c1", tagged "maths", against the allowed
set holding "maths" and "physics". -/
theorem cardMatchesTags_iff_witness :
    (CardMatchesTags (sampleFlashcard "c1" ["maths"]) [("physics", true), ("maths", true)]
          = true ↔
        ([("physics", true), ("maths", true)] : TagSet) = [] ∨
          ∃ tag ∈ (sampleFlashcard "c1" ["maths"]).Tags,
            tag.Name ∈ ([("physics", true), ("maths", true)] : TagSet).map Prod.fst) ∧
      (CardMatchesTags (sampleFlashcard "c1" ["maths"]) [("Maths", true)] = true ↔
        ("maths" : String) = "Maths") ∧
      (CardMatchesTags (sampleFlashcard "c0" []) [("maths", true)] = true ↔
        ([("maths", true)] : TagSet) = []) :=
  ⟨(cardMatchesTags_iff (sampleFlashcard "c1" ["maths"])
      [("physics", true), ("maths", true)]).2.1 (by decide),
    (cardMatchesTags_iff (sampleFlashcard "c1" ["maths"]) []).2.2.1 "maths" "Maths" rfl,
    (cardMatchesTags_iff (sampleFlashcard "c0" []) [("maths", true)]).2.2.2 rfl⟩

/-! ## Theorems: answer round trip -/

/-- C15, as stated, fails: the single due new card "c0" is picked at effective
time 1000; the rating "1" moves it to status 1 with due time 1000 + 120 > 1000;
the second pick at effective time 1000 finds no candidate bucket and its
in-progress fallback returns "c0" again. -/
theorem repick_returns_answered_card :
    PickNextCard 1000 0 0 sampleSingleNewCard 0 "20" sampleIndex [] =
        some ("c0", true, none) ∧
      LookupNext 0 "1" = (1, 120) ∧
      nowEffective 1000 0 < 1000 + 120 ∧
      (sampleSingleNewCard.map StudentCard.CardID).Nodup ∧
      PickNextCard 1000 0 0 (answerCard sampleSingleNewCard "c0" 1 (1000 + 120)) 0 "20"
        sampleIndex [] = some ("c0", false, none) := by
  decide

/-- C15, amended: if `PickNextCard` at the effective time `nowEffective` has
returned the card `c`, and the status and due time of `c` are replaced by the
next status and by `answerClock` plus the delay of `LookupNext c.Status rating`,
the new due time being strictly greater than `nowEffective`, then a second
`PickNextCard` over the updated list at the same effective time (same index,
tag filter and limit string, any draw and any daily count) can return `c` only
through the in-progress fallback: if it returns the id of `c`, then it had no
candidate bucket, the next status is in 1..3 and isNew is false. In particular
`c` is not returned when a candidate bucket exists or when the next status is
in 4..6. -/
theorem repick_only_by_fallback (clock : Int) (r1 r2 : Nat) (reviewAheadOffset : Int)
    (cards : List StudentCard) (numNew1 numNew2 : Int) (maxNewCardsToday : String)
    (allCards : CardIndex) (allowedTags : TagSet) (c : StudentCard) (isNew1 isNew2 : Bool)
    (rating : String) (answerClock : Int) (i : Int)
    (_hc : c ∈ cards)
    (_hfirst : PickNextCard clock r1 reviewAheadOffset cards numNew1 maxNewCardsToday
      allCards allowedTags = some (c.CardID, isNew1, none))
    (hi : Atoi maxNewCardsToday = some i)
    (hdue : nowEffective clock reviewAheadOffset <
      answerClock + (LookupNext c.Status rating).2)
    (hsecond : PickNextCard clock r2 reviewAheadOffset
      (answerCard cards c.CardID (LookupNext c.Status rating).1
        (answerClock + (LookupNext c.Status rating).2))
      numNew2 maxNewCardsToday allCards allowedTags = some (c.CardID, isNew2, none)) :
    (buildOptions (classify (nowEffective clock reviewAheadOffset)
        (answerCard cards c.CardID (LookupNext c.Status rating).1
          (answerClock + (LookupNext c.Status rating).2)) allCards allowedTags)
        numNew2 i).1 = [] ∧
      1 ≤ (LookupNext c.Status rating).1 ∧ (LookupNext c.Status rating).1 ≤ 3 ∧
      isNew2 = false := by
  obtain ⟨j, c2, hj, hid, hsrc⟩ := pick_success_source clock r2 reviewAheadOffset _ numNew2
    maxNewCardsToday allCards allowedTags c.CardID isNew2 hsecond
  have hji : j = i := by
    rw [hi] at hj
    exact (Option.some.inj hj).symm
  subst hji
  have hm := classify_mem (nowEffective clock reviewAheadOffset)
    (answerCard cards c.CardID (LookupNext c.Status rating).1
      (answerClock + (LookupNext c.Status rating).2)) allCards allowedTags c2
  have he := classify_mem_eligible (nowEffective clock reviewAheadOffset)
    (answerCard cards c.CardID (LookupNext c.Status rating).1
      (answerClock + (LookupNext c.Status rating).2)) allCards allowedTags c2
  have hupd : c2 ∈ answerCard cards c.CardID (LookupNext c.Status rating).1
      (answerClock + (LookupNext c.Status rating).2) →
      c2.Status = (LookupNext c.Status rating).1 ∧
        c2.Due = answerClock + (LookupNext c.Status rating).2 := by
    intro hmem
    unfold answerCard at hmem
    obtain ⟨c0, _, hc0⟩ := List.mem_map.1 hmem
    by_cases hc0id : c0.CardID = c.CardID
    · rw [if_pos hc0id] at hc0
      rw [← hc0]
      exact ⟨rfl, rfl⟩
    · rw [if_neg hc0id] at hc0
      rw [hc0] at hc0id
      exact absurd hid hc0id
  rcases hsrc with ⟨h1, hopt⟩ | h1 | h1 | h1
  · have h2 := he.1 h1
    have h3 := hupd h2.1
    obtain ⟨_, hfb⟩ := pick_no_candidates clock r2 reviewAheadOffset
      (answerCard cards c.CardID (LookupNext c.Status rating).1
        (answerClock + (LookupNext c.Status rating).2))
      numNew2 maxNewCardsToday allCards allowedTags j hi hopt
    obtain ⟨c3, _, hres⟩ := hfb (List.ne_nil_of_mem h1)
    rw [hres] at hsecond
    simp only [Option.some.injEq, Prod.mk.injEq] at hsecond
    refine ⟨hopt, by omega, by omega, hsecond.2.1.symm⟩
  · have h2 := hupd (hm.2.2 h1).1
    have h3 := (he.2.2.2 h1).2
    omega
  · have h2 := hupd (hm.2.1 h1).1
    have h3 := (he.2.2.1 h1).2
    omega
  · have h2 := hupd (hm.1 h1).1
    have h3 := (he.2.1 h1).2
    omega

/-- Witness of C15, amended: the single new card of the sample, answered with
the rating "1", is returned again by the fallback of the second pick. -/
theorem repick_only_by_fallback_witness :
    (buildOptions (classify (nowEffective 1000 0)
        (answerCard sampleSingleNewCard "c0" (LookupNext 0 "1").1
          (1000 + (LookupNext 0 "1").2)) sampleIndex [])
        0 20).1 = [] ∧
      1 ≤ (LookupNext 0 "1").1 ∧ (LookupNext 0 "1").1 ≤ 3 ∧ false = false :=
  repick_only_by_fallback 1000 0 0 0 sampleSingleNewCard 0 0 "20" sampleIndex []
    ⟨"c0", 0, 5⟩ true false "1" 1000 20 (by decide) (by decide) (by decide) (by decide)
    (by decide)

/-! ## Theorems: floating point -/

/-- The rounded quotient is within one half of the exact quotient. -/
theorem rneDiv_bounds (x y : Nat) (hy : 0 < y) :
    2 * (rneDiv x y * y) ≤ 2 * x + y ∧ 2 * x ≤ 2 * (rneDiv x y * y) + y := by
  have hx : y * (x / y) + x % y = x := Nat.div_add_mod x y
  have hr : x % y < y := Nat.mod_lt x hy
  have hq : x / y * y = y * (x / y) := Nat.mul_comm _ _
  unfold rneDiv
  split_ifs with h1 h2 h3
  · constructor <;> omega
  · rw [Nat.add_mul]; constructor <;> omega
  · constructor <;> omega
  · rw [Nat.add_mul]; constructor <;> omega

/-- A common factor of dividend and divisor does not change the rounded quotient. -/
theorem rneDiv_mul_right (x y c : Nat) (hc : 0 < c) :
    rneDiv (x * c) (y * c) = rneDiv x y := by
  unfold rneDiv
  rw [Nat.mul_div_mul_right x y hc, Nat.mul_mod_mul_right]
  have e1 : (2 * (x % y * c) < y * c) ↔ (2 * (x % y) < y) := by
    rw [← Nat.mul_assoc]
    exact Nat.mul_lt_mul_right hc
  have e2 : (y * c < 2 * (x % y * c)) ↔ (y < 2 * (x % y)) := by
    rw [← Nat.mul_assoc]
    exact Nat.mul_lt_mul_right hc
  simp only [e1, e2]

/-- Rounding a quotient by one changes nothing. -/
theorem rneDiv_one (x : Nat) : rneDiv x 1 = x := by
  unfold rneDiv
  simp [Nat.mod_one]

/-- With enough fuel the doubling loop stops at the first multiple of `num` by a
power of two that reaches `2^52 * den`, which is below `2^53 * den`. -/
theorem scaleUp_spec (fuel : Nat) :
    ∀ num den t : Nat, num < 2 ^ 53 * den → 2 ^ 52 * den ≤ num * 2 ^ fuel →
      ∃ k : Nat, scaleUp fuel num den t = (num * 2 ^ k, t + k) ∧
        2 ^ 52 * den ≤ num * 2 ^ k ∧ num * 2 ^ k < 2 ^ 53 * den := by
  induction fuel with
  | zero =>
    intro num den t hlt hle
    exact ⟨0, by simp [scaleUp], by simpa using hle, by simpa using hlt⟩
  | succ fuel ih =>
    intro num den t hlt hle
    by_cases hc : 2 ^ 52 * den ≤ num
    · exact ⟨0, by rw [scaleUp, if_pos hc]; simp, by simpa using hc, by simpa using hlt⟩
    · have h1 : 2 * num < 2 ^ 53 * den := by
        have : (2:Nat) ^ 53 = 2 * 2 ^ 52 := by norm_num
        rw [this, Nat.mul_assoc]
        omega
      have h2 : 2 ^ 52 * den ≤ 2 * num * 2 ^ fuel := by
        rw [Nat.pow_succ] at hle
        calc 2 ^ 52 * den ≤ num * (2 ^ fuel * 2) := hle
          _ = 2 * num * 2 ^ fuel := by ring
      obtain ⟨k, hk, hk1, hk2⟩ := ih (2 * num) den (t + 1) h1 h2
      refine ⟨k + 1, ?_, ?_, ?_⟩
      · rw [scaleUp, if_neg hc, hk]
        rw [Nat.pow_succ]
        refine Prod.ext ?_ ?_
        · simp only; ring
        · simp only; ring
      · rw [Nat.pow_succ]
        calc 2 ^ 52 * den ≤ 2 * num * 2 ^ k := hk1
          _ = num * (2 ^ k * 2) := by ring
      · rw [Nat.pow_succ]
        calc num * (2 ^ k * 2) = 2 * num * 2 ^ k := by ring
          _ < 2 ^ 53 * den := hk2

/-- The fuel `53 + den` is enough for the doubling loop. -/
theorem scaleUp_fuel (num den : Nat) (h : 0 < num) :
    2 ^ 52 * den ≤ num * 2 ^ (53 + den) := by
  have h1 : den < 2 ^ den := Nat.lt_two_pow den
  have h2 : (2:Nat) ^ (53 + den) = 2 ^ 53 * 2 ^ den := Nat.pow_add 2 53 den
  rw [h2]
  calc 2 ^ 52 * den ≤ 2 ^ 53 * 2 ^ den := by
        apply Nat.mul_le_mul (by norm_num) (Nat.le_of_lt h1)
    _ = 1 * (2 ^ 53 * 2 ^ den) := by ring
    _ ≤ num * (2 ^ 53 * 2 ^ den) := Nat.mul_le_mul_right _ h

/-- Rounding a fraction below `2^52`: the numerator is scaled by a power of two
into `[2^52 * den, 2^53 * den)` and the quotient rounded, ties to even. -/
theorem roundRatio_small (num den : Nat) (h0 : 0 < num) (hd : 0 < den)
    (hlt : num < 2 ^ 52 * den) :
    ∃ k : Nat, roundRatio num den = (rneDiv (num * 2 ^ k) den, -(k : Int)) ∧
      2 ^ 52 * den ≤ num * 2 ^ k ∧ num * 2 ^ k < 2 ^ 53 * den := by
  have hlt2 : num < 2 ^ 53 * den := by
    have : (2:Nat) ^ 53 = 2 * 2 ^ 52 := by norm_num
    rw [this, Nat.mul_assoc]
    omega
  obtain ⟨k, hk, hk1, hk2⟩ := scaleUp_spec (53 + den) num den 0 hlt2 (scaleUp_fuel num den h0)
  refine ⟨k, ?_, hk1, hk2⟩
  unfold roundRatio
  have hne : ¬ (num = 0 ∨ den = 0) := by omega
  rw [if_neg hne, if_pos hlt, hk]
  simp

/-- A positive integer below `2^53` converts to `float64` without rounding. -/
theorem ofInt_exact (a : Nat) (h0 : 0 < a) (h : a < 2 ^ 53) :
    ∃ s : Nat, F64.ofInt (a : Int) = ⟨false, a * 2 ^ s, -(s : Int)⟩ ∧
      2 ^ 52 ≤ a * 2 ^ s ∧ a * 2 ^ s < 2 ^ 53 := by
  have hneg : decide ((a : Int) < 0) = false := by simp
  by_cases hs : a < 2 ^ 52 * 1
  · obtain ⟨k, hk, hk1, hk2⟩ := roundRatio_small a 1 h0 (by norm_num) hs
    refine ⟨k, ?_, by simpa using hk1, by simpa using hk2⟩
    unfold F64.ofInt
    rw [hneg, Int.natAbs_ofNat, hk, rneDiv_one]
  · refine ⟨0, ?_, by simpa using Nat.le_of_not_lt hs, by simpa using h⟩
    unfold F64.ofInt roundRatio
    have hne : ¬ (a = 0 ∨ (1:Nat) = 0) := by omega
    have hsd : scaleDown (a + 1) a 1 0 = (1, 0) := by
      have : a < 2 ^ 53 * 1 := by simpa using h
      rw [scaleDown, if_pos this]
    rw [hneg, Int.natAbs_ofNat, if_neg hne, if_neg hs, hsd, rneDiv_one]
    simp

/-- The arithmetic heart of `div_round`: a quotient `a / d` with `d` even and
`a < 2^53`, rounded to a multiple of `2^-T` within half a unit, is sent by
`math.Round` to the integer nearest to `a / d`, halves up. -/
theorem round_arith (a d T m : Nat) (hd : 0 < d) (heven : 2 ∣ d) (hT : 1 ≤ T)
    (hbig : 2 ^ 52 * d ≤ a * 2 ^ T) (ha : a < 2 ^ 53)
    (hm1 : 2 * (m * d) ≤ 2 * (a * 2 ^ T) + d) (hm2 : 2 * (a * 2 ^ T) ≤ 2 * (m * d) + d) :
    (2 * m + 2 ^ T) / 2 ^ (T + 1) = (2 * a + d) / (2 * d) := by
  obtain ⟨d', rfl⟩ := heven
  obtain ⟨T', rfl⟩ : ∃ T', T = T' + 1 := ⟨T - 1, by omega⟩
  have hP : (2:Nat) ^ (T' + 1) = 2 * 2 ^ T' := by rw [pow_succ]; ring
  have hPP : (2:Nat) ^ (T' + 1 + 1) = 4 * 2 ^ T' := by rw [pow_succ, pow_succ]; ring
  rw [hP] at hbig hm1 hm2
  rw [hP, hPP]
  generalize (2:Nat) ^ T' = P at *
  have hdm := Nat.div_add_mod (2 * a + 2 * d') (2 * (2 * d'))
  have hr := Nat.mod_lt (2 * a + 2 * d') (show 0 < 2 * (2 * d') by omega)
  generalize (2 * a + 2 * d') / (2 * (2 * d')) = q at *
  generalize (2 * a + 2 * d') % (2 * (2 * d')) = r at *
  have hreven : ∃ r', r = 2 * r' := ⟨r / 2, by
    have : 2 * (2 * d') * q = 2 * (2 * (d' * q)) := by ring
    omega⟩
  obtain ⟨r', rfl⟩ := hreven
  have hdp : d' < 2 * P := by
    by_contra hcon
    have h1 : 2 * P ≤ d' := Nat.le_of_not_lt hcon
    have h2 : a * (2 * P) ≤ a * d' := Nat.mul_le_mul_left a h1
    have h3 : a * d' < 2 ^ 53 * d' := Nat.mul_lt_mul_of_pos_right ha (by omega)
    have h4 : 2 ^ 52 * (2 * d') = 2 ^ 53 * d' := by norm_num; ring
    omega
  apply Nat.div_eq_of_lt_le
  · -- q * (4P) ≤ 2m + 2P
    by_contra hcon
    have h1 : 2 * m + 2 * P + 2 ≤ q * (4 * P) := by
      have : q * (4 * P) = 2 * (2 * (q * P)) := by ring
      omega
    have h2 : (2 * m + 2 * P + 2) * d' ≤ q * (4 * P) * d' := Nat.mul_le_mul_right d' h1
    have h3 : (2 * (2 * d') * q + 2 * r') * P = (2 * a + 2 * d') * P := by rw [hdm]
    linarith [h2, h3, hm2, Nat.zero_le (r' * P)]
  · -- 2m + 2P < (q+1) * 4P
    by_contra hcon
    have h1 : (q + 1) * (4 * P) ≤ 2 * m + 2 * P := Nat.le_of_not_lt hcon
    have h2 : (q + 1) * (4 * P) * d' ≤ (2 * m + 2 * P) * d' := Nat.mul_le_mul_right d' h1
    have h3 : (2 * (2 * d') * q + 2 * r') * P = (2 * a + 2 * d') * P := by rw [hdm]
    have h4 : r' + 1 ≤ 2 * d' - 0 := by omega
    have h5 : (r' + 1) * P ≤ 2 * d' * P := Nat.mul_le_mul_right P (by omega)
    linarith [h2, h3, hm1, h5, hdp]

/-- For `0 < a < 2^53` and an even `0 < d < 2^53`, the `float64` computation
`int(math.Round(float64(a) / float64(d)))` gives the integer nearest to `a / d`,
halves up. -/
theorem div_round (a d : Nat) (ha0 : 0 < a) (ha : a < 2 ^ 53) (hd0 : 0 < d)
    (hd : d < 2 ^ 53) (heven : 2 ∣ d) :
    F64.toInt (F64.round (F64.div (F64.ofInt (a : Int)) (F64.ofInt (d : Int)))) =
      (((2 * a + d) / (2 * d) : Nat) : Int) := by
  obtain ⟨s, hs, hs1, hs2⟩ := ofInt_exact a ha0 ha
  obtain ⟨u, hu, hu1, hu2⟩ := ofInt_exact d hd0 hd
  have hd2 : 2 ≤ d := by
    obtain ⟨d', rfl⟩ := heven
    omega
  have hsmall : a * 2 ^ s < 2 ^ 52 * (d * 2 ^ u) := by
    calc a * 2 ^ s < 2 ^ 53 := hs2
      _ = 2 * 2 ^ 52 := by norm_num
      _ ≤ 2 ^ 52 * (d * 2 ^ u) := by
        have : 2 ≤ d * 2 ^ u := le_trans (by norm_num) hu1
        calc 2 * 2 ^ 52 = 2 ^ 52 * 2 := by ring
          _ ≤ 2 ^ 52 * (d * 2 ^ u) := Nat.mul_le_mul_left _ this
  obtain ⟨k, hk, hk1, _⟩ := roundRatio_small (a * 2 ^ s) (d * 2 ^ u)
    (lt_of_lt_of_le (by norm_num) hs1) (lt_of_lt_of_le (by norm_num) hu1) hsmall
  -- the scaling of the quotient exceeds that of the divisor
  have hsku : u < s + k := by
    by_contra hcon
    have h1 : s + k ≤ u := Nat.le_of_not_lt hcon
    have h2 : (2:Nat) ^ (s + k) ≤ 2 ^ u := Nat.pow_le_pow_right (by norm_num) h1
    have h3 : a * 2 ^ s * 2 ^ k = a * 2 ^ (s + k) := by rw [pow_add]; ring
    have h4 : a * 2 ^ (s + k) ≤ a * 2 ^ u := Nat.mul_le_mul_left a h2
    have h5 : a * 2 ^ u < 2 ^ 53 * 2 ^ u :=
      Nat.mul_lt_mul_of_pos_right ha (Nat.pow_pos (by norm_num))
    have h6 : 2 ^ 53 * 2 ^ u ≤ 2 ^ 52 * (d * 2 ^ u) := by
      calc 2 ^ 53 * 2 ^ u = 2 ^ 52 * (2 * 2 ^ u) := by ring
        _ ≤ 2 ^ 52 * (d * 2 ^ u) :=
          Nat.mul_le_mul_left _ (Nat.mul_le_mul_right _ hd2)
    omega
  obtain ⟨T, hT⟩ : ∃ T, s + k = u + (T + 1) := ⟨s + k - u - 1, by omega⟩
  have hnum : a * 2 ^ s * 2 ^ k = a * 2 ^ (T + 1) * 2 ^ u := by
    have : a * 2 ^ s * 2 ^ k = a * 2 ^ (s + k) := by rw [pow_add]; ring
    rw [this, hT, pow_add]; ring
  have hupos : 0 < 2 ^ u := Nat.pow_pos (by norm_num)
  have hbig : 2 ^ 52 * d ≤ a * 2 ^ (T + 1) := by
    rw [hnum] at hk1
    have : 2 ^ 52 * (d * 2 ^ u) = 2 ^ 52 * d * 2 ^ u := by ring
    rw [this] at hk1
    exact Nat.le_of_mul_le_mul_right hk1 hupos
  have hm : rneDiv (a * 2 ^ s * 2 ^ k) (d * 2 ^ u) = rneDiv (a * 2 ^ (T + 1)) d := by
    rw [hnum, rneDiv_mul_right _ _ _ hupos]
  obtain ⟨hb1, hb2⟩ := rneDiv_bounds (a * 2 ^ (T + 1)) d hd0
  have hexp : -(k : Int) + -(s : Int) - -(u : Int) = -((T + 1 : Nat) : Int) := by
    push_cast
    omega
  unfold F64.div
  rw [hs, hu]
  simp only [hk, hm, hexp, bne_self_eq_false]
  unfold F64.round
  have hneg : ¬ (0 : Int) ≤ -((T + 1 : Nat) : Int) := by
    push_cast
    omega
  rw [if_neg hneg]
  unfold F64.toInt
  simp only [neg_neg, Int.toNat_ofNat, le_refl, if_true, Int.toNat_zero, pow_zero, mul_one,
    Bool.false_eq_true, if_false, one_mul]
  rw [round_arith a d (T + 1) _ hd0 heven (by omega) hbig ha hb1 hb2]

/-- The integer `(2a + d) / (2d)` is `a / d` rounded to the nearest integer,
halves away from zero. -/
theorem round_div_eq (a d : Nat) (hd : 0 < d) :
    round ((a : ℚ) / (d : ℚ)) = (((2 * a + d) / (2 * d) : Nat) : Int) := by
  rw [round_eq]
  have hd2 : (d : ℚ) ≠ 0 := by exact_mod_cast hd.ne'
  have h : (a : ℚ) / d + 1 / 2 = ((2 * a + d : Nat) : ℚ) / ((2 * d : Nat) : ℚ) := by
    push_cast
    field_simp
    ring
  rw [h, Rat.floor_natCast_div_natCast]
  norm_cast

/-! ## Theorems: display of a delay -/

/-- For a delay of magnitude below `2^53` the text built by `FormatDueTime`
before the prefix test shows the magnitude in seconds below 90, and otherwise
the magnitude divided by 60, 3600 or 86400 and rounded to the nearest integer,
halves away from zero. -/
theorem formatDueText_bounded (seconds : Int) (hb : |seconds| < 2 ^ 53) :
    formatDueText seconds =
      if |seconds| < 90 then toString |seconds| ++ " sec"
      else if |seconds| < 5400 then toString (round ((|seconds| : ℚ) / 60)) ++ " min"
      else if |seconds| < 129600 then toString (round ((|seconds| : ℚ) / 3600)) ++ " hr"
      else toString (round ((|seconds| : ℚ) / 86400)) ++ " d" := by
  have habs : (if seconds < 0 then wrapInt64 (-seconds) else seconds) = |seconds| := by
    by_cases hneg : seconds < 0
    · rw [if_pos hneg, abs_of_neg hneg]
      rw [abs_of_neg hneg] at hb
      unfold wrapInt64
      norm_num at hb ⊢
      omega
    · rw [if_neg hneg, abs_of_nonneg (by omega)]
  obtain ⟨n, hn⟩ : ∃ n : Nat, |seconds| = (n : Int) := ⟨seconds.natAbs, Int.abs_eq_natAbs _⟩
  unfold formatDueText
  simp only [habs]
  rw [hn] at hb ⊢
  have hn53 : n < 2 ^ 53 := by exact_mod_cast hb
  have key : ∀ d : Nat, 0 < d → d < 2 ^ 53 → 2 ∣ d → 90 ≤ n →
      F64.toInt (F64.round (F64.div (F64.ofInt (n : Int)) (F64.ofInt (d : Int)))) =
        round (((n : Int) : ℚ) / (d : ℚ)) := by
    intro d hd0 hd hev h90
    rw [div_round n d (by omega) hn53 hd0 hd hev, Int.cast_natCast, round_div_eq n d hd0]
  by_cases h1 : (n : Int) < 90
  · simp only [h1, if_true]
  · have h90 : 90 ≤ n := by omega
    have k60 := key 60 (by norm_num) (by norm_num) (by norm_num) h90
    have k3600 := key 3600 (by norm_num) (by norm_num) (by norm_num) h90
    have k86400 := key 86400 (by norm_num) (by norm_num) (by norm_num) h90
    simp only [Nat.cast_ofNat] at k60 k3600 k86400
    have e1 : ((90 : Int) * 60) = 5400 := by norm_num
    have e2 : ((36 : Int) * 3600) = 129600 := by norm_num
    have hq : |(seconds : ℚ)| = ((n : Int) : ℚ) := by rw [← Int.cast_abs, hn]
    simp only [h1, if_false, e1, e2, k60, k3600, k86400, hq]

/-- C16, as stated for every integer, fails. For the least 64-bit integer the
negation wraps, the magnitude stays negative and is printed in seconds, where
the stated rule gives 106751991167301 days; and above `2^53` the conversion to
`float64` rounds the magnitude first: 9007378178702399 seconds are shown as
104252062254 days, where the quotient rounded to the nearest integer is
104252062253. -/
theorem formatDueTime_extreme_inputs :
    FormatDueTime (-9223372036854775808) 5 = "-9223372036854775808 sec" ∧
      (2 * 9223372036854775808 + 86400) / (2 * 86400) = 106751991167301 ∧
      FormatDueTime 9007378178702399 5 = "104252062254 d" ∧
      (2 * 9007378178702399 + 86400) / (2 * 86400) = 104252062253 := by
  decide

/-- C16, amended: for every integer `seconds` of magnitude `a` below `2^53` and
every next status, the text `FormatDueTime` puts after the optional "<" prefix
is "a sec" when a < 90; "N min" with N the nearest integer to a/60 (halves away
from zero) when 90 ≤ a < 5400; "N hr" with N the nearest integer to a/3600 when
5400 ≤ a < 129600; and "N d" with N the nearest integer to a/86400 when
a ≥ 129600. -/
theorem formatDueTime_text (seconds nextStatus : Int) (hb : |seconds| < 2 ^ 53) :
    FormatDueTime seconds nextStatus =
      (if 0 ≤ nextStatus ∧ nextStatus ≤ 3 then "<" else "") ++
        (if |seconds| < 90 then toString |seconds| ++ " sec"
         else if |seconds| < 5400 then toString (round ((|seconds| : ℚ) / 60)) ++ " min"
         else if |seconds| < 129600 then
           toString (round ((|seconds| : ℚ) / 3600)) ++ " hr"
         else toString (round ((|seconds| : ℚ) / 86400)) ++ " d") := by
  rw [← formatDueText_bounded seconds hb]
  unfold FormatDueTime
  by_cases h : 0 ≤ nextStatus ∧ nextStatus ≤ 3
  · have h2 : nextStatus ≥ 0 ∧ nextStatus ≤ 3 := h
    rw [if_pos h, if_pos h2]
  · have h2 : ¬ (nextStatus ≥ 0 ∧ nextStatus ≤ 3) := h
    rw [if_neg h, if_neg h2]
    simp

/-- Witness of C16, amended: a delay of minus 100 seconds with next status 5. -/
theorem formatDueTime_text_witness :
    FormatDueTime (-100) 5 =
      (if (0 : Int) ≤ 5 ∧ (5 : Int) ≤ 3 then "<" else "") ++
        (if |(-100 : Int)| < 90 then toString |(-100 : Int)| ++ " sec"
         else if |(-100 : Int)| < 5400 then
           toString (round ((|(-100 : Int)| : ℚ) / 60)) ++ " min"
         else if |(-100 : Int)| < 129600 then
           toString (round ((|(-100 : Int)| : ℚ) / 3600)) ++ " hr"
         else toString (round ((|(-100 : Int)| : ℚ) / 86400)) ++ " d") :=
  formatDueTime_text (-100) 5 (by decide)

/-- No decimal digit is printed as the character `<`. -/
theorem digitChar_ne_lt (m : Nat) (h : m < 10) : Nat.digitChar m ≠ '<' := by
  interval_cases m <;> decide

/-- The digit loop of `Nat.repr` in base ten never produces the character `<`. -/
theorem toDigitsCore_chars (fuel : Nat) :
    ∀ (n : Nat) (ds : List Char), (∀ c ∈ ds, c ≠ '<') →
      ∀ c ∈ Nat.toDigitsCore 10 fuel n ds, c ≠ '<' := by
  induction fuel with
  | zero => intro n ds h c hc; exact h c (by simpa [Nat.toDigitsCore] using hc)
  | succ fuel ih =>
    intro n ds h c hc
    have hds : ∀ c ∈ Nat.digitChar (n % 10) :: ds, c ≠ '<' := by
      intro c hc
      rcases List.mem_cons.1 hc with h1 | h1
      · rw [h1]; exact digitChar_ne_lt _ (Nat.mod_lt _ (by norm_num))
      · exact h c h1
    unfold Nat.toDigitsCore at hc
    simp only at hc
    split at hc
    · exact hds c hc
    · exact ih _ _ hds c hc

/-- The digit loop of `Nat.repr` keeps its accumulator non-empty. -/
theorem toDigitsCore_ne_nil (fuel : Nat) :
    ∀ (n : Nat) (ds : List Char), ds ≠ [] → Nat.toDigitsCore 10 fuel n ds ≠ [] := by
  induction fuel with
  | zero => intro n ds h; simpa [Nat.toDigitsCore] using h
  | succ fuel ih =>
    intro n ds _
    unfold Nat.toDigitsCore
    simp only
    split
    · simp
    · exact ih _ _ (by simp)

/-- The decimal text of a natural number is non-empty and does not start with `<`. -/
theorem nat_toString_head (n : Nat) :
    ∃ c cs, (toString n).data = c :: cs ∧ c ≠ '<' := by
  have hdata : (toString n).data = Nat.toDigits 10 n := rfl
  have hne : Nat.toDigits 10 n ≠ [] := by
    unfold Nat.toDigits Nat.toDigitsCore
    simp only
    split
    · simp
    · exact toDigitsCore_ne_nil _ _ _ (by simp)
  have hall : ∀ c ∈ Nat.toDigits 10 n, c ≠ '<' :=
    toDigitsCore_chars _ _ _ (by simp)
  rw [hdata]
  cases h : Nat.toDigits 10 n with
  | nil => exact absurd h hne
  | cons c cs => exact ⟨c, cs, rfl, hall c (by rw [h]; simp)⟩

/-- The decimal text of an integer is non-empty and does not start with `<`. -/
theorem int_toString_head (k : Int) :
    ∃ c cs, (toString k).data = c :: cs ∧ c ≠ '<' := by
  cases k with
  | ofNat n => exact nat_toString_head n
  | negSucc n =>
    refine ⟨'-', (toString (n + 1)).data, ?_, by decide⟩
    rfl

/-- The text built before the prefix test is non-empty and does not start with
the character `<`. -/
theorem formatDueText_head (seconds : Int) :
    ∃ c cs, (formatDueText seconds).data = c :: cs ∧ c ≠ '<' := by
  have key : ∀ (k : Int) (suffix : String),
      ∃ c cs, (toString k ++ suffix).data = c :: cs ∧ c ≠ '<' := by
    intro k suffix
    obtain ⟨c, cs, h, hc⟩ := int_toString_head k
    exact ⟨c, cs ++ suffix.data, by rw [String.data_append, h]; rfl, hc⟩
  unfold formatDueText
  simp only
  split_ifs <;> exact key _ _

/-- C17: for every delay and next status, the text of `FormatDueTime` starts
with "<" exactly when 0 ≤ nextStatus ≤ 3, and then the text after that prefix
is the text `FormatDueTime` gives for the same delay and any status outside
0..3; for example FormatDueTime(45, 2) = "<45 sec". -/
theorem formatDueTime_prefixed_iff (seconds nextStatus s : Int) :
    ((∃ rest, FormatDueTime seconds nextStatus = "<" ++ rest) ↔
        (0 ≤ nextStatus ∧ nextStatus ≤ 3)) ∧
      ((0 ≤ nextStatus ∧ nextStatus ≤ 3) → ¬ (0 ≤ s ∧ s ≤ 3) →
        FormatDueTime seconds nextStatus = "<" ++ FormatDueTime seconds s) ∧
      FormatDueTime 45 2 = "<45 sec" := by
  refine ⟨⟨?_, ?_⟩, ?_, by decide⟩
  · rintro ⟨rest, hrest⟩
    by_contra hns
    have hns2 : ¬ (nextStatus ≥ 0 ∧ nextStatus ≤ 3) := hns
    unfold FormatDueTime at hrest
    rw [if_neg hns2] at hrest
    obtain ⟨c, cs, hdata, hc⟩ := formatDueText_head seconds
    rw [hrest, String.data_append] at hdata
    have : ("<" : String).data = ['<'] := rfl
    rw [this] at hdata
    simp only [List.singleton_append, List.cons.injEq] at hdata
    exact hc hdata.1.symm
  · intro hns
    have hns2 : nextStatus ≥ 0 ∧ nextStatus ≤ 3 := hns
    exact ⟨formatDueText seconds, by unfold FormatDueTime; rw [if_pos hns2]⟩
  · intro hns hs
    have hns2 : nextStatus ≥ 0 ∧ nextStatus ≤ 3 := hns
    have hs2 : ¬ (s ≥ 0 ∧ s ≤ 3) := hs
    unfold FormatDueTime
    rw [if_pos hns2, if_neg hs2]

/-- Witness of C17: the delay 45 with next status 2, against next status 5. -/
theorem formatDueTime_prefixed_iff_witness :
    FormatDueTime 45 2 = "<" ++ FormatDueTime 45 5 :=
  (formatDueTime_prefixed_iff 45 2 5).2.1 (by decide) (by decide)

/-- C18, as stated, fails: FormatDueTime(5400, 5) is not "90 min"; 5400 is not
below 90 * 60, so the delay is shown in hours. -/
theorem formatDueTime_5400_not_minutes :
    FormatDueTime 5400 5 ≠ "90 min" ∧ ¬ ((5400 : Int) < 90 * 60) := by
  decide

/-- C18, amended: FormatDueTime(5400, 5) returns "2 hr": a delay of exactly 90
minutes is no longer shown in minutes but in hours, 1.5 hours being rounded to
2, and with a review next status there is no "<" prefix. -/
theorem formatDueTime_5400_5 : FormatDueTime 5400 5 = "2 hr" := by
  decide

/-- C19, as stated, fails: FormatDueTime(90000, 4) is not "<25 hr"; the next
status 4 is outside 0..3, so there is no "<" prefix. -/
theorem formatDueTime_90000_unprefixed :
    FormatDueTime 90000 4 ≠ "<25 hr" ∧ ¬ ((4 : Int) ≥ 0 ∧ (4 : Int) ≤ 3) := by
  decide

/-- C19, amended: FormatDueTime(90000, 4) returns "25 hr", without a "<"
prefix; the prefixed text "<25 hr" is what next statuses 0..3 give. -/
theorem formatDueTime_90000_4 :
    FormatDueTime 90000 4 = "25 hr" ∧ FormatDueTime 90000 3 = "<25 hr" := by
  decide

/-! ## Theorems: calendar date and its text -/

/-- Split of a day of the era into centuries, four-year cycles, years and days. -/
theorem doe_split (x : Int) (h0 : 0 ≤ x) (h1 : x ≤ 146095) :
    ∃ a n b d : Int, x = 36524 * a + 1461 * n + 365 * b + d ∧
      0 ≤ a ∧ a ≤ 3 ∧ 0 ≤ n ∧ n ≤ 24 ∧ 0 ≤ b ∧ b ≤ 3 ∧ 0 ≤ d ∧
      (d ≤ 364 ∨ (b = 3 ∧ d = 365 ∧ n ≤ 23)) := by
  by_cases h : x % 36524 % 1461 = 1460
  · refine ⟨x / 36524, x % 36524 / 1461, 3, 365, ?_, ?_, ?_, ?_, ?_, ?_, ?_, ?_, ?_⟩ <;> omega
  · refine ⟨x / 36524, x % 36524 / 1461, x % 36524 % 1461 / 365,
      x % 36524 % 1461 % 365, ?_, ?_, ?_, ?_, ?_, ?_, ?_, ?_, ?_⟩ <;> omega

/-- The year of the era computed from the split of the day of the era. -/
theorem yearOfEra_split (a n b d : Int)
    (ha0 : 0 ≤ a) (ha : a ≤ 3) (hn0 : 0 ≤ n) (hn : n ≤ 24) (hb0 : 0 ≤ b) (hb : b ≤ 3)
    (hd0 : 0 ≤ d) (hd : d ≤ 364 ∨ (b = 3 ∧ d = 365 ∧ n ≤ 23))
    (hx : 36524 * a + 1461 * n + 365 * b + d ≤ 146095) :
    yearOfEra (36524 * a + 1461 * n + 365 * b + d) = 100 * a + 4 * n + b := by
  have h1 : (36524 * a + 1461 * n + 365 * b + d) / 36524 = a := by omega
  have h2 : (36524 * a + 1461 * n + 365 * b + d) / 146096 = 0 := by omega
  unfold yearOfEra
  rw [h1, h2]
  by_cases hj : 1460 ≤ 24 * a + n + 365 * b + d
  · have h3 : (36524 * a + 1461 * n + 365 * b + d) / 1460 = 25 * a + n + 1 := by omega
    rw [h3]
    omega
  · have h3 : (36524 * a + 1461 * n + 365 * b + d) / 1460 = 25 * a + n := by omega
    rw [h3]
    omega

/-- The ranges of the year of the era and of the day of the year. -/
theorem era_bounds (x : Int) (h0 : 0 ≤ x) (h1 : x ≤ 146096) :
    0 ≤ yearOfEra x ∧ yearOfEra x ≤ 399 ∧ 0 ≤ dayOfYear x ∧ dayOfYear x ≤ 365 := by
  by_cases hl : x = 146096
  · subst hl
    decide
  · obtain ⟨a, n, b, d, hx, ha0, ha, hn0, hn, hb0, hb, hd0, hd⟩ := doe_split x h0 (by omega)
    have hy := yearOfEra_split a n b d ha0 ha hn0 hn hb0 hb hd0 hd (by omega)
    have hq4 : (100 * a + 4 * n + b) / 4 = 25 * a + n := by omega
    have hq100 : (100 * a + 4 * n + b) / 100 = a := by omega
    unfold dayOfYear
    rw [hx, hy, hq4, hq100]
    omega

/-- The year of the era does not decrease with the day of the era. -/
theorem yearOfEra_mono (x y : Int) (h0 : 0 ≤ x) (hxy : x ≤ y) (h1 : y ≤ 146096) :
    yearOfEra x ≤ yearOfEra y := by
  by_cases hl : y = 146096
  · have := (era_bounds x h0 (by omega)).2.1
    subst hl
    have h2 : yearOfEra 146096 = 399 := by decide
    omega
  · unfold yearOfEra
    have e1 : x / 146096 = 0 := by omega
    have e2 : y / 146096 = 0 := by omega
    have e3 : x / 36524 ≤ y / 36524 := by omega
    have e4 : y / 1460 - x / 1460 ≤ y - x := by omega
    rw [e1, e2]
    omega

/-- The pair (year of era, day of year) grows with the day of the era. -/
theorem era_lex (x y : Int) (h0 : 0 ≤ x) (hxy : x < y) (h1 : y ≤ 146096) :
    yearOfEra x < yearOfEra y ∨ (yearOfEra x = yearOfEra y ∧ dayOfYear x < dayOfYear y) := by
  have hm := yearOfEra_mono x y h0 (by omega) h1
  by_cases he : yearOfEra x = yearOfEra y
  · right
    refine ⟨he, ?_⟩
    unfold dayOfYear
    rw [he]
    omega
  · left
    omega

/-- The ranges of the month index and of the day of the month. -/
theorem month_bounds (doy : Int) (h0 : 0 ≤ doy) (h1 : doy ≤ 365) :
    0 ≤ monthIndex doy ∧ monthIndex doy ≤ 11 ∧ 1 ≤ dayOfMonth doy ∧ dayOfMonth doy ≤ 31 := by
  unfold dayOfMonth monthIndex
  omega

/-- The pair (month index, day of month) grows with the day of the year. -/
theorem month_lex (x y : Int) (hxy : x < y) :
    monthIndex x < monthIndex y ∨ (monthIndex x = monthIndex y ∧ dayOfMonth x < dayOfMonth y) := by
  have hm : monthIndex x ≤ monthIndex y := by
    unfold monthIndex
    omega
  by_cases he : monthIndex x = monthIndex y
  · right
    refine ⟨he, ?_⟩
    unfold dayOfMonth
    rw [he]
    omega
  · left
    omega

/-- The range of the day of the era. -/
theorem dayOfEra_bounds (day : Int) : 0 ≤ dayOfEra day ∧ dayOfEra day ≤ 146096 := by
  unfold dayOfEra eraOf
  omega

/-- The pair (era, day of era) grows with the day. -/
theorem dayOfEra_lex (a b : Int) (h : a < b) :
    eraOf a < eraOf b ∨ (eraOf a = eraOf b ∧ dayOfEra a < dayOfEra b) := by
  unfold dayOfEra eraOf
  omega

/-- The fields of the date in terms of the count of months, and their ranges. -/
theorem civil_fields (day : Int) :
    (civilFromDays day).1 * 12 + (civilFromDays day).2.1 = monthCount day + 3 ∧
      (civilFromDays day).2.2 = dayOfMonth (dayOfYear (dayOfEra day)) ∧
      1 ≤ (civilFromDays day).2.1 ∧ (civilFromDays day).2.1 ≤ 12 ∧
      1 ≤ (civilFromDays day).2.2 ∧ (civilFromDays day).2.2 ≤ 31 := by
  obtain ⟨hd0, hd1⟩ := dayOfEra_bounds day
  obtain ⟨_, _, hy0, hy1⟩ := era_bounds _ hd0 hd1
  obtain ⟨hm0, hm1, hdm0, hdm1⟩ := month_bounds _ hy0 hy1
  unfold civilFromDays monthCount
  dsimp only
  refine ⟨?_, rfl, ?_, ?_, hdm0, hdm1⟩ <;> split_ifs <;> omega

/-- The pair (count of months, day of month) grows with the day. -/
theorem monthCount_lex (a b : Int) (h : a < b) :
    monthCount a < monthCount b ∨ (monthCount a = monthCount b ∧
      dayOfMonth (dayOfYear (dayOfEra a)) < dayOfMonth (dayOfYear (dayOfEra b))) := by
  obtain ⟨ha0, ha1⟩ := dayOfEra_bounds a
  obtain ⟨hb0, hb1⟩ := dayOfEra_bounds b
  obtain ⟨hya0, hya1, hda0, hda1⟩ := era_bounds _ ha0 ha1
  obtain ⟨hyb0, hyb1, hdb0, hdb1⟩ := era_bounds _ hb0 hb1
  obtain ⟨hma0, hma1, _, _⟩ := month_bounds _ hda0 hda1
  obtain ⟨hmb0, hmb1, _, _⟩ := month_bounds _ hdb0 hdb1
  unfold monthCount
  rcases dayOfEra_lex a b h with he | ⟨he, hdoe⟩
  · left
    omega
  · rcases era_lex _ _ ha0 hdoe hb1 with hy | ⟨hy, hdoy⟩
    · left
      omega
    · rcases month_lex _ _ hdoy with hm | ⟨hm, hdm⟩
      · left
        omega
      · right
        exact ⟨by omega, hdm⟩

/-- The date grows with the day: year first, then month, then day of the month. -/
theorem civil_lex (a b : Int) (h : a < b) :
    (civilFromDays a).1 < (civilFromDays b).1 ∨
      ((civilFromDays a).1 = (civilFromDays b).1 ∧
        ((civilFromDays a).2.1 < (civilFromDays b).2.1 ∨
          ((civilFromDays a).2.1 = (civilFromDays b).2.1 ∧
            (civilFromDays a).2.2 < (civilFromDays b).2.2))) := by
  obtain ⟨ha1, ha2, ha3, ha4, _, _⟩ := civil_fields a
  obtain ⟨hb1, hb2, hb3, hb4, _, _⟩ := civil_fields b
  rcases monthCount_lex a b h with hm | ⟨hm, hd⟩
  · omega
  · rw [← ha2, ← hb2] at hd
    omega

/-- The days from 0000-01-01 to 9999-12-31 have a year from 0 to 9999. -/
theorem civil_year_range (day : Int) (h0 : -719528 ≤ day) (h1 : day ≤ 2932896) :
    0 ≤ (civilFromDays day).1 ∧ (civilFromDays day).1 ≤ 9999 := by
  have e0 : civilFromDays (-719528) = (0, 1, 1) := by decide
  have e1 : civilFromDays 2932896 = (9999, 12, 31) := by decide
  constructor
  · rcases eq_or_lt_of_le h0 with h | h
    · rw [← h, e0]
    · have := civil_lex _ _ h
      rw [e0] at this
      omega
  · rcases eq_or_lt_of_le h1 with h | h
    · rw [h, e1]
    · have := civil_lex _ _ h
      rw [e1] at this
      omega

/-- The order of two texts that both have a first character. -/
theorem cons_lt_cons_iff (a b : Char) (as bs : List Char) :
    (a :: as) < (b :: bs) ↔ a < b ∨ (a = b ∧ as < bs) := by
  constructor
  · intro h
    cases h with
    | cons h => exact Or.inr ⟨rfl, h⟩
    | rel h => exact Or.inl h
  · rintro (h | ⟨h, h3⟩)
    · exact List.Lex.rel h
    · subst h
      exact List.Lex.cons h3

/-- The empty text is not before itself. -/
theorem nil_not_lt_nil : ¬ (([] : List Char) < []) := by
  intro h
  cases h

/-- The code of a digit character. -/
theorem decimalDigit_toNat (n : Nat) : (decimalDigit n).toNat = 48 + n % 10 := by
  have h : n % 10 < 10 := Nat.mod_lt _ (by norm_num)
  unfold decimalDigit
  generalize n % 10 = k at h
  interval_cases k <;> decide

/-- Characters are ordered by their codes. -/
theorem char_lt_iff (a b : Char) : a < b ↔ a.toNat < b.toNat := by
  exact Iff.rfl

/-- Digit characters are ordered like the digits. -/
theorem decimalDigit_lt_iff (m n : Nat) : decimalDigit m < decimalDigit n ↔ m % 10 < n % 10 := by
  rw [char_lt_iff, decimalDigit_toNat, decimalDigit_toNat]
  omega

/-- Digit characters are equal when the digits are. -/
theorem decimalDigit_eq_iff (m n : Nat) : decimalDigit m = decimalDigit n ↔ m % 10 = n % 10 := by
  constructor
  · intro h
    have := congrArg Char.toNat h
    rw [decimalDigit_toNat, decimalDigit_toNat] at this
    omega
  · intro h
    unfold decimalDigit
    rw [h]


/-- The ten characters of the date text of a day in the years 0 to 9999. -/
theorem formatDay_data (day : Int) (h0 : -719528 ≤ day) (h1 : day ≤ 2932896) :
    ∃ y m d : Nat, (civilFromDays day).1 = (y : Int) ∧ (civilFromDays day).2.1 = (m : Int) ∧
      (civilFromDays day).2.2 = (d : Int) ∧ y ≤ 9999 ∧ m ≤ 12 ∧ d ≤ 31 ∧
      (formatDay day).data =
        [decimalDigit (y / 1000), decimalDigit (y / 100), decimalDigit (y / 10), decimalDigit y,
          '-', decimalDigit (m / 10), decimalDigit m, '-', decimalDigit (d / 10),
          decimalDigit d] := by
  obtain ⟨hy0, hy1⟩ := civil_year_range day h0 h1
  obtain ⟨_, _, hm0, hm1, hd0, hd1⟩ := civil_fields day
  obtain ⟨y, hy⟩ := Int.eq_ofNat_of_zero_le hy0
  obtain ⟨m, hm⟩ := Int.eq_ofNat_of_zero_le (show 0 ≤ (civilFromDays day).2.1 by omega)
  obtain ⟨d, hd⟩ := Int.eq_ofNat_of_zero_le (show 0 ≤ (civilFromDays day).2.2 by omega)
  refine ⟨y, m, d, hy, hm, hd, by omega, by omega, by omega, ?_⟩
  have ey : appendInt (y : Int) 4 = [decimalDigit (y / 1000), decimalDigit (y / 100),
      decimalDigit (y / 10), decimalDigit y] := by
    unfold appendInt
    rw [if_neg (by omega), if_neg (by omega), if_pos ⟨rfl, by rw [Int.natAbs_ofNat]; omega⟩,
      Int.natAbs_ofNat]
    rfl
  have em : appendInt (m : Int) 2 = [decimalDigit (m / 10), decimalDigit m] := by
    unfold appendInt
    rw [if_neg (by omega), if_pos ⟨rfl, by rw [Int.natAbs_ofNat]; omega⟩, Int.natAbs_ofNat]
    rfl
  have ed : appendInt (d : Int) 2 = [decimalDigit (d / 10), decimalDigit d] := by
    unfold appendInt
    rw [if_neg (by omega), if_pos ⟨rfl, by rw [Int.natAbs_ofNat]; omega⟩, Int.natAbs_ofNat]
    rfl
  unfold formatDay
  rw [hy, hm, hd, ey, em, ed]
  rfl

/-- The four digits of a number below 10000. -/
theorem digits4 (y : Nat) (h : y ≤ 9999) :
    ∃ a b c d : Nat, a ≤ 9 ∧ b ≤ 9 ∧ c ≤ 9 ∧ d ≤ 9 ∧ y = 1000 * a + 100 * b + 10 * c + d ∧
      y / 1000 % 10 = a ∧ y / 100 % 10 = b ∧ y / 10 % 10 = c ∧ y % 10 = d :=
  ⟨y / 1000, y / 100 % 10, y / 10 % 10, y % 10, by omega, by omega, by omega, by omega,
    by omega, by omega, rfl, rfl, rfl⟩

/-- The two digits of a number below 100. -/
theorem digits2 (m : Nat) (h : m ≤ 99) :
    ∃ a b : Nat, a ≤ 9 ∧ b ≤ 9 ∧ m = 10 * a + b ∧ m / 10 % 10 = a ∧ m % 10 = b :=
  ⟨m / 10, m % 10, by omega, by omega, by omega, by omega, rfl⟩

/-- The texts of two dates with four year digits are ordered like the dates. -/
theorem dateText_lt_iff (y1 m1 d1 y2 m2 d2 : Nat) (hy1 : y1 ≤ 9999) (hm1 : m1 ≤ 99)
    (hd1 : d1 ≤ 99) (hy2 : y2 ≤ 9999) (hm2 : m2 ≤ 99) (hd2 : d2 ≤ 99) :
    [decimalDigit (y1 / 1000), decimalDigit (y1 / 100), decimalDigit (y1 / 10), decimalDigit y1,
        '-', decimalDigit (m1 / 10), decimalDigit m1, '-', decimalDigit (d1 / 10),
        decimalDigit d1] <
      [decimalDigit (y2 / 1000), decimalDigit (y2 / 100), decimalDigit (y2 / 10), decimalDigit y2,
        '-', decimalDigit (m2 / 10), decimalDigit m2, '-', decimalDigit (d2 / 10),
        decimalDigit d2] ↔
      (y1 < y2 ∨ (y1 = y2 ∧ (m1 < m2 ∨ (m1 = m2 ∧ d1 < d2)))) := by
  obtain ⟨a1, b1, c1, e1, _, _, _, _, ry1, ha1, hb1, hc1, he1⟩ := digits4 y1 hy1
  obtain ⟨a2, b2, c2, e2, _, _, _, _, ry2, ha2, hb2, hc2, he2⟩ := digits4 y2 hy2
  obtain ⟨p1, q1, _, _, rm1, hp1, hq1⟩ := digits2 m1 hm1
  obtain ⟨p2, q2, _, _, rm2, hp2, hq2⟩ := digits2 m2 hm2
  obtain ⟨s1, t1, _, _, rd1, hs1, ht1⟩ := digits2 d1 hd1
  obtain ⟨s2, t2, _, _, rd2, hs2, ht2⟩ := digits2 d2 hd2
  simp only [cons_lt_cons_iff, decimalDigit_lt_iff, decimalDigit_eq_iff, lt_irrefl, false_or,
    true_and, or_false, and_false]
  rw [ha1, hb1, hc1, he1, ha2, hb2, hc2, he2, hp1, hq1, hp2, hq2, hs1, ht1, hs2, ht2]
  clear ha1 hb1 hc1 he1 ha2 hb2 hc2 he2 hp1 hq1 hp2 hq2 hs1 ht1 hs2 ht2
  subst ry1 ry2 rm1 rm2 rd1 rd2
  omega

/-- For days in the years 0 to 9999 the date texts are ordered like the days. -/
theorem formatDay_lt_iff (a b : Int) (ha0 : -719528 ≤ a) (ha1 : a ≤ 2932896)
    (hb0 : -719528 ≤ b) (hb1 : b ≤ 2932896) :
    (formatDay a).data < (formatDay b).data ↔ a < b := by
  obtain ⟨y1, m1, d1, hy1, hm1, hd1, by1, bm1, bd1, e1⟩ := formatDay_data a ha0 ha1
  obtain ⟨y2, m2, d2, hy2, hm2, hd2, by2, bm2, bd2, e2⟩ := formatDay_data b hb0 hb1
  have hstr : (formatDay a).data < (formatDay b).data ↔
      (y1 < y2 ∨ (y1 = y2 ∧ (m1 < m2 ∨ (m1 = m2 ∧ d1 < d2)))) := by
    rw [e1, e2]
    exact dateText_lt_iff y1 m1 d1 y2 m2 d2 by1 (by omega) (by omega) by2 (by omega) (by omega)
  rw [hstr]
  constructor
  · intro h
    by_contra hab
    rcases eq_or_lt_of_le (not_lt.1 hab) with hba | hba
    · subst hba
      omega
    · have := civil_lex b a hba
      omega
  · intro h
    have := civil_lex a b h
    omega

set_option maxRecDepth 8192

/-! ## Theorems: streak -/

/-- C20 (counterexample): now is 10000-01-03 12:00 UTC and the streak ended on
9999-12-31 12:00 UTC, 3 local days before now and strictly before yesterday's
day 10000-01-02. The text "9999-12-31" is not before the text "10000-01-02"
(the year 10000 has five digits and starts with "1"), so `GetCurrentStreak`
does not return (0, dead emoji): with start = end it returns the day count 1. -/
theorem streak_alive_across_year_10000 :
    sampleWinterDay 253402257600 < sampleWinterDay (253402516800 - 86400) ∧
      sampleWinterDay 253402257600 + 3 = sampleWinterDay 253402516800 ∧
      GetCurrentStreak (fun t => formatDay (sampleWinterDay t)) 253402516800 253402257600
        253402257600 = (1, streakEmoji 1) ∧
      GetCurrentStreak (fun t => formatDay (sampleWinterDay t)) 253402516800 253402257600
        253402257600 ≠ (0, deadEmoji) := by
  decide

/-- C20 (amended): let `localDay` be the Europe/London calendar-day function, so
that the day text of an instant `t` is `formatDay (localDay t)`, and let the
clock reading `nowUnix` be an input whose yesterday does not leave the 64-bit
range. If the local days of end and of now - 86400 lie in the years 0 to 9999
(the days -719528 to 2932896 counted from 1970-01-01), then for every start
`GetCurrentStreak` returns (0, dead emoji) whenever localDay(end) is strictly
before localDay(now - 86400); in particular when the end lies 3 local days
before now, the instant 24 hours before now being at most 2 local days before
now. -/
theorem getCurrentStreak_broken (localDay : Int → Int)
    (nowUnix streakStartTime streakEndTime : Int)
    (hrange : -(2 ^ 63) + 86400 ≤ nowUnix ∧ nowUnix < 2 ^ 63)
    (hyears : -719528 ≤ localDay streakEndTime ∧ localDay (nowUnix - 86400) ≤ 2932896) :
    (localDay streakEndTime < localDay (nowUnix - 86400) →
        GetCurrentStreak (fun t => formatDay (localDay t)) nowUnix streakStartTime
          streakEndTime = (0, deadEmoji)) ∧
      (localDay streakEndTime + 3 = localDay nowUnix →
        localDay nowUnix ≤ localDay (nowUnix - 86400) + 2 →
        GetCurrentStreak (fun t => formatDay (localDay t)) nowUnix streakStartTime
          streakEndTime = (0, deadEmoji)) := by
  have hy : wrapInt64 (nowUnix - 24 * 3600) = nowUnix - 86400 := by
    obtain ⟨h1, h2⟩ := hrange
    unfold wrapInt64
    norm_num at h1 h2 ⊢
    omega
  have key : localDay streakEndTime < localDay (nowUnix - 86400) →
      GetCurrentStreak (fun t => formatDay (localDay t)) nowUnix streakStartTime
        streakEndTime = (0, deadEmoji) := by
    intro hlt
    have htext := (formatDay_lt_iff (localDay streakEndTime) (localDay (nowUnix - 86400))
      hyears.1 (by omega) (by omega) hyears.2).2 hlt
    unfold GetCurrentStreak
    simp only [hy]
    rw [if_pos htext]
  exact ⟨key, fun h3 h2 => key (by omega)⟩

/-- Witness of C20: now is 2024-01-04 12:00 UTC, the streak ended three days
before, on 2024-01-01, and yesterday is 2024-01-03. -/
theorem getCurrentStreak_broken_witness :
    GetCurrentStreak (fun t => formatDay (sampleWinterDay t)) 1704369600 1700000000
        1704110400 = (0, deadEmoji) ∧
      GetCurrentStreak (fun t => formatDay (sampleWinterDay t)) 1704369600 1700000000
        1704110400 = (0, deadEmoji) :=
  ⟨(getCurrentStreak_broken sampleWinterDay 1704369600 1700000000 1704110400
      (by decide) (by decide)).1 (by decide),
    (getCurrentStreak_broken sampleWinterDay 1704369600 1700000000 1704110400
      (by decide) (by decide)).2 (by decide) (by decide)⟩

/-! ## Theorems: schedule table, continued -/

/-- C25: for the rating "4" the delay returned by `LookupNext` does not
decrease with the status: for all statuses s ≤ t in 0..6, the delay of
LookupNext(s, "4") is at most the delay of LookupNext(t, "4"). -/
theorem lookupNext_great_monotone (s t : Int) (hs : 0 ≤ s) (hst : s ≤ t) (ht : t ≤ 6) :
    (LookupNext s "4").2 ≤ (LookupNext t "4").2 := by
  have hs6 : s ≤ 6 := by omega
  have ht0 : 0 ≤ t := by omega
  interval_cases s <;> interval_cases t <;> decide

/-- Witness of C25 at the statuses 2 and 5. -/
theorem lookupNext_great_monotone_witness :
    (LookupNext 2 "4").2 ≤ (LookupNext 5 "4").2 :=
  lookupNext_great_monotone 2 5 (by decide) (by decide) (by decide)

/-- The text of `FormatDueTime` starts with "<" exactly for the next statuses 0..3. -/
theorem formatDueTime_lt_iff (seconds nextStatus : Int) :
    (∃ rest, FormatDueTime seconds nextStatus = "<" ++ rest) ↔
      (0 ≤ nextStatus ∧ nextStatus ≤ 3) := by
  constructor
  · rintro ⟨rest, hrest⟩
    by_contra hns
    have hns2 : ¬ (nextStatus ≥ 0 ∧ nextStatus ≤ 3) := hns
    unfold FormatDueTime at hrest
    rw [if_neg hns2] at hrest
    obtain ⟨c, cs, hdata, hc⟩ := formatDueText_head seconds
    rw [hrest, String.data_append] at hdata
    have : ("<" : String).data = ['<'] := rfl
    rw [this] at hdata
    simp only [List.singleton_append, List.cons.injEq] at hdata
    exact hc hdata.1.symm
  · intro hns
    have hns2 : nextStatus ≥ 0 ∧ nextStatus ≤ 3 := hns
    exact ⟨formatDueText seconds, by unfold FormatDueTime; rw [if_pos hns2]⟩

/-- C28: for every valid transition (status in 0..6, rating among "1".."4")
with LookupNext = (nextStatus, delay): nextStatus is in 1..3 exactly when the
delay is at most 600 seconds, nextStatus is in 4..6 exactly when the delay is
at least 72000 seconds, and the text of FormatDueTime(delay, nextStatus) starts
with "<" exactly when the delay is at most 600 seconds. -/
theorem lookupNext_status_delay (status : Int) (rating : String)
    (hlo : 0 ≤ status) (hhi : status ≤ 6)
    (hr : rating = "1" ∨ rating = "2" ∨ rating = "3" ∨ rating = "4") :
    ((1 ≤ (LookupNext status rating).1 ∧ (LookupNext status rating).1 ≤ 3) ↔
        (LookupNext status rating).2 ≤ 600) ∧
      ((4 ≤ (LookupNext status rating).1 ∧ (LookupNext status rating).1 ≤ 6) ↔
        72000 ≤ (LookupNext status rating).2) ∧
      ((∃ rest, FormatDueTime (LookupNext status rating).2 (LookupNext status rating).1 =
          "<" ++ rest) ↔ (LookupNext status rating).2 ≤ 600) := by
  rw [formatDueTime_lt_iff]
  interval_cases status <;> rcases hr with h | h | h | h <;> subst h <;> decide

/-- Witness of C28 at status 1 and rating "3". -/
theorem lookupNext_status_delay_witness :
    (∃ rest, FormatDueTime (LookupNext 1 "3").2 (LookupNext 1 "3").1 = "<" ++ rest) ↔
      (LookupNext 1 "3").2 ≤ 600 :=
  (lookupNext_status_delay 1 "3" (by decide) (by decide) (by decide)).2.2

/-! ## Theorems: tag pre-filter and due counts -/

/-- `FilterStudentCardsByTags` keeps, in input order, exactly the eligible cards. -/
theorem filterStudentCardsByTags_eq (cards : List StudentCard) (allCards : CardIndex)
    (allowed : TagSet) :
    FilterStudentCardsByTags cards allCards allowed =
      cards.filter (fun c => eligible allCards allowed c) := by
  have key : ∀ (l acc : List StudentCard),
      l.foldl (fun filtered sc =>
        match allCards.lookup sc.CardID with
        | none => filtered
        | some card => if CardMatchesTags card allowed then filtered ++ [sc] else filtered) acc =
      acc ++ l.filter (fun c => eligible allCards allowed c) := by
    intro l
    induction l with
    | nil => intro acc; simp
    | cons c l ih =>
      intro acc
      rw [List.foldl_cons, ih]
      unfold eligible
      cases hlk : allCards.lookup c.CardID with
      | none => simp [List.filter_cons, hlk]
      | some card =>
        by_cases hm : CardMatchesTags card allowed = true
        · simp [List.filter_cons, hlk, hm]
        · simp [List.filter_cons, hlk, hm]
  unfold FilterStudentCardsByTags
  rw [key]
  simp

/-- Classifying the eligible cards only gives the same slices as classifying
all cards. -/
theorem classify_filter_eligible (now : Int) (cards : List StudentCard)
    (allCards : CardIndex) (allowed : TagSet) :
    classify now (cards.filter (fun c => eligible allCards allowed c)) allCards allowed =
      classify now cards allCards allowed := by
  have h1 : classify now (cards.filter (fun c => eligible allCards allowed c)) allCards
      allowed = _ := classify_foldl now allCards allowed _ Buckets.empty
  have h2 : classify now cards allCards allowed = _ :=
    classify_foldl now allCards allowed cards Buckets.empty
  rw [h1, h2]
  simp only [List.filter_filter]
  have e : ∀ (q : StudentCard → Bool),
      (cards.filter fun a => (eligible allCards allowed a && q a) &&
        eligible allCards allowed a) =
      cards.filter fun a => eligible allCards allowed a && q a := by
    intro q
    apply List.filter_congr
    intro a _
    cases eligible allCards allowed a <;> simp
  simp only [e]

/-- C27: pre-filtering is redundant: for every clock value, draw, offset, card
list, daily count, limit string, index and allowed-tag set, `PickNextCard`
applied to FilterStudentCardsByTags(cards, allCards, allowedTags) returns the
same result as `PickNextCard` applied to cards; and `FilterStudentCardsByTags`
returns, in input order, exactly the cards whose CardID is in allCards and
whose flashcard satisfies `CardMatchesTags`. -/
theorem pick_prefilter_redundant (clock : Int) (r : Nat) (reviewAheadOffset : Int)
    (cards : List StudentCard) (numNewCardsToday : Int) (maxNewCardsToday : String)
    (allCards : CardIndex) (allowedTags : TagSet) :
    PickNextCard clock r reviewAheadOffset
        (FilterStudentCardsByTags cards allCards allowedTags) numNewCardsToday
        maxNewCardsToday allCards allowedTags =
      PickNextCard clock r reviewAheadOffset cards numNewCardsToday maxNewCardsToday
        allCards allowedTags ∧
    FilterStudentCardsByTags cards allCards allowedTags =
      cards.filter (fun c =>
        match allCards.lookup c.CardID with
        | none => false
        | some fullCard => CardMatchesTags fullCard allowedTags) := by
  refine ⟨?_, filterStudentCardsByTags_eq cards allCards allowedTags⟩
  rw [filterStudentCardsByTags_eq]
  simp only [PickNextCard, classify_filter_eligible]

/-- The three counters of `CountDueCards` as numbers of cards passing a test:
Status in 1..3 (whatever the Due), Status in 4..6 and due, Status 0 and due. -/
theorem countDueCards_eq (cards : List StudentCard) (now : Int) :
    CountDueCards cards now =
      ⟨((cards.filter fun c => decide (1 ≤ c.Status ∧ c.Status ≤ 3)).length : Int),
        ((cards.filter fun c =>
          decide ((4 ≤ c.Status ∧ c.Status ≤ 6) ∧ c.Due ≤ now)).length : Int),
        ((cards.filter fun c => decide (c.Status = 0 ∧ c.Due ≤ now)).length : Int)⟩ := by
  have key : ∀ (l : List StudentCard) (acc : CardDueStats),
      l.foldl (fun stats c =>
        let stats1 : CardDueStats :=
          if c.Status = 1 ∨ c.Status = 2 ∨ c.Status = 3 then
            { stats with InProgressDue := stats.InProgressDue + 1 }
          else stats
        let stats2 : CardDueStats :=
          if (c.Status = 4 ∨ c.Status = 5 ∨ c.Status = 6) ∧ c.Due ≤ now then
            { stats1 with ReviewDue := stats1.ReviewDue + 1 }
          else stats1
        if c.Status = 0 ∧ c.Due ≤ now then
          { stats2 with NewAvailable := stats2.NewAvailable + 1 }
        else stats2) acc =
      ⟨acc.InProgressDue +
          ((l.filter fun c => decide (1 ≤ c.Status ∧ c.Status ≤ 3)).length : Int),
        acc.ReviewDue + ((l.filter fun c =>
          decide ((4 ≤ c.Status ∧ c.Status ≤ 6) ∧ c.Due ≤ now)).length : Int),
        acc.NewAvailable +
          ((l.filter fun c => decide (c.Status = 0 ∧ c.Due ≤ now)).length : Int)⟩ := by
    intro l
    induction l with
    | nil => intro acc; simp
    | cons c l ih =>
      intro acc
      rw [List.foldl_cons, ih]
      have e1 : (c.Status = 1 ∨ c.Status = 2 ∨ c.Status = 3) ↔ (1 ≤ c.Status ∧ c.Status ≤ 3) := by
        omega
      have e2 : (c.Status = 4 ∨ c.Status = 5 ∨ c.Status = 6) ↔ (4 ≤ c.Status ∧ c.Status ≤ 6) := by
        omega
      simp only [e1, e2]
      by_cases hd : c.Due ≤ now <;> by_cases h0 : c.Status = 0 <;>
        by_cases h1 : 1 ≤ c.Status ∧ c.Status ≤ 3 <;>
        by_cases h4 : 4 ≤ c.Status ∧ c.Status ≤ 6 <;>
        simp [List.filter_cons, hd, h0, h1, h4] <;> omega
  unfold CountDueCards
  rw [key]
  simp

/-- C24, as stated, fails: with the single card of Status 2 that is due only
at 5000, at time 1000 no card of any status is due, yet `InProgressDue` is 1 and
the streak-completion test is false. -/
theorem streak_complete_counts_undue_in_progress :
    streakSessionComplete (CountDueCards [⟨"c1", 2, 5000⟩] 1000) 0 = false ∧
      (∀ c ∈ ([⟨"c1", 2, 5000⟩] : List StudentCard),
        ¬ ((1 ≤ c.Status ∧ c.Status ≤ 3) ∧ c.Due ≤ 1000)) ∧
      (∀ c ∈ ([⟨"c1", 2, 5000⟩] : List StudentCard),
        ¬ ((4 ≤ c.Status ∧ c.Status ≤ 6) ∧ c.Due ≤ 1000)) ∧
      (∀ c ∈ ([⟨"c1", 2, 5000⟩] : List StudentCard), ¬ (c.Status = 0 ∧ c.Due ≤ 1000)) := by
  decide

/-- C24, amended: for every card list, time `now` and numNewToday, the
streak-completion test built on CountDueCards(cards, now) holds exactly when
there is no card with Status in 1..3 (whatever its Due), no card with Status in
4..6 and Due ≤ now, and numNewToday ≥ 20 or no card with Status 0 and
Due ≤ now. -/
theorem streak_complete_iff (cards : List StudentCard) (now numNewToday : Int) :
    streakSessionComplete (CountDueCards cards now) numNewToday = true ↔
      ((∀ c ∈ cards, ¬ (1 ≤ c.Status ∧ c.Status ≤ 3)) ∧
        (∀ c ∈ cards, ¬ ((4 ≤ c.Status ∧ c.Status ≤ 6) ∧ c.Due ≤ now)) ∧
        (20 ≤ numNewToday ∨ ∀ c ∈ cards, ¬ (c.Status = 0 ∧ c.Due ≤ now))) := by
  rw [countDueCards_eq]
  unfold streakSessionComplete
  simp only [Bool.and_eq_true, Bool.or_eq_true, decide_eq_true_eq, Nat.cast_eq_zero,
    List.length_eq_zero, List.filter_eq_nil_iff, ge_iff_le, and_assoc]


/-! ## Theorems: streak update -/

/-- C23 (failing input): now is 2024-01-04 12:00 UTC and the last recorded
streak end lies exactly 24 hours before, on yesterday's day 2024-01-03. The
update body of `checkAndUpdateStreak` holds streak_start_time = now next to
streak_end_time = now: the start of a streak continued from yesterday is
overwritten, where the claim says that it is left unchanged. -/
theorem streak_start_reset_after_yesterday :
    formatDay (sampleWinterDay (1704369600 - 86400)) =
        formatDay (sampleWinterDay (wrapInt64 (1704369600 - 24 * 3600))) ∧
      streakUpdateBody (fun t => formatDay (sampleWinterDay t)) 1704369600
        (1704369600 - 86400) =
        [("streak_end_time", 1704369600), ("streak_start_time", 1704369600)] := by
  decide

/-- The update body that `checkAndUpdateStreak` builds, case by case:
streak_end_time is set to now in every branch; streak_start_time is left out of
the body only when the day text of the last recorded streak_end_time is today's
(and is not before yesterday's); it is set to now whenever that text differs
from today's, whatever the comparison with yesterday's text gives: the two
branches of the code that set it are the same assignment. -/
theorem streakUpdateBody_spec (ukDay : Int → String) (nowUnix lastStreakEndTime : Int) :
    (streakUpdateBody ukDay nowUnix lastStreakEndTime).lookup "streak_end_time" =
        some nowUnix ∧
      (ukDay lastStreakEndTime = ukDay nowUnix →
        ¬ ((ukDay lastStreakEndTime).data < (ukDay (wrapInt64 (nowUnix - 24 * 3600))).data) →
        streakUpdateBody ukDay nowUnix lastStreakEndTime = [("streak_end_time", nowUnix)]) ∧
      (ukDay lastStreakEndTime ≠ ukDay nowUnix →
        streakUpdateBody ukDay nowUnix lastStreakEndTime =
          [("streak_end_time", nowUnix), ("streak_start_time", nowUnix)]) ∧
      ((ukDay lastStreakEndTime).data < (ukDay (wrapInt64 (nowUnix - 24 * 3600))).data →
        streakUpdateBody ukDay nowUnix lastStreakEndTime =
          [("streak_end_time", nowUnix), ("streak_start_time", nowUnix)]) := by
  have hset : mapSet (mapSet [] "streak_start_time" nowUnix) "streak_end_time" nowUnix =
      [("streak_end_time", nowUnix), ("streak_start_time", nowUnix)] := by
    simp [mapSet]
  have hset0 : mapSet [] "streak_end_time" nowUnix = [("streak_end_time", nowUnix)] := by
    simp [mapSet]
  by_cases hlt : (ukDay lastStreakEndTime).data < (ukDay (wrapInt64 (nowUnix - 24 * 3600))).data
  · have hbody : streakUpdateBody ukDay nowUnix lastStreakEndTime =
        [("streak_end_time", nowUnix), ("streak_start_time", nowUnix)] := by
      unfold streakUpdateBody
      dsimp only
      rw [if_pos hlt, hset]
    rw [hbody]
    exact ⟨by simp [List.lookup], fun _ h => absurd hlt h, fun _ => rfl, fun _ => rfl⟩
  · by_cases hne : ukDay lastStreakEndTime = ukDay nowUnix
    · have hbody : streakUpdateBody ukDay nowUnix lastStreakEndTime =
          [("streak_end_time", nowUnix)] := by
        unfold streakUpdateBody
        dsimp only
        rw [if_neg hlt, if_neg (not_not.mpr hne), hset0]
      rw [hbody]
      exact ⟨by simp [List.lookup], fun _ _ => rfl, fun h => absurd hne h,
        fun h => absurd h hlt⟩
    · have hbody : streakUpdateBody ukDay nowUnix lastStreakEndTime =
          [("streak_end_time", nowUnix), ("streak_start_time", nowUnix)] := by
        unfold streakUpdateBody
        dsimp only
        rw [if_neg hlt, if_pos hne, hset]
      rw [hbody]
      exact ⟨by simp [List.lookup], fun h => absurd h hne, fun _ => rfl, fun _ => rfl⟩

/-- The update body at three inputs: now is 2024-01-04 12:00 UTC and the last
streak end lies 100 seconds, one day and three days before. -/
theorem streakUpdateBody_spec_witness :
    streakUpdateBody (fun t => formatDay (sampleWinterDay t)) 1704369600
        (1704369600 - 100) = [("streak_end_time", 1704369600)] ∧
      streakUpdateBody (fun t => formatDay (sampleWinterDay t)) 1704369600
        (1704369600 - 86400) =
        [("streak_end_time", 1704369600), ("streak_start_time", 1704369600)] ∧
      streakUpdateBody (fun t => formatDay (sampleWinterDay t)) 1704369600
        (1704369600 - 3 * 86400) =
        [("streak_end_time", 1704369600), ("streak_start_time", 1704369600)] :=
  ⟨(streakUpdateBody_spec (fun t => formatDay (sampleWinterDay t)) 1704369600
      (1704369600 - 100)).2.1 (by decide) (by decide),
    (streakUpdateBody_spec (fun t => formatDay (sampleWinterDay t)) 1704369600
      (1704369600 - 86400)).2.2.1 (by decide),
    (streakUpdateBody_spec (fun t => formatDay (sampleWinterDay t)) 1704369600
      (1704369600 - 3 * 86400)).2.2.2 (by decide)⟩

/-! ## Theorems: floating point, bounds on rounded values -/

/-- The rounded quotient does not exceed an integer bound of the quotient. -/
theorem rneDiv_le_of_le (x y V : Nat) (hy : 0 < y) (h : x ≤ V * y) : rneDiv x y ≤ V := by
  have hx : y * (x / y) + x % y = x := Nat.div_add_mod x y
  have hr : x % y < y := Nat.mod_lt x hy
  have hq : x / y ≤ V := by
    apply Nat.div_le_of_le_mul
    rw [Nat.mul_comm]; exact h
  unfold rneDiv
  by_cases hqv : x / y = V
  · have hr0 : x % y = 0 := by
      rw [hqv] at hx
      have : y * V = V * y := Nat.mul_comm _ _
      omega
    simp [hr0, hy, hqv]
  · have : x / y + 1 ≤ V := by omega
    split_ifs <;> omega

theorem le_rneDiv_of_le (x y V : Nat) (hy : 0 < y) (h : V * y ≤ x) : V ≤ rneDiv x y := by
  have hq : V ≤ x / y := (Nat.le_div_iff_mul_le hy).2 h
  unfold rneDiv
  split_ifs <;> omega

theorem scaleDown_spec (fuel : Nat) :
    ∀ num den e : Nat, 2 ^ 52 * den ≤ num → num < 2 ^ 53 * den * 2 ^ fuel →
      ∃ k : Nat, scaleDown fuel num den e = (den * 2 ^ k, e + k) ∧
        2 ^ 52 * (den * 2 ^ k) ≤ num ∧ num < 2 ^ 53 * (den * 2 ^ k) := by
  induction fuel with
  | zero =>
    intro num den e hle hlt
    exact ⟨0, by simp [scaleDown], by simpa using hle, by simpa using hlt⟩
  | succ fuel ih =>
    intro num den e hle hlt
    by_cases hc : num < 2 ^ 53 * den
    · exact ⟨0, by rw [scaleDown, if_pos hc]; simp, by simpa using hle, by simpa using hc⟩
    · have h1 : 2 ^ 52 * (2 * den) ≤ num := by
        have : (2:Nat) ^ 53 = 2 ^ 52 * 2 := by norm_num
        rw [this, Nat.mul_assoc] at hc
        omega
      have h2 : num < 2 ^ 53 * (2 * den) * 2 ^ fuel := by
        rw [Nat.pow_succ] at hlt
        calc num < 2 ^ 53 * den * (2 ^ fuel * 2) := hlt
          _ = 2 ^ 53 * (2 * den) * 2 ^ fuel := by ring
      obtain ⟨k, hk, hk1, hk2⟩ := ih num (2 * den) (e + 1) h1 h2
      refine ⟨k + 1, ?_, ?_, ?_⟩
      · rw [scaleDown, if_neg hc, hk, Nat.pow_succ]
        refine Prod.ext ?_ ?_
        · simp only; ring
        · simp only; ring
      · rw [Nat.pow_succ]
        calc 2 ^ 52 * (den * (2 ^ k * 2)) = 2 ^ 52 * (2 * den * 2 ^ k) := by ring
          _ ≤ num := hk1
      · rw [Nat.pow_succ]
        calc num < 2 ^ 53 * (2 * den * 2 ^ k) := hk2
          _ = 2 ^ 53 * (den * (2 ^ k * 2)) := by ring

theorem scaleDown_fuel (num den : Nat) (h : 0 < den) :
    num < 2 ^ 53 * den * 2 ^ (num + 1) := by
  have h1 : num + 1 < 2 ^ (num + 1) := Nat.lt_two_pow (num + 1)
  calc num < 2 ^ (num + 1) := by omega
    _ = 1 * 2 ^ (num + 1) := by ring
    _ ≤ 2 ^ 53 * den * 2 ^ (num + 1) :=
      Nat.mul_le_mul_right _ (Nat.mul_pos (by norm_num) h)

/-- The result of `roundRatio` -/
theorem roundRatio_char (num den : Nat) (h0 : 0 < num) (hd : 0 < den) :
    ∃ (x y : Nat) (e : Int), 0 < y ∧ roundRatio num den = (rneDiv x y, e) ∧
      (x : ℚ) / (y : ℚ) = (num : ℚ) / (den : ℚ) * 2 ^ (-e) ∧
      2 ^ 52 * y ≤ x ∧ x < 2 ^ 53 * y := by
  have hdq : (den : ℚ) ≠ 0 := by exact_mod_cast hd.ne'
  by_cases hlt : num < 2 ^ 52 * den
  · obtain ⟨k, hk, hk1, hk2⟩ := roundRatio_small num den h0 hd hlt
    refine ⟨num * 2 ^ k, den, -(k : Int), hd, hk, ?_, hk1, hk2⟩
    rw [neg_neg, zpow_natCast]
    push_cast
    ring
  · obtain ⟨k, hk, hk1, hk2⟩ := scaleDown_spec (num + 1) num den 0 (Nat.le_of_not_lt hlt)
      (scaleDown_fuel num den hd)
    have hy : 0 < den * 2 ^ k := Nat.mul_pos hd (Nat.pow_pos (by norm_num))
    refine ⟨num, den * 2 ^ k, (k : Int), hy, ?_, ?_, hk1, hk2⟩
    · unfold roundRatio
      have hne : ¬ (num = 0 ∨ den = 0) := by omega
      rw [if_neg hne, if_neg hlt, hk]
      simp
    · rw [zpow_neg, zpow_natCast]
      push_cast
      field_simp

theorem roundRatio_zero (den : Nat) : roundRatio 0 den = (0, 0) := by
  unfold roundRatio
  simp

/-- Rounding never exceeds a `float64` value above the exact fraction. -/
theorem roundRatio_le (num den A : Nat) (j : Int) (hd : 0 < den) (hA : A < 2 ^ 53)
    (h : (num : ℚ) / (den : ℚ) ≤ (A : ℚ) * 2 ^ j) :
    ((roundRatio num den).1 : ℚ) * 2 ^ (roundRatio num den).2 ≤ (A : ℚ) * 2 ^ j := by
  by_cases h0 : num = 0
  · subst h0
    rw [roundRatio_zero]
    simp only [Nat.cast_zero, zero_mul]
    positivity
  obtain ⟨x, y, e, hy, hrr, hxy, hlo, _⟩ := roundRatio_char num den (Nat.pos_of_ne_zero h0) hd
  rw [hrr]
  simp only
  have hyq : (0 : ℚ) < (y : ℚ) := by exact_mod_cast hy
  have h2 : (0 : ℚ) < 2 ^ (-e) := by positivity
  have hq : (x : ℚ) / (y : ℚ) ≤ (A : ℚ) * 2 ^ (j - e) := by
    rw [hxy, sub_eq_add_neg, zpow_add₀ (by norm_num : (2 : ℚ) ≠ 0), ← mul_assoc]
    exact mul_le_mul_of_nonneg_right h (le_of_lt h2)
  by_cases hje : 0 ≤ j - e
  · obtain ⟨t, ht⟩ := Int.eq_ofNat_of_zero_le hje
    rw [ht, zpow_natCast] at hq
    have hx : x ≤ A * 2 ^ t * y := by
      have := (div_le_iff₀ hyq).1 hq
      exact_mod_cast this
    have hm := rneDiv_le_of_le x y (A * 2 ^ t) hy hx
    have hmq : ((rneDiv x y : Nat) : ℚ) ≤ (A : ℚ) * 2 ^ t := by exact_mod_cast hm
    have he : (2 : ℚ) ^ j = 2 ^ t * 2 ^ e := by
      rw [← zpow_natCast, ← zpow_add₀ (by norm_num : (2 : ℚ) ≠ 0), ← ht]
      congr 1
      omega
    rw [he, ← mul_assoc]
    exact mul_le_mul_of_nonneg_right hmq (by positivity)
  · exfalso
    have hje2 : j - e ≤ -1 := by omega
    have hp : (2 : ℚ) ^ (j - e) ≤ 2 ^ (-1 : Int) := zpow_le_zpow_right₀ (by norm_num) hje2
    have hAq : (A : ℚ) < 2 ^ 53 := by exact_mod_cast hA
    have hxq : (2 : ℚ) ^ 52 ≤ (x : ℚ) / (y : ℚ) := by
      rw [le_div_iff₀ hyq]
      exact_mod_cast hlo
    have h3 : (A : ℚ) * 2 ^ (j - e) ≤ (A : ℚ) * 2 ^ (-1 : Int) :=
      mul_le_mul_of_nonneg_left hp (by positivity)
    have h4 : (A : ℚ) * 2 ^ (-1 : Int) < 2 ^ 52 := by
      rw [zpow_neg, zpow_one]
      linarith
    linarith

/-- Rounding never falls below a `float64` value under the exact fraction. -/
theorem le_roundRatio (num den A : Nat) (j : Int) (hd : 0 < den) (hA : A ≤ 2 ^ 53)
    (h : (A : ℚ) * 2 ^ j ≤ (num : ℚ) / (den : ℚ)) :
    (A : ℚ) * 2 ^ j ≤ ((roundRatio num den).1 : ℚ) * 2 ^ (roundRatio num den).2 := by
  by_cases h0 : num = 0
  · subst h0
    rw [roundRatio_zero]
    simpa using h
  obtain ⟨x, y, e, hy, hrr, hxy, hlo, _⟩ := roundRatio_char num den (Nat.pos_of_ne_zero h0) hd
  rw [hrr]
  simp only
  have hyq : (0 : ℚ) < (y : ℚ) := by exact_mod_cast hy
  have h2 : (0 : ℚ) < 2 ^ (-e) := by positivity
  have hq : (A : ℚ) * 2 ^ (j - e) ≤ (x : ℚ) / (y : ℚ) := by
    rw [hxy, sub_eq_add_neg, zpow_add₀ (by norm_num : (2 : ℚ) ≠ 0), ← mul_assoc]
    exact mul_le_mul_of_nonneg_right h (le_of_lt h2)
  by_cases hje : 0 ≤ j - e
  · obtain ⟨t, ht⟩ := Int.eq_ofNat_of_zero_le hje
    rw [ht, zpow_natCast] at hq
    have hx : A * 2 ^ t * y ≤ x := by
      have := (le_div_iff₀ hyq).1 hq
      exact_mod_cast this
    have hm := le_rneDiv_of_le x y (A * 2 ^ t) hy hx
    have hmq : (A : ℚ) * 2 ^ t ≤ ((rneDiv x y : Nat) : ℚ) := by exact_mod_cast hm
    have he : (2 : ℚ) ^ j = 2 ^ t * 2 ^ e := by
      rw [← zpow_natCast, ← zpow_add₀ (by norm_num : (2 : ℚ) ≠ 0), ← ht]
      congr 1
      omega
    rw [he, ← mul_assoc]
    exact mul_le_mul_of_nonneg_right hmq (by positivity)
  · have hje2 : j - e ≤ -1 := by omega
    have hp : (2 : ℚ) ^ (j - e) ≤ 2 ^ (-1 : Int) := zpow_le_zpow_right₀ (by norm_num) hje2
    have hAq : (A : ℚ) ≤ 2 ^ 53 := by exact_mod_cast hA
    have hm := le_rneDiv_of_le x y (2 ^ 52) hy hlo
    have hmq : (2 : ℚ) ^ 52 ≤ ((rneDiv x y : Nat) : ℚ) := by exact_mod_cast hm
    have h3 : (A : ℚ) * 2 ^ (j - e) ≤ (A : ℚ) * 2 ^ (-1 : Int) :=
      mul_le_mul_of_nonneg_left hp (by positivity)
    have h4 : (A : ℚ) * 2 ^ (-1 : Int) ≤ 2 ^ 52 := by
      rw [zpow_neg, zpow_one]
      linarith
    have he : (2 : ℚ) ^ j = 2 ^ (j - e) * 2 ^ e := by
      rw [← zpow_add₀ (by norm_num : (2 : ℚ) ≠ 0)]
      congr 1
      omega
    rw [he, ← mul_assoc]
    exact mul_le_mul_of_nonneg_right (by linarith) (by positivity)

theorem toRat_of_not_neg (x : F64) (h : x.neg = false) :
    x.toRat = (x.mant : ℚ) * 2 ^ x.exp := by
  unfold F64.toRat
  rw [h]
  simp

/-- A natural number below `2^53` converts to `float64` exactly. -/
theorem ofInt_nat (n : Nat) (h : n < 2 ^ 53) :
    (F64.ofInt (n : Int)).neg = false ∧ (F64.ofInt (n : Int)).toRat = (n : ℚ) := by
  by_cases h0 : n = 0
  · subst h0
    have : F64.ofInt ((0 : Nat) : Int) = ⟨false, 0, 0⟩ := by
      unfold F64.ofInt
      simp [roundRatio_zero]
    rw [this]
    exact ⟨rfl, by simp [F64.toRat]⟩
  · obtain ⟨s, hs, _, _⟩ := ofInt_exact n (Nat.pos_of_ne_zero h0) h
    rw [hs]
    refine ⟨rfl, ?_⟩
    rw [toRat_of_not_neg _ rfl]
    simp only
    rw [zpow_neg, zpow_natCast]
    push_cast
    field_simp

theorem div_not_neg (x y : F64) (hx : x.neg = false) (hy : y.neg = false) :
    (F64.div x y).neg = false := by
  unfold F64.div
  simp [hx, hy]

theorem div_toRat (x y : F64) (hx : x.neg = false) (hy : y.neg = false) :
    (F64.div x y).toRat =
      (((roundRatio x.mant y.mant).1 : ℚ) * 2 ^ (roundRatio x.mant y.mant).2) *
        2 ^ (x.exp - y.exp) := by
  rw [toRat_of_not_neg _ (div_not_neg x y hx hy)]
  unfold F64.div
  simp only
  rw [mul_assoc, ← zpow_add₀ (by norm_num : (2 : ℚ) ≠ 0)]
  congr 2
  omega

theorem div_le (x y : F64) (A : Nat) (j : Int) (hx : x.neg = false) (hy : y.neg = false)
    (hym : 0 < y.mant) (hA : A < 2 ^ 53) (h : x.toRat / y.toRat ≤ (A : ℚ) * 2 ^ j) :
    (F64.div x y).toRat ≤ (A : ℚ) * 2 ^ j := by
  rw [div_toRat x y hx hy]
  rw [toRat_of_not_neg x hx, toRat_of_not_neg y hy] at h
  have hc : (0 : ℚ) < 2 ^ (x.exp - y.exp) := by positivity
  have hymq : (0 : ℚ) < (y.mant : ℚ) := by exact_mod_cast hym
  have hsplit : (x.mant : ℚ) * 2 ^ x.exp / ((y.mant : ℚ) * 2 ^ y.exp) =
      (x.mant : ℚ) / (y.mant : ℚ) * 2 ^ (x.exp - y.exp) := by
    rw [zpow_sub₀ (by norm_num : (2 : ℚ) ≠ 0)]
    field_simp
  rw [hsplit] at h
  have h2 : (x.mant : ℚ) / (y.mant : ℚ) ≤ (A : ℚ) * 2 ^ (j - (x.exp - y.exp)) := by
    rw [zpow_sub₀ (by norm_num : (2 : ℚ) ≠ 0), ← mul_div_assoc, le_div_iff₀ hc]
    exact h
  have h3 := roundRatio_le x.mant y.mant A (j - (x.exp - y.exp)) hym hA h2
  have h4 := mul_le_mul_of_nonneg_right h3 (le_of_lt hc)
  rw [mul_assoc (A : ℚ), ← zpow_add₀ (by norm_num : (2 : ℚ) ≠ 0)] at h4
  have : j - (x.exp - y.exp) + (x.exp - y.exp) = j := by omega
  rw [this] at h4
  exact h4

theorem le_div (x y : F64) (A : Nat) (j : Int) (hx : x.neg = false) (hy : y.neg = false)
    (hym : 0 < y.mant) (hA : A ≤ 2 ^ 53) (h : (A : ℚ) * 2 ^ j ≤ x.toRat / y.toRat) :
    (A : ℚ) * 2 ^ j ≤ (F64.div x y).toRat := by
  rw [div_toRat x y hx hy]
  rw [toRat_of_not_neg x hx, toRat_of_not_neg y hy] at h
  have hc : (0 : ℚ) < 2 ^ (x.exp - y.exp) := by positivity
  have hymq : (0 : ℚ) < (y.mant : ℚ) := by exact_mod_cast hym
  have hsplit : (x.mant : ℚ) * 2 ^ x.exp / ((y.mant : ℚ) * 2 ^ y.exp) =
      (x.mant : ℚ) / (y.mant : ℚ) * 2 ^ (x.exp - y.exp) := by
    rw [zpow_sub₀ (by norm_num : (2 : ℚ) ≠ 0)]
    field_simp
  rw [hsplit] at h
  have h2 : (A : ℚ) * 2 ^ (j - (x.exp - y.exp)) ≤ (x.mant : ℚ) / (y.mant : ℚ) := by
    rw [zpow_sub₀ (by norm_num : (2 : ℚ) ≠ 0), ← mul_div_assoc, div_le_iff₀ hc]
    exact h
  have h3 := le_roundRatio x.mant y.mant A (j - (x.exp - y.exp)) hym hA h2
  have h4 := mul_le_mul_of_nonneg_right h3 (le_of_lt hc)
  rw [mul_assoc (A : ℚ), ← zpow_add₀ (by norm_num : (2 : ℚ) ≠ 0)] at h4
  have : j - (x.exp - y.exp) + (x.exp - y.exp) = j := by omega
  rw [this] at h4
  exact h4

/-- The sum of two non-negative `float64` values: sign, and the exact sum that
is rounded. -/
theorem add_form (x y : F64) (hx : x.neg = false) (hy : y.neg = false) :
    ∃ S : Nat, F64.add x y =
        ⟨false, (roundRatio S 1).1, (roundRatio S 1).2 + min x.exp y.exp⟩ ∧
      (S : ℚ) * 2 ^ (min x.exp y.exp) = x.toRat + y.toRat := by
  have hsx : x.signed (min x.exp y.exp) =
      ((x.mant * 2 ^ (x.exp - min x.exp y.exp).toNat : Nat) : Int) := by
    unfold F64.signed
    rw [hx]
    push_cast
    simp
  have hsy : y.signed (min x.exp y.exp) =
      ((y.mant * 2 ^ (y.exp - min x.exp y.exp).toNat : Nat) : Int) := by
    unfold F64.signed
    rw [hy]
    push_cast
    simp
  refine ⟨x.mant * 2 ^ (x.exp - min x.exp y.exp).toNat +
    y.mant * 2 ^ (y.exp - min x.exp y.exp).toNat, ?_, ?_⟩
  · unfold F64.add
    rw [hsx, hsy, ← Nat.cast_add, Int.natAbs_ofNat]
    have : decide ((((x.mant * 2 ^ (x.exp - min x.exp y.exp).toNat +
        y.mant * 2 ^ (y.exp - min x.exp y.exp).toNat : Nat)) : Int) < 0) = false := by
      simp only [decide_eq_false_iff_not, not_lt]
      exact Int.ofNat_nonneg _
    rw [this]
  · rw [toRat_of_not_neg x hx, toRat_of_not_neg y hy]
    have h1 : 0 ≤ x.exp - min x.exp y.exp := by omega
    have h2 : 0 ≤ y.exp - min x.exp y.exp := by omega
    have e1 : (2 : ℚ) ^ x.exp =
        2 ^ (x.exp - min x.exp y.exp).toNat * 2 ^ (min x.exp y.exp) := by
      rw [← zpow_natCast, ← zpow_add₀ (by norm_num : (2 : ℚ) ≠ 0), Int.toNat_of_nonneg h1]
      congr 1
      omega
    have e2 : (2 : ℚ) ^ y.exp =
        2 ^ (y.exp - min x.exp y.exp).toNat * 2 ^ (min x.exp y.exp) := by
      rw [← zpow_natCast, ← zpow_add₀ (by norm_num : (2 : ℚ) ≠ 0), Int.toNat_of_nonneg h2]
      congr 1
      omega
    rw [e1, e2]
    push_cast
    ring

theorem add_not_neg (x y : F64) (hx : x.neg = false) (hy : y.neg = false) :
    (F64.add x y).neg = false := by
  obtain ⟨S, hS, _⟩ := add_form x y hx hy
  rw [hS]

theorem add_le (x y : F64) (A : Nat) (j : Int) (hx : x.neg = false) (hy : y.neg = false)
    (hA : A < 2 ^ 53) (h : x.toRat + y.toRat ≤ (A : ℚ) * 2 ^ j) :
    (F64.add x y).toRat ≤ (A : ℚ) * 2 ^ j := by
  obtain ⟨S, hS, hsum⟩ := add_form x y hx hy
  rw [hS, toRat_of_not_neg _ rfl]
  simp only
  have hc : (0 : ℚ) < 2 ^ (min x.exp y.exp) := by positivity
  have h2 : (S : ℚ) / ((1 : Nat) : ℚ) ≤ (A : ℚ) * 2 ^ (j - min x.exp y.exp) := by
    rw [Nat.cast_one, div_one, zpow_sub₀ (by norm_num : (2 : ℚ) ≠ 0), ← mul_div_assoc,
      le_div_iff₀ hc, hsum]
    exact h
  have h3 := roundRatio_le S 1 A (j - min x.exp y.exp) (by norm_num) hA h2
  have h4 := mul_le_mul_of_nonneg_right h3 (le_of_lt hc)
  rw [mul_assoc (A : ℚ), ← zpow_add₀ (by norm_num : (2 : ℚ) ≠ 0)] at h4
  have : j - min x.exp y.exp + min x.exp y.exp = j := by omega
  rw [this] at h4
  rw [zpow_add₀ (by norm_num : (2 : ℚ) ≠ 0), ← mul_assoc]
  exact h4

theorem le_add (x y : F64) (A : Nat) (j : Int) (hx : x.neg = false) (hy : y.neg = false)
    (hA : A ≤ 2 ^ 53) (h : (A : ℚ) * 2 ^ j ≤ x.toRat + y.toRat) :
    (A : ℚ) * 2 ^ j ≤ (F64.add x y).toRat := by
  obtain ⟨S, hS, hsum⟩ := add_form x y hx hy
  rw [hS, toRat_of_not_neg _ rfl]
  simp only
  have hc : (0 : ℚ) < 2 ^ (min x.exp y.exp) := by positivity
  have h2 : (A : ℚ) * 2 ^ (j - min x.exp y.exp) ≤ (S : ℚ) / ((1 : Nat) : ℚ) := by
    rw [Nat.cast_one, div_one, zpow_sub₀ (by norm_num : (2 : ℚ) ≠ 0), ← mul_div_assoc,
      div_le_iff₀ hc, hsum]
    exact h
  have h3 := le_roundRatio S 1 A (j - min x.exp y.exp) (by norm_num) hA h2
  have h4 := mul_le_mul_of_nonneg_right h3 (le_of_lt hc)
  rw [mul_assoc (A : ℚ), ← zpow_add₀ (by norm_num : (2 : ℚ) ≠ 0)] at h4
  have : j - min x.exp y.exp + min x.exp y.exp = j := by omega
  rw [this] at h4
  rw [zpow_add₀ (by norm_num : (2 : ℚ) ≠ 0), ← mul_assoc]
  exact h4

/-- The conversion to `int` of a non-negative `float64` in `[k, k + 1)` is `k`. -/
theorem toInt_of_bounds (x : F64) (k : Nat) (hx : x.neg = false)
    (hlo : (k : ℚ) ≤ x.toRat) (hhi : x.toRat < (k : ℚ) + 1) :
    F64.toInt x = (k : Int) := by
  rw [toRat_of_not_neg x hx] at hlo hhi
  unfold F64.toInt
  rw [hx]
  simp only [Bool.false_eq_true, if_false, one_mul]
  by_cases he : 0 ≤ x.exp
  · rw [if_pos he]
    obtain ⟨t, ht⟩ := Int.eq_ofNat_of_zero_le he
    rw [ht, zpow_natCast] at hlo hhi
    rw [ht, Int.toNat_ofNat]
    have h1 : k ≤ x.mant * 2 ^ t := by exact_mod_cast hlo
    have h2 : x.mant * 2 ^ t < k + 1 := by exact_mod_cast hhi
    have : x.mant * 2 ^ t = k := by omega
    rw [this]
  · rw [if_neg he]
    obtain ⟨t, ht⟩ : ∃ t : Nat, x.exp = -(t : Int) := ⟨(-x.exp).toNat, by omega⟩
    rw [ht, zpow_neg, zpow_natCast] at hlo hhi
    rw [ht, neg_neg, Int.toNat_ofNat]
    have hp : (0 : ℚ) < 2 ^ t := by positivity
    have h1 : k * 2 ^ t ≤ x.mant := by
      have : (k : ℚ) * 2 ^ t ≤ (x.mant : ℚ) := by
        have := (le_div_iff₀ hp).1 (by simpa [div_eq_mul_inv] using hlo)
        exact this
      exact_mod_cast this
    have h2 : x.mant < (k + 1) * 2 ^ t := by
      have : (x.mant : ℚ) < ((k : ℚ) + 1) * 2 ^ t := by
        have := (div_lt_iff₀ hp).1 (by simpa [div_eq_mul_inv] using hhi)
        exact this
      exact_mod_cast this
    have : x.mant / 2 ^ t = k := Nat.div_eq_of_lt_le h1 h2
    rw [this]

/-! ## Theorems: streak day count -/

theorem tdiv_nonpos (a b : Int) (ha : a ≤ 0) (hb : 0 ≤ b) : Int.tdiv a b ≤ 0 := by
  obtain ⟨n, hn⟩ : ∃ n : Nat, a = -(n : Int) := ⟨a.natAbs, by omega⟩
  obtain ⟨m, hm⟩ := Int.eq_ofNat_of_zero_le hb
  subst hn hm
  rw [Int.neg_tdiv]
  have : (0 : Int) ≤ Int.tdiv (n : Int) (m : Int) := Int.ofNat_nonneg (n / m)
  omega

theorem tmod_nonpos (a b : Int) (ha : a ≤ 0) (hb : 0 ≤ b) : Int.tmod a b ≤ 0 := by
  obtain ⟨m, hm⟩ := Int.eq_ofNat_of_zero_le hb
  subst hm
  cases a with
  | ofNat n =>
    have hn : n = 0 := by
      have : (n : Int) ≤ 0 := ha
      omega
    subst hn
    show ((0 % m : Nat) : Int) ≤ 0
    simp
  | negSucc n =>
    show -(((n + 1) % m : Nat) : Int) ≤ 0
    have := Int.ofNat_nonneg ((n + 1) % m)
    omega

/-- A `float64` that is negative or zero. -/
theorem ofInt_nonpos (n : Int) (h : n ≤ 0) :
    (F64.ofInt n).neg = true ∨ (F64.ofInt n).mant = 0 := by
  by_cases h0 : n = 0
  · right
    subst h0
    decide
  · left
    unfold F64.ofInt
    simp only [decide_eq_true_eq]
    omega

theorem div_nonpos (x y : F64) (hx : x.neg = true ∨ x.mant = 0) (hy : y.neg = false) :
    (F64.div x y).neg = true ∨ (F64.div x y).mant = 0 := by
  by_cases hm : x.mant = 0
  · right
    unfold F64.div
    simp only [hm, roundRatio_zero]
  · left
    have hn : x.neg = true := by
      rcases hx with h | h
      · exact h
      · exact absurd h hm
    unfold F64.div
    simp only [hn, hy]
    rfl

theorem signed_nonpos (x : F64) (e0 : Int) (hx : x.neg = true ∨ x.mant = 0) :
    x.signed e0 ≤ 0 := by
  unfold F64.signed
  rcases hx with h | h
  · rw [h]
    simp only [if_true]
    have : (0 : Int) ≤ (x.mant : Int) * 2 ^ (x.exp - e0).toNat := by positivity
    omega
  · rw [h]
    simp

theorem add_nonpos (x y : F64) (hx : x.neg = true ∨ x.mant = 0)
    (hy : y.neg = true ∨ y.mant = 0) :
    (F64.add x y).neg = true ∨ (F64.add x y).mant = 0 := by
  have h1 := signed_nonpos x (min x.exp y.exp) hx
  have h2 := signed_nonpos y (min x.exp y.exp) hy
  by_cases h0 : x.signed (min x.exp y.exp) + y.signed (min x.exp y.exp) < 0
  · left
    unfold F64.add
    simp only [decide_eq_true_eq]
    exact h0
  · right
    have : x.signed (min x.exp y.exp) + y.signed (min x.exp y.exp) = 0 := by omega
    unfold F64.add
    simp only [this, Int.natAbs_zero, roundRatio_zero]

theorem toInt_nonpos (x : F64) (hx : x.neg = true ∨ x.mant = 0) : F64.toInt x ≤ 0 := by
  unfold F64.toInt
  rcases hx with h | h
  · rw [h]
    simp only [if_true]
    split
    · have := Int.ofNat_nonneg (x.mant * 2 ^ x.exp.toNat)
      omega
    · have := Int.ofNat_nonneg (x.mant / 2 ^ (-x.exp).toNat)
      omega
  · rw [h]
    simp

/-- The day count before the `+ 1` is not positive when the duration is not. -/
theorem streakDays_nonpos (d : Int) (hd : d ≤ 0) :
    F64.toInt (F64.div (durationHours d) (F64.ofInt 24)) ≤ 0 := by
  apply toInt_nonpos
  apply div_nonpos
  · unfold durationHours
    apply add_nonpos
    · exact ofInt_nonpos _ (tdiv_nonpos d _ hd (by norm_num))
    · apply div_nonpos
      · exact ofInt_nonpos _ (tmod_nonpos d _ hd (by norm_num))
      · exact (ofInt_nat 3600000000000 (by norm_num)).1
  · exact (ofInt_nat 24 (by norm_num)).1

theorem toRat_nonneg (x : F64) (h : x.neg = false) : 0 ≤ x.toRat := by
  rw [toRat_of_not_neg x h]
  positivity

theorem mant_pos_of_toRat (x : F64) (h : x.neg = false) (hp : 0 < x.toRat) : 0 < x.mant := by
  rw [toRat_of_not_neg x h] at hp
  rcases Nat.eq_zero_or_pos x.mant with h0 | h0
  · rw [h0] at hp
    simp at hp
  · exact h0

/-- The day count before the `+ 1`, for a span of `s ≥ 0` seconds that fits a
`time.Duration`: the whole days in `s`. -/
theorem streakDays_nonneg (s : Nat) (hs : s ≤ 9223372036) :
    F64.toInt (F64.div (durationHours ((s : Int) * 1000000000)) (F64.ofInt 24)) =
      ((s / 86400 : Nat) : Int) := by
  have e1 : Int.tdiv ((s : Int) * 1000000000) 3600000000000 = ((s / 3600 : Nat) : Int) := by
    rw [Int.tdiv_eq_ediv (by positivity) (by norm_num)]
    push_cast
    omega
  have e2 : Int.tmod ((s : Int) * 1000000000) 3600000000000 =
      ((s % 3600 * 1000000000 : Nat) : Int) := by
    rw [Int.tmod_eq_emod (by positivity) (by norm_num)]
    push_cast
    omega
  unfold durationHours
  rw [e1, e2]
  obtain ⟨hn1, hv1⟩ := ofInt_nat (s / 3600) (by omega)
  obtain ⟨hn2, hv2⟩ := ofInt_nat (s % 3600 * 1000000000) (by omega)
  have hn3 : (F64.ofInt 3600000000000).neg = false :=
    (ofInt_nat 3600000000000 (by norm_num)).1
  have hv3 : (F64.ofInt 3600000000000).toRat = 3600000000000 := by
    have := (ofInt_nat 3600000000000 (by norm_num)).2
    exact_mod_cast this
  have hn4 : (F64.ofInt 24).neg = false := (ofInt_nat 24 (by norm_num)).1
  have hv4 : (F64.ofInt 24).toRat = 24 := by
    have := (ofInt_nat 24 (by norm_num)).2
    exact_mod_cast this
  have hm3 : 0 < (F64.ofInt 3600000000000).mant :=
    mant_pos_of_toRat _ hn3 (by rw [hv3]; norm_num)
  have hm4 : 0 < (F64.ofInt 24).mant := mant_pos_of_toRat _ hn4 (by rw [hv4]; norm_num)
  have hr : ((s % 3600 : Nat) : ℚ) ≤ 3599 := by
    have : s % 3600 ≤ 3599 := by omega
    exact_mod_cast this
  have hk1 : ((24 * (s / 86400) : Nat) : ℚ) ≤ ((s / 3600 : Nat) : ℚ) := by
    have : 24 * (s / 86400) ≤ s / 3600 := by omega
    exact_mod_cast this
  have hk2 : ((s / 3600 : Nat) : ℚ) ≤ ((24 * (s / 86400) + 23 : Nat) : ℚ) := by
    have : s / 3600 ≤ 24 * (s / 86400) + 23 := by omega
    exact_mod_cast this
  push_cast at hk1 hk2
  have p12 : (2 : ℚ) ^ (-12 : Int) = 1 / 4096 := by norm_num
  have c0 : ((4095 : Nat) : ℚ) = 4095 := by norm_num
  have c1 : ((4096 * (s / 3600) + 4095 : Nat) : ℚ) = 4096 * ((s / 3600 : Nat) : ℚ) + 4095 := by
    push_cast
    ring
  have c2 : ((131072 * (s / 86400) + 131071 : Nat) : ℚ) =
      131072 * ((s / 86400 : Nat) : ℚ) + 131071 := by
    push_cast
    ring
  have c3 : ((s % 3600 * 1000000000 : Nat) : ℚ) = ((s % 3600 : Nat) : ℚ) * 1000000000 := by
    push_cast
    ring
  have p17 : (2 : ℚ) ^ (-17 : Int) = 1 / 131072 := by norm_num
  -- the fraction of an hour
  have hn5 := div_not_neg _ _ hn2 hn3
  have h5lo := toRat_nonneg _ hn5
  have h5hi := div_le _ _ 4095 (-12) hn2 hn3 hm3 (by norm_num) (by
    rw [hv2, hv3, p12, div_le_iff₀ (by norm_num), c0, c3]
    linarith)
  -- the hours
  have hn6 := add_not_neg _ _ hn1 hn5
  have h6lo := le_add _ _ (s / 3600) 0 hn1 hn5 (by omega) (by
    rw [hv1, zpow_zero]
    linarith)
  have h6hi := add_le _ _ (4096 * (s / 3600) + 4095) (-12) hn1 hn5 (by omega) (by
    rw [hv1, p12, c1]
    rw [p12, c0] at h5hi
    linarith)
  -- the days
  have hn7 := div_not_neg _ _ hn6 hn4
  have h7lo := le_div _ _ (s / 86400) 0 hn6 hn4 hm4 (by omega) (by
    rw [hv4, zpow_zero, le_div_iff₀ (by norm_num)]
    rw [zpow_zero] at h6lo
    linarith)
  have h7hi := div_le _ _ (131072 * (s / 86400) + 131071) (-17) hn6 hn4 hm4 (by omega) (by
    rw [hv4, p17, div_le_iff₀ (by norm_num), c2]
    rw [p12, c1] at h6hi
    linarith)
  apply toInt_of_bounds _ _ hn7
  · rw [zpow_zero] at h7lo
    linarith
  · rw [p17, c2] at h7hi
    linarith

theorem durationSub_nonpos (e s : Int) (h : e - s ≤ 0) : durationSub e s ≤ 0 := by
  unfold durationSub
  split_ifs <;> omega

theorem durationSub_exact (e s : Int) (h0 : 0 ≤ e - s) (h : e - s ≤ 9223372036) :
    durationSub e s = (e - s) * 1000000000 := by
  unfold durationSub
  rw [if_neg (by omega), if_neg (by omega)]

theorem durationSub_saturated (e s : Int) (h : 9223372036 < e - s) :
    durationSub e s = 2 ^ 63 - 1 := by
  unfold durationSub
  rw [if_neg (by omega), if_pos (by omega)]

/-- The day count of `GetCurrentStreak` on the branch of a streak that is not
broken, in terms of the truncated quotient. -/
theorem getCurrentStreak_days (ukDay : Int → String) (nowUnix streakStartTime streakEndTime : Int)
    (hnb : ¬ (ukDay streakEndTime).data < (ukDay (wrapInt64 (nowUnix - 24 * 3600))).data) :
    (GetCurrentStreak ukDay nowUnix streakStartTime streakEndTime).1 =
      (if F64.toInt (F64.div (durationHours (durationSub streakEndTime streakStartTime))
          (F64.ofInt 24)) + 1 < 1 then 1
       else F64.toInt (F64.div (durationHours (durationSub streakEndTime streakStartTime))
          (F64.ofInt 24)) + 1) := by
  unfold GetCurrentStreak
  dsimp only
  rw [if_neg hnb]

/-- The truncated quotient of `GetCurrentStreak` for a span below 9223372800
seconds. -/
theorem streakDays_value (streakStartTime streakEndTime : Int)
    (hspan : streakEndTime - streakStartTime < 9223372800) :
    (if F64.toInt (F64.div (durationHours (durationSub streakEndTime streakStartTime))
          (F64.ofInt 24)) + 1 < 1 then 1
       else F64.toInt (F64.div (durationHours (durationSub streakEndTime streakStartTime))
          (F64.ofInt 24)) + 1) =
      max 1 ((streakEndTime - streakStartTime) / 86400 + 1) := by
  by_cases h0 : streakEndTime - streakStartTime ≤ 0
  · have h1 := streakDays_nonpos _ (durationSub_nonpos _ _ h0)
    split_ifs <;> omega
  · by_cases h9 : streakEndTime - streakStartTime ≤ 9223372036
    · obtain ⟨n, hn⟩ := Int.eq_ofNat_of_zero_le (show 0 ≤ streakEndTime - streakStartTime by omega)
      rw [durationSub_exact _ _ (by omega) h9, hn, streakDays_nonneg n (by omega)]
      push_cast
      split_ifs <;> omega
    · rw [durationSub_saturated _ _ (by omega)]
      have hv : F64.toInt (F64.div (durationHours (2 ^ 63 - 1)) (F64.ofInt 24)) = 106751 := by
        decide
      rw [hv]
      split_ifs <;> omega

/-- C21 (counterexample): two inputs with a streak that is not broken
(localDay(end) is not before localDay(now - 86400)) where the day count is not
max(1, floor((end - start) / 86400) + 1). First, with end = now =
2024-01-04 12:00 UTC and a start 9223372800 seconds (106752 days) earlier, the
elapsed time exceeds the greatest `time.Duration`, so `Sub` saturates:
`GetCurrentStreak` returns the day count 106752, whereas the formula gives
106753. Second, with start = end = now = 10000-01-01 00:30 UTC the text
"10000-01-01" is before yesterday's text "9999-12-31", so the code takes the
streak for broken and returns the day count 0, whereas the formula gives 1. -/
theorem streak_dayCount_saturates :
    (sampleWinterDay (1704369600 - 86400) ≤ sampleWinterDay 1704369600 ∧
      (GetCurrentStreak (fun t => formatDay (sampleWinterDay t)) 1704369600
        (-7519003200) 1704369600).1 = 106752 ∧
      max 1 ((1704369600 - (-7519003200)) / 86400 + 1) = (106753 : Int)) ∧
    (sampleWinterDay (253402302600 - 86400) ≤ sampleWinterDay 253402302600 ∧
      (GetCurrentStreak (fun t => formatDay (sampleWinterDay t)) 253402302600
        253402302600 253402302600).1 = 0 ∧
      max 1 ((253402302600 - 253402302600) / 86400 + 1) = (1 : Int)) := by
  decide

/-- C21 (amended): let `localDay` be the Europe/London calendar-day function, so
that the day text of an instant `t` is `formatDay (localDay t)`, and let the
clock reading `nowUnix` be an input whose yesterday does not leave the 64-bit
range. Whenever the streak is not broken (localDay(end) is not before
localDay(now - 86400)), these two local days lie in the years 0 to 9999 (the
days -719528 to 2932896 counted from 1970-01-01), start and end are instants
that `time.Unix` stores without wrapping (below 2^63 - 62135596800), and
end - start is below 9223372800 seconds (106752 days), `GetCurrentStreak`
returns dayCount = max(1, floor((end - start) / 86400) + 1); hence
dayCount ≥ 1, also when start > end. -/
theorem getCurrentStreak_dayCount (localDay : Int → Int)
    (nowUnix streakStartTime streakEndTime : Int)
    (hrange : -(2 ^ 63) + 86400 ≤ nowUnix ∧ nowUnix < 2 ^ 63)
    (hyears : -719528 ≤ localDay (nowUnix - 86400) ∧ localDay streakEndTime ≤ 2932896)
    (hnb : localDay (nowUnix - 86400) ≤ localDay streakEndTime)
    (hunix : streakStartTime < 2 ^ 63 - 62135596800 ∧ streakEndTime < 2 ^ 63 - 62135596800)
    (hspan : streakEndTime - streakStartTime < 9223372800) :
    (GetCurrentStreak (fun t => formatDay (localDay t)) nowUnix streakStartTime
        streakEndTime).1 = max 1 ((streakEndTime - streakStartTime) / 86400 + 1) ∧
      1 ≤ (GetCurrentStreak (fun t => formatDay (localDay t)) nowUnix streakStartTime
        streakEndTime).1 := by
  have hy : wrapInt64 (nowUnix - 24 * 3600) = nowUnix - 86400 := by
    obtain ⟨h1, h2⟩ := hrange
    unfold wrapInt64
    norm_num at h1 h2 ⊢
    omega
  have htext : ¬ (formatDay (localDay streakEndTime)).data <
      (formatDay (localDay (nowUnix - 86400))).data := by
    rw [formatDay_lt_iff _ _ (by omega) hyears.2 hyears.1 (by omega)]
    omega
  have hd := getCurrentStreak_days (fun t => formatDay (localDay t)) nowUnix streakStartTime
    streakEndTime (by rw [hy]; exact htext)
  have := hunix
  rw [hd, streakDays_value _ _ hspan]
  exact ⟨rfl, le_max_left _ _⟩

/-- Witness of C21: now is 2024-01-04 12:00 UTC, the streak ended on 2024-01-03
and had started 300000 seconds before its end; the day count is 4. -/
theorem getCurrentStreak_dayCount_witness :
    (GetCurrentStreak (fun t => formatDay (sampleWinterDay t)) 1704369600 1704000000
        1704300000).1 = max 1 ((1704300000 - 1704000000) / 86400 + 1) ∧
      1 ≤ (GetCurrentStreak (fun t => formatDay (sampleWinterDay t)) 1704369600 1704000000
        1704300000).1 :=
  getCurrentStreak_dayCount sampleWinterDay 1704369600 1704000000 1704300000
    (by decide) (by decide) (by decide) (by decide) (by decide)

/-- C22 (counterexample): three pairs of timestamps on one local day for which
the day count is not 1. First, start = end = 2024-01-01 12:00 UTC read on
2024-01-04: the streak is broken and the day count is 0. Second, on 2023-10-29,
the local day of 25 hours on which the clocks go back, start = 00:10 BST and
end = now = 23:50 GMT are 88800 seconds apart: the streak is not broken and the
day count is 2. Third, start = end = now = 10000-01-01 00:30 UTC: the text
"10000-01-01" is before yesterday's text "9999-12-31", the code takes the
streak for broken and the day count is 0. -/
theorem streak_same_day_not_one :
    (sampleWinterDay 1704110400 = sampleWinterDay 1704110400 ∧
      (GetCurrentStreak (fun t => formatDay (sampleWinterDay t)) 1704369600 1704110400
        1704110400).1 = 0) ∧
    (sampleAutumnDay 1698534600 = sampleAutumnDay 1698623400 ∧
      (GetCurrentStreak (fun t => formatDay (sampleAutumnDay t)) 1698623400 1698534600
        1698623400).1 = 2) ∧
    (sampleWinterDay 253402302600 = sampleWinterDay 253402302600 ∧
      sampleWinterDay (253402302600 - 86400) ≤ sampleWinterDay 253402302600 ∧
      (GetCurrentStreak (fun t => formatDay (sampleWinterDay t)) 253402302600 253402302600
        253402302600).1 = 0) := by
  decide

/-- C22 (amended): let `localDay` be the Europe/London calendar-day function, so
that the day text of an instant `t` is `formatDay (localDay t)`, and let the
clock reading `nowUnix` be an input whose yesterday does not leave the 64-bit
range. For every pair of timestamps start and end (instants that `time.Unix`
stores without wrapping, below 2^63 - 62135596800) that fall on the same local
calendar day and are less than 24 hours apart (end - start < 86400), and whose
streak is not broken (localDay(end) is not before localDay(now - 86400), these
two local days lying in the years 0 to 9999, the days -719528 to 2932896
counted from 1970-01-01), `GetCurrentStreak` returns dayCount = 1. -/
theorem getCurrentStreak_same_day (localDay : Int → Int)
    (nowUnix streakStartTime streakEndTime : Int)
    (hrange : -(2 ^ 63) + 86400 ≤ nowUnix ∧ nowUnix < 2 ^ 63)
    (hyears : -719528 ≤ localDay (nowUnix - 86400) ∧ localDay streakEndTime ≤ 2932896)
    (hnb : localDay (nowUnix - 86400) ≤ localDay streakEndTime)
    (hunix : streakStartTime < 2 ^ 63 - 62135596800 ∧ streakEndTime < 2 ^ 63 - 62135596800)
    (hsame : localDay streakStartTime = localDay streakEndTime)
    (hday : streakEndTime - streakStartTime < 86400) :
    (GetCurrentStreak (fun t => formatDay (localDay t)) nowUnix streakStartTime
        streakEndTime).1 = 1 := by
  have hy : wrapInt64 (nowUnix - 24 * 3600) = nowUnix - 86400 := by
    obtain ⟨h1, h2⟩ := hrange
    unfold wrapInt64
    norm_num at h1 h2 ⊢
    omega
  have htext : ¬ (formatDay (localDay streakEndTime)).data <
      (formatDay (localDay (nowUnix - 86400))).data := by
    rw [formatDay_lt_iff _ _ (by omega) hyears.2 hyears.1 (by omega)]
    omega
  have hd := getCurrentStreak_days (fun t => formatDay (localDay t)) nowUnix streakStartTime
    streakEndTime (by rw [hy]; exact htext)
  rw [hd, streakDays_value _ _ (by omega)]
  have := hsame
  have := hunix
  omega

/-- Witness of C22: now is 2024-01-04 12:00 UTC, and the streak ran from 01:00
to 10:43 of that day. -/
theorem getCurrentStreak_same_day_witness :
    (GetCurrentStreak (fun t => formatDay (sampleWinterDay t)) 1704369600 1704330000
        1704365000).1 = 1 :=
  getCurrentStreak_same_day sampleWinterDay 1704369600 1704330000 1704365000
    (by decide) (by decide) (by decide) (by decide) (by decide) (by decide)

/-! ## Theorems: card order -/

/-- No byte stands before itself. -/
theorem byteBefore_irrefl (isLetter : Nat → Bool) (x : Nat) : ¬ byteBefore isLetter x x := by
  unfold byteBefore
  cases isLetter x <;> simp

/-- The order of the bytes is transitive. -/
theorem byteBefore_trans (isLetter : Nat → Bool) (x y z : Nat)
    (hxy : byteBefore isLetter x y) (hyz : byteBefore isLetter y z) :
    byteBefore isLetter x z := by
  unfold byteBefore at *
  cases hx : isLetter x <;> cases hy : isLetter y <;> cases hz : isLetter z <;>
    simp only [hx, hy, hz] at hxy hyz ⊢ <;> simp at hxy hyz ⊢ <;> omega

/-- Two different bytes are ordered one way or the other. -/
theorem byteBefore_total (isLetter : Nat → Bool) (x y : Nat) (hne : x ≠ y) :
    byteBefore isLetter x y ∨ byteBefore isLetter y x := by
  unfold byteBefore
  cases hx : isLetter x <;> cases hy : isLetter y <;> simp <;> omega

/-- One step of the loop of `LexicalCardIDLess`: the first bytes decide, and
when they are equal the rest does. -/
theorem lexLess_cons (isLetter : Nat → Bool) (x y : Nat) (a b : List Nat) :
    LexicalCardIDLess isLetter (x :: a) (y :: b) = true ↔
      byteBefore isLetter x y ∨ (x = y ∧ LexicalCardIDLess isLetter a b = true) := by
  rw [LexicalCardIDLess]
  unfold byteBefore
  by_cases hxy : x = y
  · subst hxy
    cases hx : isLetter x <;> simp
  · cases hx : isLetter x <;> cases hy : isLetter y <;> simp [hxy]

/-- No string is less than itself. -/
theorem lexLess_irrefl (isLetter : Nat → Bool) (a : List Nat) :
    LexicalCardIDLess isLetter a a = false := by
  induction a with
  | nil => rfl
  | cons x a ih =>
    rw [← Bool.not_eq_true, lexLess_cons]
    rintro (h | ⟨_, h⟩)
    · exact byteBefore_irrefl isLetter x h
    · rw [ih] at h; exact Bool.false_ne_true h

/-- The order `LexicalCardIDLess` is transitive. -/
theorem lexLess_trans (isLetter : Nat → Bool) (a : List Nat) :
    ∀ b c : List Nat, LexicalCardIDLess isLetter a b = true →
      LexicalCardIDLess isLetter b c = true → LexicalCardIDLess isLetter a c = true := by
  induction a with
  | nil =>
    intro b c hab hbc
    cases b with
    | nil => simp [LexicalCardIDLess] at hab
    | cons y b =>
      cases c with
      | nil => simp [LexicalCardIDLess] at hbc
      | cons z c => rfl
  | cons x a ih =>
    intro b c hab hbc
    cases b with
    | nil => simp [LexicalCardIDLess] at hab
    | cons y b =>
      cases c with
      | nil => simp [LexicalCardIDLess] at hbc
      | cons z c =>
        rw [lexLess_cons] at hab hbc ⊢
        rcases hab with h1 | ⟨e1, h1⟩
        · rcases hbc with h2 | ⟨e2, _⟩
          · exact Or.inl (byteBefore_trans isLetter x y z h1 h2)
          · subst e2; exact Or.inl h1
        · subst e1
          rcases hbc with h2 | ⟨e2, h2⟩
          · exact Or.inl h2
          · exact Or.inr ⟨e2, ih b c h1 h2⟩

/-- Two different strings are ordered one way or the other. -/
theorem lexLess_total (isLetter : Nat → Bool) (a : List Nat) :
    ∀ b : List Nat, a ≠ b →
      LexicalCardIDLess isLetter a b = true ∨ LexicalCardIDLess isLetter b a = true := by
  induction a with
  | nil =>
    intro b hne
    cases b with
    | nil => exact absurd rfl hne
    | cons y b => left; rfl
  | cons x a ih =>
    intro b hne
    cases b with
    | nil => right; rfl
    | cons y b =>
      rw [lexLess_cons, lexLess_cons]
      by_cases hxy : x = y
      · subst hxy
        have hab : a ≠ b := fun h => hne (by rw [h])
        rcases ih b hab with h | h
        · exact Or.inl (Or.inr ⟨rfl, h⟩)
        · exact Or.inr (Or.inr ⟨rfl, h⟩)
      · rcases byteBefore_total isLetter x y hxy with h | h
        · exact Or.inl (Or.inl h)
        · exact Or.inr (Or.inl h)

/-- A common beginning of the two strings does not change the result. -/
theorem lexLess_common (isLetter : Nat → Bool) (p a b : List Nat) :
    LexicalCardIDLess isLetter (p ++ a) (p ++ b) = LexicalCardIDLess isLetter a b := by
  induction p with
  | nil => rfl
  | cons x p ih =>
    rw [Bool.eq_iff_iff, List.cons_append, List.cons_append, lexLess_cons, ih]
    constructor
    · rintro (h | ⟨_, h⟩)
      · exact absurd h (byteBefore_irrefl isLetter x)
      · exact h
    · intro h; exact Or.inr ⟨rfl, h⟩

/-- C29: `LexicalCardIDLess` is a strict total order on byte strings, whatever
set of bytes `unicode.IsLetter` accepts: for all strings a, b, c,
LexicalCardIDLess(a, a) is false; LexicalCardIDLess(a, b) and
LexicalCardIDLess(b, c) imply LexicalCardIDLess(a, c); and if a ≠ b then exactly
one of LexicalCardIDLess(a, b), LexicalCardIDLess(b, a) is true. At the first
differing position (after a common part p) a letter sorts before a non-letter,
and a proper beginning of a string sorts before its extensions. -/
theorem lexicalCardIDLess_strict_total_order (isLetter : Nat → Bool) :
    (∀ a, LexicalCardIDLess isLetter a a = false) ∧
      (∀ a b c, LexicalCardIDLess isLetter a b = true →
        LexicalCardIDLess isLetter b c = true → LexicalCardIDLess isLetter a c = true) ∧
      (∀ a b, a ≠ b →
        (LexicalCardIDLess isLetter a b = true ∧ LexicalCardIDLess isLetter b a = false) ∨
        (LexicalCardIDLess isLetter a b = false ∧ LexicalCardIDLess isLetter b a = true)) ∧
      (∀ p x y a b, isLetter x = true → isLetter y = false →
        LexicalCardIDLess isLetter (p ++ x :: a) (p ++ y :: b) = true) ∧
      (∀ a b, b ≠ [] → LexicalCardIDLess isLetter a (a ++ b) = true) := by
  refine ⟨lexLess_irrefl isLetter, fun a b c => lexLess_trans isLetter a b c, ?_, ?_, ?_⟩
  · intro a b hne
    have hasym : ∀ u v, LexicalCardIDLess isLetter u v = true →
        LexicalCardIDLess isLetter v u = false := by
      intro u v huv
      rw [← Bool.not_eq_true]
      intro hvu
      have := lexLess_trans isLetter u v u huv hvu
      rw [lexLess_irrefl] at this
      exact Bool.false_ne_true this
    rcases lexLess_total isLetter a b hne with h | h
    · exact Or.inl ⟨h, hasym a b h⟩
    · exact Or.inr ⟨hasym b a h, h⟩
  · intro p x y a b hx hy
    rw [lexLess_common, lexLess_cons]
    exact Or.inl (Or.inl ⟨hx, hy⟩)
  · intro a b hb
    have := lexLess_common isLetter a [] b
    rw [List.append_nil] at this
    rw [this]
    cases b with
    | nil => exact absurd rfl hb
    | cons y b => rfl

/-- Witness of C29 with the letters of Latin-1: "card_a" sorts before "card_1"
(a letter against a digit after the common part "card_"), and "card_1" sorts
before its extension "card_12". -/
theorem lexicalCardIDLess_strict_total_order_witness :
    LexicalCardIDLess sampleIsLetter (sampleBytes "card_" ++ 97 :: sampleBytes "")
        (sampleBytes "card_" ++ 49 :: sampleBytes "") = true ∧
      LexicalCardIDLess sampleIsLetter (sampleBytes "card_1")
        (sampleBytes "card_1" ++ sampleBytes "2") = true :=
  ⟨(lexicalCardIDLess_strict_total_order sampleIsLetter).2.2.2.1 (sampleBytes "card_") 97 49
      (sampleBytes "") (sampleBytes "") (by decide) (by decide),
    (lexicalCardIDLess_strict_total_order sampleIsLetter).2.2.2.2 (sampleBytes "card_1")
      (sampleBytes "2") (by decide)⟩

/-! ## Theorems: browse window -/

/-- C30 (failing input): with three matching previews, the query `offset=-1`
and the query `offset=30` both make the slice expression `filtered[offset:end]`
panic: the first has offset = -1 < 0 (end = 3), the second has
offset = 30 > end = 3. The code limits `end` to the length but never checks
`offset`. -/
theorem serveBrowsePage_offset_unchecked :
    ServeBrowsePage ["c1", "c2", "c3"] "-1" = none ∧
      ServeBrowsePage ["c1", "c2", "c3"] "30" = none := by
  decide

/-- The window of `ServeBrowsePage` for an offset within the list (whose length
leaves room for `offset + 25` in an `int`): the slice expression is in range,
`end` is min(offset + 25, len), the page holds the items from `offset` up to
`end`, at most 25 of them, and `HasMore` tells whether items remain after
`end`. -/
theorem browsePage_in_range {α : Type} (filtered : List α) (offset : Int)
    (h0 : 0 ≤ offset) (hle : offset ≤ (filtered.length : Int))
    (hlen : (filtered.length : Int) < 2 ^ 63 - 25) :
    browsePage filtered offset =
      some ((filtered.drop offset.toNat).take (min (offset + 25) filtered.length - offset).toNat,
        decide (min (offset + 25) (filtered.length : Int) < filtered.length),
        min (offset + 25) (filtered.length : Int)) ∧
      ((filtered.drop offset.toNat).take
        (min (offset + 25) filtered.length - offset).toNat).length ≤ 25 := by
  have hw : wrapInt64 (offset + 25) = offset + 25 := by
    unfold wrapInt64
    norm_num at hlen ⊢
    omega
  have hend : (if wrapInt64 (offset + 25) > (filtered.length : Int) then (filtered.length : Int)
      else wrapInt64 (offset + 25)) = min (offset + 25) (filtered.length : Int) := by
    rw [hw]
    split_ifs <;> omega
  constructor
  · unfold browsePage
    dsimp only
    rw [hend, if_pos ⟨h0, by omega⟩]
  · rw [List.length_take]
    omega

/-- The slice expression of `ServeBrowsePage` is in range exactly for the
offsets from 0 to the length of the list. -/
theorem browsePage_isSome_iff {α : Type} (filtered : List α) (offset : Int)
    (hlen : (filtered.length : Int) < 2 ^ 63 - 25) :
    (browsePage filtered offset).isSome = true ↔
      (0 ≤ offset ∧ offset ≤ (filtered.length : Int)) := by
  constructor
  · intro h
    unfold browsePage at h
    dsimp only at h
    split_ifs at h with h1 h2 h2
    · exact ⟨h2.1, h2.2⟩
    · simp at h
    · refine ⟨h2.1, ?_⟩
      omega
    · simp at h
  · rintro ⟨h0, hle⟩
    rw [(browsePage_in_range filtered offset h0 hle hlen).1]
    rfl

/-! ## Theorems: new card ids -/

/-- The code of a decimal digit character. -/
theorem digitChar_toNat (m : Nat) (h : m < 10) : (Nat.digitChar m).toNat = 48 + m := by
  interval_cases m <;> decide

/-- The digit loop of `Nat.repr` writes, in front of its accumulator, digits
that `parseDigits` reads back as the number. -/
theorem toDigitsCore_parse (fuel : Nat) :
    ∀ (n : Nat) (ds : List Char), n < fuel →
      ∃ front : List Char, Nat.toDigitsCore 10 fuel n ds = front ++ ds ∧ front ≠ [] ∧
        ∀ (rest : List Char) (acc : Nat),
          parseDigits (front ++ rest) acc = parseDigits rest (acc * 10 ^ front.length + n) := by
  induction fuel with
  | zero => intro n ds h; omega
  | succ fuel ih =>
    intro n ds hn
    have hd : (Nat.digitChar (n % 10)).toNat = 48 + n % 10 :=
      digitChar_toNat _ (Nat.mod_lt _ (by norm_num))
    have hstep : ∀ (rest : List Char) (acc : Nat),
        parseDigits (Nat.digitChar (n % 10) :: rest) acc =
          parseDigits rest (acc * 10 + n % 10) := by
      intro rest acc
      rw [parseDigits, if_pos (by rw [hd]; omega), hd]
      congr 1
      omega
    unfold Nat.toDigitsCore
    simp only
    split
    · rename_i h0
      refine ⟨[Nat.digitChar (n % 10)], rfl, by simp, ?_⟩
      intro rest acc
      rw [List.singleton_append, hstep]
      congr 1
      simp only [List.length_singleton, pow_one]
      omega
    · rename_i h0
      obtain ⟨front, hfront, _, hparse⟩ := ih (n / 10) (Nat.digitChar (n % 10) :: ds) (by omega)
      refine ⟨front ++ [Nat.digitChar (n % 10)], ?_, by simp, ?_⟩
      · rw [hfront]
        simp
      · intro rest acc
        rw [List.append_assoc, List.singleton_append, hparse, hstep]
        congr 1
        rw [List.length_append, List.length_singleton, pow_succ]
        have := Nat.div_add_mod n 10
        nlinarith [this]

/-- The decimal text of a natural number parses back to the number. -/
theorem parseDigits_toString (n : Nat) (rest : List Char) :
    (toString n).data ≠ [] ∧
      parseDigits ((toString n).data ++ rest) 0 = parseDigits rest n := by
  obtain ⟨front, hfront, hne, hparse⟩ := toDigitsCore_parse (n + 1) n [] (by omega)
  have hs : (toString n).data = front := by
    show (Nat.repr n).data = front
    unfold Nat.repr Nat.toDigits
    rw [hfront]
    simp [List.asString]
  rw [hs]
  refine ⟨hne, ?_⟩
  rw [hparse]
  simp

/-- Zeros in front do not change what `parseDigits` reads. -/
theorem parseDigits_zeros (k : Nat) (rest : List Char) :
    parseDigits (List.replicate k '0' ++ rest) 0 = parseDigits rest 0 := by
  induction k with
  | zero => rfl
  | succ k ih =>
    rw [List.replicate_succ, List.cons_append, parseDigits, if_pos (by decide)]
    exact ih


/-- A text of digits that `parseDigits` accepts is accepted by `Atoi` with the
same value, when the value fits an `int`. -/
theorem atoi_of_parse (s : String) (n : Nat) (hne : s.data ≠ [])
    (hp : parseDigits s.data 0 = some n) (hr : (n : Int) ≤ 2 ^ 63 - 1) :
    Atoi s = some (n : Int) := by
  unfold Atoi
  cases hs : s.data with
  | nil => exact absurd hs hne
  | cons c tl =>
    rw [hs] at hp
    have hc : 48 ≤ c.toNat ∧ c.toNat ≤ 57 := by
      by_contra hcon
      rw [parseDigits, if_neg hcon] at hp
      exact Option.noConfusion hp
    have h1 : c ≠ '-' := by
      intro h
      rw [h] at hc
      revert hc
      decide
    have h2 : c ≠ '+' := by
      intro h
      rw [h] at hc
      revert hc
      decide
    have h3 : ¬ (c = '-' ∨ c = '+') := by
      rintro (h | h)
      · exact h1 h
      · exact h2 h
    have hdig : (if c = '-' ∨ c = '+' then tl else c :: tl) = c :: tl := if_neg h3
    have hneg : decide (c = '-') = false := decide_eq_false h1
    dsimp only
    rw [hdig, hneg, if_neg (by simp), hp]
    dsimp only
    rw [if_pos ⟨by have := Int.ofNat_nonneg n; omega, hr⟩]
    simp

/-- The text `%06d` of a number from 0 to the greatest `int` has at least six
characters and is read back by `strconv.Atoi` as the number. -/
theorem atoi_fmtPad6 (n : Nat) (hr : (n : Int) ≤ 2 ^ 63 - 1) :
    Atoi (fmtPad6 (n : Int)) = some (n : Int) ∧ 6 ≤ (fmtPad6 (n : Int)).data.length := by
  have hdata : (fmtPad6 (n : Int)).data =
      List.replicate (6 - (toString n).length) '0' ++ (toString n).data := by
    unfold fmtPad6
    rw [if_neg (by have := Int.ofNat_nonneg n; omega), Int.natAbs_ofNat, String.data_append]
  obtain ⟨hne, hparse⟩ := parseDigits_toString n []
  constructor
  · apply atoi_of_parse _ _ _ _ hr
    · rw [hdata]
      intro h
      exact hne (List.append_eq_nil.1 h).2
    · rw [hdata]
      have := parseDigits_zeros (6 - (toString n).length) ((toString n).data ++ [])
      rw [List.append_nil] at this hparse
      rw [this, hparse]
      rfl
  · rw [hdata, List.length_append, List.length_replicate]
    have : (toString n).length = (toString n).data.length := rfl
    omega

/-- The loop of `generateSequentialCardID` from any starting value: the result
is at least the start and every number read, and it is the start or one of the
numbers read. -/
theorem maxNum_foldl (studentId : String) (ids : List String) :
    ∀ a : Int,
      a ≤ ids.foldl (fun maxNum id =>
          match cardNumber studentId id with
          | some n => if n > maxNum then n else maxNum
          | none => maxNum) a ∧
      (∀ id ∈ ids, ∀ n, cardNumber studentId id = some n →
        n ≤ ids.foldl (fun maxNum id =>
          match cardNumber studentId id with
          | some n => if n > maxNum then n else maxNum
          | none => maxNum) a) ∧
      (ids.foldl (fun maxNum id =>
          match cardNumber studentId id with
          | some n => if n > maxNum then n else maxNum
          | none => maxNum) a = a ∨
        ∃ id ∈ ids, cardNumber studentId id = some (ids.foldl (fun maxNum id =>
          match cardNumber studentId id with
          | some n => if n > maxNum then n else maxNum
          | none => maxNum) a)) := by
  induction ids with
  | nil =>
    intro a
    exact ⟨le_refl _, fun id h => absurd h (List.not_mem_nil _), Or.inl rfl⟩
  | cons x xs ih =>
    intro a
    rw [List.foldl_cons]
    cases hx : cardNumber studentId x with
    | none =>
      obtain ⟨h1, h2, h3⟩ := ih a
      refine ⟨h1, ?_, ?_⟩
      · intro id hid n hn
        rcases List.mem_cons.1 hid with h | h
        · rw [h, hx] at hn
          exact Option.noConfusion hn
        · exact h2 id h n hn
      · rcases h3 with h | ⟨id, hid, h⟩
        · exact Or.inl h
        · exact Or.inr ⟨id, List.mem_cons_of_mem _ hid, h⟩
    | some m =>
      simp only
      have hb : a ≤ (if m > a then m else a) ∧ m ≤ (if m > a then m else a) ∧
          ((if m > a then m else a) = a ∨ (if m > a then m else a) = m) := by
        split_ifs <;> omega
      generalize (if m > a then m else a) = b at hb
      obtain ⟨h1, h2, h3⟩ := ih b
      refine ⟨by omega, ?_, ?_⟩
      · intro id hid n hn
        rcases List.mem_cons.1 hid with h | h
        · rw [h, hx] at hn
          have : m = n := Option.some.inj hn
          omega
        · exact h2 id h n hn
      · rcases h3 with h | ⟨id, hid, h⟩
        · rcases hb.2.2 with hba | hbm
          · left
            rw [h, hba]
          · right
            refine ⟨x, List.mem_cons_self _ _, ?_⟩
            rw [h, hbm, hx]
        · exact Or.inr ⟨id, List.mem_cons_of_mem _ hid, h⟩

/-- The id of `generateSequentialCardID` in terms of the numbers read. -/
theorem generateSequentialCardID_eq (studentId : String) (ids : List String) :
    generateSequentialCardID studentId ids =
      "card_" ++ studentId ++ "_" ++ fmtPad6 (wrapInt64 (ids.foldl (fun maxNum id =>
          match cardNumber studentId id with
          | some n => if n > maxNum then n else maxNum
          | none => maxNum) 0 + 1)) := by
  unfold generateSequentialCardID
  dsimp only
  congr 4
  congr 1
  funext maxNum id
  unfold cardNumber
  split_ifs <;> rfl

/-- Without overflow of `maxNum + 1` (every number read from a fetched id is
below the greatest `int`) `generateSequentialCardID` does what its comment says:
the id is "card_<studentId>_" followed by max + 1 in at least six characters,
where max is the greatest positive number read from the fetched ids (0 when
there is none), and the id differs from every fetched id. -/
theorem generateSequentialCardID_fresh (studentId : String) (ids : List String)
    (hno : ∀ id ∈ ids, ∀ n, cardNumber studentId id = some n → n < 2 ^ 63 - 1) :
    (∃ m : Int, generateSequentialCardID studentId ids =
          "card_" ++ studentId ++ "_" ++ fmtPad6 (m + 1) ∧
        0 ≤ m ∧ (∀ id ∈ ids, ∀ n, cardNumber studentId id = some n → n ≤ m) ∧
        (m = 0 ∨ ∃ id ∈ ids, cardNumber studentId id = some m) ∧
        Atoi (fmtPad6 (m + 1)) = some (m + 1) ∧ 6 ≤ (fmtPad6 (m + 1)).data.length) ∧
      generateSequentialCardID studentId ids ∉ ids := by
  obtain ⟨h1, h2, h3⟩ := maxNum_foldl studentId ids 0
  rw [generateSequentialCardID_eq]
  generalize ids.foldl (fun maxNum id =>
          match cardNumber studentId id with
          | some n => if n > maxNum then n else maxNum
          | none => maxNum) 0 = m at h1 h2 h3
  have hm : m < 2 ^ 63 - 1 := by
    rcases h3 with h | ⟨id, hid, h⟩
    · rw [h]
      norm_num
    · exact hno id hid m h
  have hw : wrapInt64 (m + 1) = m + 1 := by
    unfold wrapInt64
    norm_num at hm ⊢
    omega
  rw [hw]
  obtain ⟨k, hk⟩ := Int.eq_ofNat_of_zero_le (show 0 ≤ m + 1 by omega)
  have hpad := atoi_fmtPad6 k (by rw [← hk]; omega)
  rw [← hk] at hpad
  refine ⟨⟨m, rfl, h1, h2, h3, hpad.1, hpad.2⟩, ?_⟩
  intro hmem
  have hnum : cardNumber studentId ("card_" ++ studentId ++ "_" ++ fmtPad6 (m + 1)) =
      some (m + 1) := by
    unfold cardNumber
    rw [String.data_append ("card_" ++ studentId ++ "_"), if_pos (by simp),
      List.drop_left]
    exact hpad.1
  have := h2 _ hmem _ hnum
  omega

/-- An instance of the uniqueness of the new id: with the numbers 1 and 12 read
for "harvey", the new id is not among the fetched ones. -/
theorem generateSequentialCardID_fresh_witness :
    generateSequentialCardID "harvey" ["card_harvey_000001", "card_harvey_12", "card_bob_99"] ∉
      ["card_harvey_000001", "card_harvey_12", "card_bob_99"] :=
  (generateSequentialCardID_fresh "harvey" ["card_harvey_000001", "card_harvey_12", "card_bob_99"]
    (by decide)).2

/-- C26 (failing input): for the student "s" and the fetched ids
"card_s_9223372036854775807" and "card_s_-9223372036854775808" the greatest
parsed number is the greatest `int`, `maxNum + 1` wraps to the least `int`, and
`generateSequentialCardID` returns "card_s_-9223372036854775808": not
max + 1 padded with zeros, and an id that is already in the fetched list. -/
theorem generateSequentialCardID_repeats_id :
    generateSequentialCardID "s"
        ["card_s_9223372036854775807", "card_s_-9223372036854775808"] =
      "card_s_-9223372036854775808" ∧
    generateSequentialCardID "s"
        ["card_s_9223372036854775807", "card_s_-9223372036854775808"] ∈
      ["card_s_9223372036854775807", "card_s_-9223372036854775808"] := by
  decide

end Flashcards
